import Mathlib

/-!
The deployment state machine of serversfordev/deploy.

A shallow embedding of `internal/deployer`, `internal/release`, `internal/lock`,
`internal/hook` and the provider interface.

How the program is modelled:

* The app directory is a `World`: the lock marker, the `current`, `previous` and
  `current.tmp` symlinks, and the entries of `releases/`.  A release directory
  `filepath.Join(appDir, "releases", name)` is identified by `name`; a symlink target
  is recorded by the name of the release directory it designates, and a target that
  names no directory entry of `releases/` is dangling.
* Every call that leaves the process (a system call of package `os`, a provider
  method, a hook process) asks the environment `Env.fault` whether it fails.  The
  question carries the call (`Op`) and the number of calls made so far
  (`World.tick`), so the same call may succeed once and fail later.  A call that is
  not failed by the environment succeeds exactly when the state of the `World` lets
  it succeed (reading an absent symlink still fails).
* `Logger.Printf` lines and the jitter sleep of `StateInit` have no effect on the
  state that is tracked and are left out.
* Hooks and `Provider.Clone` are judged by their exit status only; entries of
  `Config.Deploy.Shared` are taken to name paths strictly inside the new release
  directory.  None of them changes the tracked state.
* A Go `panic` is an outcome of its own (`Outcome.panic`).
-/

namespace Deploy

/-! ## deployer.go: states -/

/-- States of the deployer, `type State string` with its ten constants. -/
inductive State
  | StateInit
  | StateDetectChanges
  | StateClone
  | StateBuild
  | StateDeploy
  | StatePostDeploy
  | StateVerify
  | StateError
  | StateFinalize
  | StateEnd
  deriving DecidableEq, Repr

open State

/-- Transition table `stateTransitions`; `StateEnd` has no entry in the map. -/
def stateTransitions : State → Option (List State)
  | StateInit => some [StateDetectChanges, StateError]
  | StateDetectChanges => some [StateClone, StateFinalize, StateError]
  | StateClone => some [StateBuild, StateError]
  | StateBuild => some [StateDeploy, StateError]
  | StateDeploy => some [StatePostDeploy, StateError]
  | StatePostDeploy => some [StateVerify, StateError]
  | StateVerify => some [StateFinalize, StateError]
  | StateError => some [StateFinalize]
  | StateFinalize => some [StateEnd]
  | StateEnd => none

/-! ## hook.go, config.go -/

/-- Hook names, `type Hook string` with its five constants. -/
inductive Hook
  | HookClone
  | HookBuild
  | HookDeploy
  | HookPostDeploy
  | HookVerify
  deriving DecidableEq, Repr

open Hook

/-- Jitter window in seconds (`JitterConfig`). -/
structure JitterConfig where
  Min : Int
  Max : Int
  deriving DecidableEq, Repr

/-- Shared directories and files (`SharedConfig`). -/
structure SharedConfig where
  Dirs : List String
  Files : List String
  deriving DecidableEq, Repr

/-- Deployment settings (`DeployConfig`); `KeepReleases` is a Go `int` that
`config.Load` does not validate. -/
structure DeployConfig where
  KeepReleases : Int
  Jitter : JitterConfig
  Shared : SharedConfig
  deriving DecidableEq, Repr

/-- The part of `Config` the deployer reads. -/
structure Config where
  Deploy : DeployConfig
  deriving DecidableEq, Repr

/-- Settings written by `config.Default()`. -/
def Config.Default : Config :=
  { Deploy := { KeepReleases := 3, Jitter := { Min := 5, Max := 10 },
                Shared := { Dirs := [], Files := [] } } }

/-! ## Errors and outcomes -/

/-- Go `error` values that the modelled code creates or compares. -/
inductive Error
  | ErrNoCurrentRelease
  | msg (text : String)
  | noHandler (s : State)
  | invalidTransition (src dst : State)
  deriving DecidableEq, Repr

/-- How a call ends: it returns `nil`, returns an error, or panics. -/
inductive Outcome
  | nil
  | error (e : Error)
  | panic (text : String)
  deriving DecidableEq, Repr

/-! ## The app directory and its environment -/

/-- One entry of the `releases` directory. `revision` is the content of the entry's
`REVISION` file when there is one. -/
structure ReleaseEntry where
  name : String
  isDir : Bool
  modTime : Nat
  revision : Option String
  deriving DecidableEq, Repr

/-- Calls that leave the process, one constructor per call site kind. -/
inductive Op
  | lockStat
  | lockWrite
  | lockRemove
  | readlinkCurrent
  | readlinkPrevious
  | removePrevious
  | symlinkPrevious (target : String)
  | symlinkTmp (target : String)
  | renameTmp
  | removeTmp
  | mkdirAllRelease (name : String)
  | writeRevision (name : String)
  | readRevision
  | removeAllRelease (name : String)
  | readDirReleases
  | statRelease (name : String)
  | symlinkShared (entry : String)
  | providerInit
  | providerGetRevision
  | providerClone (name : String)
  | hook (h : Hook) (dir : String)
  deriving DecidableEq, Repr

/-- Tracked state of one app directory. -/
structure World where
  lockFile : Bool
  current : Option String
  previous : Option String
  currentTmp : Option String
  releasesExists : Bool
  releases : List ReleaseEntry
  hooksRun : List (Hook × String)
  tick : Nat
  deriving DecidableEq, Repr

/-- What the run does not control.
* `fault t op`: the call `op`, made as call number `t`, is failed by the environment;
* `revision`: the identifier `Provider.GetRevision` answers with;
* `timestamp`: `time.Now().Format("20060102_150405")` as read by `NewRelease`;
* `now`: modification time stamped on what the run creates;
* `growth n`: capacity the Go runtime gives a slice built by `n` appends to `nil`. -/
structure Env where
  fault : Nat → Op → Bool
  revision : String
  timestamp : String
  now : Nat
  growth : Nat → Nat

/-- Is the call a system call of package `os`, as opposed to a provider method or a hook
process? -/
def Op.isFileSystem : Op → Bool
  | Op.providerInit => false
  | Op.providerGetRevision => false
  | Op.providerClone _ => false
  | Op.hook _ _ => false
  | _ => true

/-- The environment fails no file system call (provider methods and hooks may fail). -/
def Env.fsCalm (env : Env) : Prop :=
  ∀ t op, op.isFileSystem = true → env.fault t op = false

/-- The environment fails no call at all: no file system call, no provider method and
no hook. -/
def Env.calm (env : Env) : Prop :=
  ∀ t op, env.fault t op = false

/-- Does the environment fail the call `op` made now? -/
def Env.fails (env : Env) (w : World) (op : Op) : Bool :=
  env.fault w.tick op

/-- Account for one call. -/
def World.next (w : World) : World :=
  { w with tick := w.tick + 1 }

/-- Directory entry of `releases` with the given name, if any. -/
def World.entry (w : World) (name : String) : Option ReleaseEntry :=
  w.releases.find? (fun e => e.name == name)

/-- Does `name` designate an existing release directory? -/
def World.isReleaseDir (w : World) (name : String) : Bool :=
  match w.entry name with
  | some e => e.isDir
  | none => false

/-- Remove the entry `name` of `releases` (`os.RemoveAll` on its path). -/
def World.removeEntry (w : World) (name : String) : World :=
  { w with releases := w.releases.filter (fun e => !(e.name == name)) }

/-- The release directories: the directory entries of `releases`. -/
def World.dirs (w : World) : List ReleaseEntry :=
  w.releases.filter (fun e => e.isDir)

/-- What a file system guarantees about `releases`: entry names are pairwise distinct
and none is empty. -/
def World.WellFormed (w : World) : Prop :=
  (w.releases.map (fun e => e.name)).Nodup ∧ ∀ e ∈ w.releases, e.name ≠ ""

/-! ## lock.go -/

/-- Model of `lock.Acquire`. -/
def lock.Acquire (env : Env) (w : World) : Option Error × World :=
  let statFails := env.fails w Op.lockStat
  let w := w.next
  if w.lockFile && !statFails then
    (some (Error.msg "deployment already in progress, lock file exists"), w)
  else
    let writeFails := env.fails w Op.lockWrite
    let w := w.next
    if writeFails then (some (Error.msg "write deploy.lock"), w)
    else (none, { w with lockFile := true })

/-- Model of `lock.Release`: `os.Remove` of the marker. -/
def lock.Release (env : Env) (w : World) : Option Error × World :=
  let removeFails := env.fails w Op.lockRemove
  let w := w.next
  if removeFails || !w.lockFile then (some (Error.msg "remove deploy.lock"), w)
  else (none, { w with lockFile := false })

/-! ## hook.go -/

/-- Model of `hook.ExecuteHook`: the environment says whether a hook file exists and
its process fails; an absent hook and a hook that exits with status 0 both give
`nil`. -/
def hook.ExecuteHook (env : Env) (releaseDir : String) (h : Hook) (w : World) :
    Option Error × World :=
  let fails := env.fails w (Op.hook h releaseDir)
  let w := { w.next with hooksRun := w.hooksRun ++ [(h, releaseDir)] }
  if fails then (some (Error.msg "failed to execute hook"), w) else (none, w)

/-! ## provider.go -/

/-- Model of `Provider.Init`. -/
def Provider.Init (env : Env) (w : World) : Option Error × World :=
  let fails := env.fails w Op.providerInit
  if fails then (some (Error.msg "provider init"), w.next) else (none, w.next)

/-- Model of `Provider.GetRevision`. -/
def Provider.GetRevision (env : Env) (w : World) : Except Error String × World :=
  let fails := env.fails w Op.providerGetRevision
  if fails then (Except.error (Error.msg "provider revision"), w.next)
  else (Except.ok env.revision, w.next)

/-- Model of `Provider.Clone`. -/
def Provider.Clone (env : Env) (targetDir : String) (w : World) : Option Error × World :=
  let fails := env.fails w (Op.providerClone targetDir)
  if fails then (some (Error.msg "failed to copy repository files"), w.next)
  else (none, w.next)

/-! ## release.go -/

/-- First block of `release.UpdateCurrent` ("Set previous symlink if current exists"):
when `current` can be read, `previous` is removed and linked to the target of
`current`; the results of `os.Remove` and `os.Symlink` are dropped. -/
def release.setPrevious (env : Env) (w : World) : World :=
  let readFails := env.fails w Op.readlinkCurrent
  let w := w.next
  match (if readFails then none else w.current) with
  | some currentSymlinkTarget =>
    let removeFails := env.fails w Op.removePrevious
    let w := w.next
    let w := if removeFails then w else { w with previous := none }
    let symlinkFails := env.fails w (Op.symlinkPrevious currentSymlinkTarget)
    let w := w.next
    if symlinkFails || w.previous.isSome then w
    else { w with previous := some currentSymlinkTarget }
  | none => w

/-- Model of `release.UpdateCurrent`: after the `previous` link, the new `current` is
built as `current.tmp` and renamed over `current`; when the rename fails the
temporary link is removed. -/
def release.UpdateCurrent (env : Env) (releaseDir : String) (w : World) :
    Option Error × World :=
  let w := release.setPrevious env w
  let tmpFails := env.fails w (Op.symlinkTmp releaseDir)
  let w := w.next
  if tmpFails || w.currentTmp.isSome then
    (some (Error.msg "failed to create temporary symlink"), w)
  else
    let w := { w with currentTmp := some releaseDir }
    let renameFails := env.fails w Op.renameTmp
    let w := w.next
    if renameFails then
      let removeFails := env.fails w Op.removeTmp
      let w := w.next
      let w := if removeFails then w else { w with currentTmp := none }
      (some (Error.msg "failed to update current symlink"), w)
    else
      (none, { w with current := some releaseDir, currentTmp := none })

/-- Model of `release.Rollback`. -/
def release.Rollback (env : Env) (w : World) : Option Error × World :=
  let readFails := env.fails w Op.readlinkPrevious
  let w := w.next
  match (if readFails then none else w.previous) with
  | none => (some (Error.msg "failed to read previous symlink"), w)
  | some previousTarget =>
    match release.UpdateCurrent env previousTarget w with
    | (some _, w) => (some (Error.msg "failed to rollback to previous release"), w)
    | (none, w) => (none, w)

/-- The call `os.MkdirAll(releaseDir, 0755)` of `NewRelease`: it accepts a directory
that is already there, fails on an entry that is not a directory, and creates the
directory otherwise.  `none` stands for an error. -/
def release.mkdirAllRelease (env : Env) (name : String) (w : World) : Option World :=
  if env.fails w (Op.mkdirAllRelease name) then none
  else match w.entry name with
    | some e => if e.isDir then some w.next else none
    | none =>
      some { w.next with
        releasesExists := true
        releases := w.releases ++
          [{ name := name, isDir := true, modTime := env.now, revision := none }] }

/-- Model of `release.NewRelease`.  Writing `REVISION` creates or replaces the marker
(creating it changes the modification time of the directory).  On an error the Go
function returns the empty string. -/
def release.NewRelease (env : Env) (revisionID : String) (w : World) :
    Except Error String × World :=
  let timestamp := env.timestamp
  match release.mkdirAllRelease env timestamp w with
  | none => (Except.error (Error.msg "failed to create release directory"), w.next)
  | some w =>
    let writeFails := env.fails w (Op.writeRevision timestamp)
    let w := w.next
    if writeFails then (Except.error (Error.msg "failed to write revision file"), w)
    else
      (Except.ok timestamp,
        { w with releases := w.releases.map (fun e =>
            if e.name == timestamp then
              { e with revision := some revisionID
                       modTime := if e.revision.isSome then e.modTime else env.now }
            else e) })

/-- Model of `release.CurrentRevision`.  An absent `current` link gives
`ErrNoCurrentRelease`; the marker is read through the link. -/
def release.CurrentRevision (env : Env) (w : World) : Except Error String × World :=
  let readlinkFails := env.fails w Op.readlinkCurrent
  let w := w.next
  if readlinkFails then (Except.error (Error.msg "failed to read current symlink"), w)
  else match w.current with
    | none => (Except.error Error.ErrNoCurrentRelease, w)
    | some target =>
      let readFails := env.fails w Op.readRevision
      let w := w.next
      if readFails then (Except.error (Error.msg "failed to read revision file"), w)
      else match w.entry target with
        | some e =>
          match e.isDir, e.revision with
          | true, some revision => (Except.ok revision, w)
          | _, _ => (Except.error (Error.msg "failed to read revision file"), w)
        | none => (Except.error (Error.msg "failed to read revision file"), w)

/-- Model of `release.CleanupRelease`: `os.RemoveAll` of the release directory. -/
def release.CleanupRelease (env : Env) (releaseDir : String) (w : World) :
    Option Error × World :=
  let removeFails := env.fails w (Op.removeAllRelease releaseDir)
  let w := w.next
  if removeFails then (some (Error.msg "remove release"), w)
  else (none, w.removeEntry releaseDir)

/-- The local type `releaseDirInfo` of `CleanupOldReleases`. -/
structure releaseDirInfo where
  name : String
  created : Nat
  deriving DecidableEq, Repr

/-- First loop of `CleanupOldReleases`: `os.Stat` every directory entry and collect
its name and modification time. -/
def release.collectInfos (env : Env) :
    List ReleaseEntry → World → List releaseDirInfo → Except Error (List releaseDirInfo) × World
  | [], w, acc => (Except.ok acc, w)
  | e :: rest, w, acc =>
    if e.isDir then
      let statFails := env.fails w (Op.statRelease e.name)
      let w := w.next
      if statFails then (Except.error (Error.msg "failed to get file info"), w)
      else release.collectInfos env rest w (acc ++ [{ name := e.name, created := e.modTime }])
    else release.collectInfos env rest w acc

/-- Order of `sort.Slice` in `CleanupOldReleases`: not later than. -/
def releaseDirInfo.le (a b : releaseDirInfo) : Prop := a.created ≤ b.created

instance releaseDirInfo.decLe : DecidableRel releaseDirInfo.le :=
  fun a b => inferInstanceAs (Decidable (a.created ≤ b.created))

/-- The call `sort.Slice(releaseDirInfos, created.Before)`, as the insertion sort Go
runs on short slices.  `sort.Slice` is not stable: on equal times another order is
possible. -/
def release.sortInfos (infos : List releaseDirInfo) : List releaseDirInfo :=
  infos.insertionSort releaseDirInfo.le

/-- Capacity of a slice built by `n` appends to a `nil` slice: zero for none, and at
least the length otherwise. -/
def Env.sliceCap (env : Env) (n : Nat) : Nat :=
  if n = 0 then 0 else max n (env.growth n)

/-- Second loop of `CleanupOldReleases`: `os.RemoveAll` of each selected entry.  The
zero value of `releaseDirInfo` has the empty name, and `filepath.Join(releasesDir, "")`
is `releasesDir` itself. -/
def release.removeInfos (env : Env) : List releaseDirInfo → World → Outcome × World
  | [], w => (Outcome.nil, w)
  | info :: rest, w =>
    let removeFails := env.fails w (Op.removeAllRelease info.name)
    let w := w.next
    if removeFails then (Outcome.error (Error.msg "failed to remove release"), w)
    else if info.name = "" then
      release.removeInfos env rest { w with releases := [], releasesExists := false }
    else release.removeInfos env rest (w.removeEntry info.name)

/-- Model of `release.CleanupOldReleases`.  `os.ReadDir` lists the entries in the order
of `World.releases` (the order is redone by the sort).  The slice expression
`releaseDirInfos[:len(releaseDirInfos)-keep]` is checked by Go against the capacity
of the slice; elements between its length and its capacity are zero values. -/
def release.CleanupOldReleases (env : Env) (keep : Int) (w : World) : Outcome × World :=
  let readDirFails := env.fails w Op.readDirReleases
  let w := w.next
  if readDirFails || !w.releasesExists then (Outcome.error (Error.msg "read releases"), w)
  else
    match release.collectInfos env w.releases w [] with
    | (Except.error e, w) => (Outcome.error e, w)
    | (Except.ok infos, w) =>
      let releaseDirInfos := release.sortInfos infos
      let len : Int := releaseDirInfos.length
      if len ≤ keep then (Outcome.nil, w)
      else
        let high := len - keep
        let cap := env.sliceCap releaseDirInfos.length
        if high > cap then (Outcome.panic "slice bounds out of range", w)
        else
          let backing := releaseDirInfos ++
            List.replicate (cap - releaseDirInfos.length) { name := "", created := 0 }
          release.removeInfos env (backing.take high.toNat) w

/-! ## deployer.go: run context and compensations -/

/-- Run context (`Context`).  `F` is the type of the registered compensations, Go
closures of type `func() error`.  The provider handle and the app directory are part
of `Env` and `World`. -/
structure Context (F : Type) where
  Config : Config
  Force : Bool
  NewReleaseDir : String
  rollbackFuncs : List F

/-- Model of `Context.AddRollbackFunc`. -/
def Context.AddRollbackFunc {F : Type} (ctx : Context F) (fn : F) : Context F :=
  { ctx with rollbackFuncs := ctx.rollbackFuncs ++ [fn] }

/-- Loop of `ExecuteRollback`: `n` is `i + 1` for the loop variable `i`, which runs
from `len(rollbackFuncs) - 1` down to `0`.  An error of a compensation is logged and
dropped.  The second component lists the compensations in the order they were
called. -/
def Context.rollbackLoop {F W : Type} (call : F → W → Option Error × W) (funcs : List F) :
    Nat → W → List F → W × List F
  | 0, w, called => (w, called)
  | i + 1, w, called =>
    match funcs.get? i with
    | some fn => Context.rollbackLoop call funcs i (call fn w).2 (called ++ [fn])
    | none => (w, called)

/-- Model of `Context.ExecuteRollback`: the context with the list cleared, the state
left by the compensations, and the compensations called, in order. -/
def Context.ExecuteRollback {F W : Type} (call : F → W → Option Error × W)
    (ctx : Context F) (w : W) : Context F × W × List F :=
  let r := Context.rollbackLoop call ctx.rollbackFuncs ctx.rollbackFuncs.length w []
  ({ ctx with rollbackFuncs := [] }, r.1, r.2)

/-- The two closures the default handlers register: the one of `StateClone`
(`release.CleanupRelease(ctx.NewReleaseDir)`) and the one of `StateDeploy`
(`release.Rollback(ctx.AppDir)`). -/
inductive RollbackFunc
  | cleanupNewRelease
  | rollback
  deriving DecidableEq, Repr

/-- Run context of the default handlers. -/
abbrev Ctx := Context RollbackFunc

/-- Body of a registered closure; it reads `ctx` when it is called. -/
def RollbackFunc.call (env : Env) (ctx : Ctx) : RollbackFunc → World → Option Error × World
  | RollbackFunc.cleanupNewRelease, w => release.CleanupRelease env ctx.NewReleaseDir w
  | RollbackFunc.rollback, w => release.Rollback env w

/-! ## deployer.go: handlers -/

/-- What a handler call gives: a next state with an optional error, or a panic. -/
inductive Step (C W : Type)
  | ret (nextState : State) (err : Option Error) (ctx : C) (w : W)
  | panic (text : String) (ctx : C) (w : W)

/-- Handlers, `type StateHandler func(ctx *Context) (State, error)`. -/
abbrev StateHandler (C W : Type) := C → W → Step C W

/-- Handler of `StateInit`.  The jitter sleep between the lock and the provider changes
no tracked state and is left out. -/
def handleInit (env : Env) : StateHandler Ctx World := fun ctx w =>
  match lock.Acquire env w with
  | (some _, w) => Step.ret StateError none ctx w
  | (none, w) =>
    match Provider.Init env w with
    | (some _, w) => Step.ret StateError none ctx w
    | (none, w) => Step.ret StateDetectChanges none ctx w

/-- Handler of `StateDetectChanges`. -/
def handleDetectChanges (env : Env) : StateHandler Ctx World := fun ctx w =>
  match release.CurrentRevision env w with
  | (Except.error err, w) =>
    if err = Error.ErrNoCurrentRelease then Step.ret StateClone none ctx w
    else Step.ret StateError none ctx w
  | (Except.ok currentRevision, w) =>
    match Provider.GetRevision env w with
    | (Except.error _, w) => Step.ret StateError none ctx w
    | (Except.ok providerRevision, w) =>
      if currentRevision ≠ providerRevision then Step.ret StateClone none ctx w
      else if ctx.Force then Step.ret StateClone none ctx w
      else Step.ret StateFinalize none ctx w

/-- The two linking loops of `StateClone`: for every shared entry, `os.RemoveAll` of
the path in the release (result dropped) and `os.Symlink`; the first failing symlink
stops the handler.  The answer is `true` when a symlink failed. -/
def linkShared (env : Env) : List String → World → Bool × World
  | [], w => (false, w)
  | entry :: rest, w =>
    let w := w.next -- os.RemoveAll, result dropped
    let symlinkFails := env.fails w (Op.symlinkShared entry)
    let w := w.next
    if symlinkFails then (true, w) else linkShared env rest w

/-- Handler of `StateClone`. -/
def handleClone (env : Env) : StateHandler Ctx World := fun ctx w =>
  match Provider.GetRevision env w with
  | (Except.error _, w) => Step.ret StateError none ctx w
  | (Except.ok providerRevision, w) =>
    match release.NewRelease env providerRevision w with
    | (Except.error _, w) => Step.ret StateError none { ctx with NewReleaseDir := "" } w
    | (Except.ok dir, w) =>
      let ctx := { ctx with NewReleaseDir := dir }
      let ctx := ctx.AddRollbackFunc RollbackFunc.cleanupNewRelease
      match Provider.Clone env ctx.NewReleaseDir w with
      | (some _, w) => Step.ret StateError none ctx w
      | (none, w) =>
        match hook.ExecuteHook env ctx.NewReleaseDir HookClone w with
        | (some _, w) => Step.ret StateError none ctx w
        | (none, w) =>
          match linkShared env ctx.Config.Deploy.Shared.Dirs w with
          | (true, w) => Step.ret StateError none ctx w
          | (false, w) =>
            match linkShared env ctx.Config.Deploy.Shared.Files w with
            | (true, w) => Step.ret StateError none ctx w
            | (false, w) => Step.ret StateBuild none ctx w

/-- Handler of `StateBuild`. -/
def handleBuild (env : Env) : StateHandler Ctx World := fun ctx w =>
  match hook.ExecuteHook env ctx.NewReleaseDir HookBuild w with
  | (some _, w) => Step.ret StateError none ctx w
  | (none, w) => Step.ret StateDeploy none ctx w

/-- Handler of `StateDeploy`. -/
def handleDeploy (env : Env) : StateHandler Ctx World := fun ctx w =>
  match hook.ExecuteHook env ctx.NewReleaseDir HookDeploy w with
  | (some _, w) => Step.ret StateError none ctx w
  | (none, w) =>
    match release.UpdateCurrent env ctx.NewReleaseDir w with
    | (some _, w) => Step.ret StateError none ctx w
    | (none, w) =>
      Step.ret StatePostDeploy none (ctx.AddRollbackFunc RollbackFunc.rollback) w

/-- Handler of `StatePostDeploy`. -/
def handlePostDeploy (env : Env) : StateHandler Ctx World := fun ctx w =>
  match hook.ExecuteHook env ctx.NewReleaseDir HookPostDeploy w with
  | (some _, w) => Step.ret StateError none ctx w
  | (none, w) => Step.ret StateVerify none ctx w

/-- Handler of `StateVerify`. -/
def handleVerify (env : Env) : StateHandler Ctx World := fun ctx w =>
  match hook.ExecuteHook env ctx.NewReleaseDir HookVerify w with
  | (some _, w) => Step.ret StateError none ctx w
  | (none, w) => Step.ret StateFinalize none ctx w

/-- Handler of `StateError`. -/
def handleError (env : Env) : StateHandler Ctx World := fun ctx w =>
  let r := Context.ExecuteRollback (RollbackFunc.call env ctx) ctx w
  Step.ret StateFinalize none r.1 r.2.1

/-- Handler of `StateFinalize`.  Errors of pruning and of the lock release are
logged; a panic of `CleanupOldReleases` is not recovered. -/
def handleFinalize (env : Env) : StateHandler Ctx World := fun ctx w =>
  match release.CleanupOldReleases env ctx.Config.Deploy.KeepReleases w with
  | (Outcome.panic text, w) => Step.panic text ctx w
  | (_, w) => Step.ret StateEnd none ctx (lock.Release env w).2

/-- Handler table `stateHandlers`; `StateEnd` has no entry in the map. -/
def stateHandlers (env : Env) : State → Option (StateHandler Ctx World)
  | StateInit => some (handleInit env)
  | StateDetectChanges => some (handleDetectChanges env)
  | StateClone => some (handleClone env)
  | StateBuild => some (handleBuild env)
  | StateDeploy => some (handleDeploy env)
  | StatePostDeploy => some (handlePostDeploy env)
  | StateVerify => some (handleVerify env)
  | StateError => some (handleError env)
  | StateFinalize => some (handleFinalize env)
  | StateEnd => none

/-! ## deployer.go: the machine -/

/-- The struct `Deployer`; the two Go maps are partial functions. -/
structure Deployer (C W : Type) where
  currentState : State
  transitions : State → Option (List State)
  handlers : State → Option (StateHandler C W)

/-- Model of `deployer.New`. -/
def New (env : Env) : Deployer Ctx World :=
  { currentState := StateInit, transitions := stateTransitions, handlers := stateHandlers env }

/-- Model of `Deployer.isValidTransition`. -/
def Deployer.isValidTransition {C W : Type} (d : Deployer C W) (next : State) : Bool :=
  match d.transitions d.currentState with
  | none => false
  | some validStates => validStates.any (fun state => state == next)

/-- Result of `Execute`: how it ended, the deployer's current state, the context and
world it left, and the states whose handlers were invoked, in order. -/
structure Run (C W : Type) where
  outcome : Outcome
  currentState : State
  ctx : C
  world : W
  invoked : List State

/-- Model of `Deployer.Execute`.  Each pass of the `for` loop takes one unit of fuel;
`none` means the fuel ran out before the loop ended. -/
def Deployer.Execute {C W : Type} (d : Deployer C W) (ctx : C) (w : W) : Nat → Option (Run C W)
  | 0 => none
  | fuel + 1 =>
    if d.currentState = StateEnd then
      some { outcome := Outcome.nil, currentState := d.currentState, ctx := ctx, world := w,
             invoked := [] }
    else
      match d.handlers d.currentState with
      | none =>
        some { outcome := Outcome.error (Error.noHandler d.currentState),
               currentState := d.currentState, ctx := ctx, world := w, invoked := [] }
      | some handler =>
        match handler ctx w with
        | Step.panic text ctx w =>
          some { outcome := Outcome.panic text, currentState := d.currentState, ctx := ctx,
                 world := w, invoked := [d.currentState] }
        | Step.ret _ (some err) ctx w =>
          some { outcome := Outcome.error err, currentState := d.currentState, ctx := ctx,
                 world := w, invoked := [d.currentState] }
        | Step.ret nextState none ctx w =>
          if d.isValidTransition nextState then
            (Deployer.Execute { d with currentState := nextState } ctx w fuel).map
              (fun r => { r with invoked := d.currentState :: r.invoked })
          else
            some { outcome := Outcome.error (Error.invalidTransition d.currentState nextState),
                   currentState := d.currentState, ctx := ctx, world := w,
                   invoked := [d.currentState] }

/-! ## The context a run starts from -/

/-- The context `startCommand` of `main.go` builds: no release directory yet and no
compensation registered. -/
def newContext (cfg : Config) (force : Bool) : Ctx :=
  { Config := cfg, Force := force, NewReleaseDir := "", rollbackFuncs := [] }

/-- The deployer of `New`, standing at state `s`. -/
def deployerAt (env : Env) (s : State) : Deployer Ctx World :=
  { New env with currentState := s }

/-! ## Scenarios used by the witnesses and counterexamples -/

/-- An environment in which no call fails. -/
def calmEnv : Env :=
  { fault := fun _ _ => false, revision := "abc123", timestamp := "20240102_150405",
    now := 100, growth := fun n => n }

/-- An app directory as `deploy init` leaves it: an empty `releases` directory, no
links and no lock marker. -/
def freshWorld : World :=
  { lockFile := false, current := none, previous := none, currentTmp := none,
    releasesExists := true, releases := [], hooksRun := [], tick := 0 }

/-- Settings of `config.Default()` with another retention count. -/
def configKeeping (keep : Int) : Config :=
  { Deploy := { Config.Default.Deploy with KeepReleases := keep } }

/-- A deployer whose table lacks the handler of `StateDetectChanges`. -/
def deployerWithoutDetect (env : Env) : Deployer Ctx World :=
  { currentState := StateInit, transitions := stateTransitions,
    handlers := fun s => if s = StateDetectChanges then none else stateHandlers env s }

/-- An environment in which exactly the calls `fails` answers `true` for fail. -/
def envFailing (fails : Op → Bool) : Env :=
  { calmEnv with fault := fun _ op => fails op }

/-- An app directory after one deployment of revision `abc123`: one release, the live
one, and no lock marker. -/
def oneRelease : World :=
  { freshWorld with
    current := some "20240101_000001"
    releases :=
      [ { name := "20240101_000001", isDir := true, modTime := 10, revision := some "abc123" } ] }

/-- The provider cannot be initialised; every other call succeeds. -/
def initFailsEnv : Env :=
  envFailing (fun op => decide (op = Op.providerInit))

/-- The `verify` hook of the new release exits with a non-zero status; every other
call succeeds. -/
def verifyFailsEnv : Env :=
  envFailing (fun op => decide (op = Op.hook HookVerify "20240102_150405"))

/-- The `build` hook of the new release exits with a non-zero status; every other
call succeeds. -/
def buildFailsEnv : Env :=
  envFailing (fun op => decide (op = Op.hook HookBuild "20240102_150405"))

/-- The `build` hook of the new release fails, and so does every `os.RemoveAll` of the
new release directory; every other call succeeds. -/
def buildAndDiscardFailEnv : Env :=
  envFailing (fun op => decide (op = Op.hook HookBuild "20240102_150405") ||
    decide (op = Op.removeAllRelease "20240102_150405"))

/-- The `verify` hook of the new release fails, and so does every `os.Readlink` of the
`previous` link; every other call succeeds. -/
def verifyAndReadlinkFailEnv : Env :=
  envFailing (fun op => decide (op = Op.hook HookVerify "20240102_150405") ||
    decide (op = Op.readlinkPrevious))

/-- Five release directories with pairwise distinct modification times. -/
def fiveReleases : World :=
  { freshWorld with
    releases :=
      [ { name := "20240101_000003", isDir := true, modTime := 30, revision := some "c" },
        { name := "20240101_000001", isDir := true, modTime := 10, revision := some "a" },
        { name := "20240101_000005", isDir := true, modTime := 50, revision := some "e" },
        { name := "20240101_000002", isDir := true, modTime := 20, revision := some "b" },
        { name := "20240101_000004", isDir := true, modTime := 40, revision := some "d" } ] }

/-- Two release directories after two deployments: `current` points at the second and
`previous` at the first. -/
def twoReleases : World :=
  { freshWorld with
    current := some "20240101_000002"
    previous := some "20240101_000001"
    releases :=
      [ { name := "20240101_000001", isDir := true, modTime := 10, revision := some "a" },
        { name := "20240101_000002", isDir := true, modTime := 20, revision := some "b" } ] }

/-- The same app directory with a `current.tmp` link left over by a promotion that was
interrupted between `os.Symlink` and `os.Rename`. -/
def staleTmpWorld : World :=
  { twoReleases with currentTmp := some "20240101_000002" }

/-- The lock marker cannot be written (`os.WriteFile` fails); every other call
succeeds. -/
def lockWriteFailsEnv : Env :=
  envFailing (fun op => decide (op = Op.lockWrite))

/-- An app directory whose lock marker exists: another run is in progress. -/
def lockedWorld : World :=
  { freshWorld with lockFile := true }

/-- Three release directories, no links and no lock marker. -/
def threeReleases : World :=
  { freshWorld with
    releases :=
      [ { name := "20240101_000001", isDir := true, modTime := 10, revision := some "a" },
        { name := "20240101_000002", isDir := true, modTime := 20, revision := some "b" },
        { name := "20240101_000003", isDir := true, modTime := 30, revision := some "c" } ] }

/-- An environment in which no call fails and a slice built by three appends has
capacity four, as the doubling of `append` gives (capacities 1, 2, 4). -/
def doublingEnv : Env :=
  { calmEnv with growth := fun n => if n = 3 then 4 else n }

/-- An environment in which no call fails and the provider answers a revision with
white space around it. -/
def paddedEnv : Env :=
  { calmEnv with revision := " abc123\n" }

/-- Number of handler calls that can still follow from a state under `stateTransitions`. -/
def rank : State → Nat
  | StateInit => 9
  | StateDetectChanges => 8
  | StateClone => 7
  | StateBuild => 6
  | StateDeploy => 5
  | StatePostDeploy => 4
  | StateVerify => 3
  | StateError => 2
  | StateFinalize => 1
  | StateEnd => 0

/-! ## Invariants of a run -/

/-- What holds at each state of a run as long as the new release has not been promoted.
`c0` is the target of `current` when the run began and `pre` lists the handlers
invoked so far: before the release directory exists the context names no release
and holds no compensation; while it is staged the context names it and holds the
discard compensation; after a failure it is gone (when its deletion was not failed
by the environment).  In all these cases `current` is still `c0`. -/
def stagingInv (env : Env) (c0 : Option String) (pre : List State) (s : State) (ctx : Ctx)
    (w : World) : Prop :=
  match s with
  | StateInit | StateDetectChanges | StateClone =>
    w.current = c0 ∧ ctx.NewReleaseDir = "" ∧ ctx.rollbackFuncs = []
  | StateBuild | StateDeploy =>
    w.current = c0 ∧ ctx.NewReleaseDir = env.timestamp ∧
      ctx.rollbackFuncs = [RollbackFunc.cleanupNewRelease]
  | StatePostDeploy => True
  | StateVerify => StatePostDeploy ∈ pre
  | StateError =>
    StatePostDeploy ∈ pre ∨
      (w.current = c0 ∧
        ((ctx.NewReleaseDir = "" ∧ ctx.rollbackFuncs = []) ∨
         (ctx.NewReleaseDir = env.timestamp ∧
            ctx.rollbackFuncs = [RollbackFunc.cleanupNewRelease])))
  | StateFinalize | StateEnd =>
    StatePostDeploy ∈ pre ∨
      (w.current = c0 ∧
        (ctx.NewReleaseDir = "" ∨
         ((∀ t, env.fault t (Op.removeAllRelease env.timestamp) = false) →
            w.entry env.timestamp = none)))

/-- What holds at each state of a run, in view of restoring `current`, when `current`
pointed at `c` before the run: until promotion `current` is untouched and the `rollback`
compensation is not registered; from promotion on `previous` points at `c`, no
`current.tmp` is left and the compensations are the discard and the `rollback`; once
`StateError` has run, `current` points at `c` again. -/
def restoreInv (c : String) (pre : List State) (s : State) (ctx : Ctx) (w : World) : Prop :=
  match s with
  | StateInit | StateDetectChanges | StateClone =>
    w.current = some c ∧ ctx.rollbackFuncs = [] ∧ StateError ∉ pre
  | StateBuild | StateDeploy =>
    w.current = some c ∧ ctx.rollbackFuncs = [RollbackFunc.cleanupNewRelease] ∧
      StateError ∉ pre
  | StatePostDeploy | StateVerify =>
    w.previous = some c ∧ w.currentTmp = none ∧
      ctx.rollbackFuncs = [RollbackFunc.cleanupNewRelease, RollbackFunc.rollback] ∧
      StateError ∉ pre
  | StateError =>
    (w.current = some c ∧
      (ctx.rollbackFuncs = [] ∨ ctx.rollbackFuncs = [RollbackFunc.cleanupNewRelease])) ∨
    (w.previous = some c ∧ w.currentTmp = none ∧
      ctx.rollbackFuncs = [RollbackFunc.cleanupNewRelease, RollbackFunc.rollback])
  | StateFinalize | StateEnd => StateError ∉ pre ∨ w.current = some c

/-- The entries of `releases` are `rs0` followed by the new release directory. -/
def stagedOn (env : Env) (rs0 : List ReleaseEntry) (w : World) : Prop :=
  ∃ rev, w.releases = rs0 ++
    [{ name := env.timestamp, isDir := true, modTime := env.now, revision := rev }]

/-- What holds at each state of a run in an environment that fails no file system call,
when before the run `current` pointed at `c` and the entries of `releases` were `rs0`:
which entries exist, where the links point and which compensations are registered.
At `StateFinalize` either nothing has changed or the new release is live; at `StateEnd`
the `current` link resolves to a release directory. -/
def liveInv (env : Env) (cfg : Config) (c : String) (rs0 : List ReleaseEntry)
    (s : State) (ctx : Ctx) (w : World) : Prop :=
  ctx.Config = cfg ∧
  match s with
  | StateInit | StateDetectChanges | StateClone =>
    w.releases = rs0 ∧ w.current = some c ∧ ctx.rollbackFuncs = []
  | StateBuild | StateDeploy =>
    stagedOn env rs0 w ∧ w.current = some c ∧ ctx.NewReleaseDir = env.timestamp ∧
      ctx.rollbackFuncs = [RollbackFunc.cleanupNewRelease]
  | StatePostDeploy | StateVerify =>
    stagedOn env rs0 w ∧ w.current = some env.timestamp ∧ w.previous = some c ∧
      w.currentTmp = none ∧ ctx.NewReleaseDir = env.timestamp ∧
      ctx.rollbackFuncs = [RollbackFunc.cleanupNewRelease, RollbackFunc.rollback]
  | StateError =>
    (w.releases = rs0 ∧ w.current = some c ∧ ctx.rollbackFuncs = []) ∨
    (stagedOn env rs0 w ∧ w.current = some c ∧ ctx.NewReleaseDir = env.timestamp ∧
      ctx.rollbackFuncs = [RollbackFunc.cleanupNewRelease]) ∨
    (stagedOn env rs0 w ∧ w.previous = some c ∧ w.currentTmp = none ∧
      ctx.NewReleaseDir = env.timestamp ∧
      ctx.rollbackFuncs = [RollbackFunc.cleanupNewRelease, RollbackFunc.rollback])
  | StateFinalize =>
    (w.releases = rs0 ∧ w.current = some c) ∨
    (stagedOn env rs0 w ∧ w.current = some env.timestamp)
  | StateEnd => ∃ t, w.current = some t ∧ w.isReleaseDir t = true

/-- The new release directory is the last entry of `releases`, after the entries `rs0`,
and its marker holds the revision of the provider. -/
def stagedWithMarker (env : Env) (rs0 : List ReleaseEntry) (w : World) : Prop :=
  w.releases = rs0 ++
    [{ name := env.timestamp, isDir := true, modTime := env.now,
       revision := some env.revision }]

/-- What holds at each state of a run, in view of the marker of the release it deploys,
in an environment that fails no file system call, when the entries of `releases` were
`rs0` before the run: from `StateBuild` on the new release directory exists with the
revision of the provider as its marker; from `StatePostDeploy` on `current` points at
it; at `StateEnd`, unless the run went through `StateError` or did not reach
`StateVerify`, the lock marker is gone, `current` points at the new release and the
new release directory is still there with its marker. -/
def deployedInv (env : Env) (cfg : Config) (rs0 : List ReleaseEntry) (pre : List State)
    (s : State) (ctx : Ctx) (w : World) : Prop :=
  ctx.Config = cfg ∧
  match s with
  | StateInit | StateDetectChanges | StateClone =>
    w.releases = rs0 ∧ StateVerify ∉ pre
  | StateBuild | StateDeploy =>
    stagedWithMarker env rs0 w ∧ ctx.NewReleaseDir = env.timestamp ∧ StateVerify ∉ pre
  | StatePostDeploy =>
    stagedWithMarker env rs0 w ∧ w.current = some env.timestamp ∧ StateVerify ∉ pre
  | StateVerify =>
    stagedWithMarker env rs0 w ∧ w.current = some env.timestamp
  | StateError => True
  | StateFinalize =>
    StateError ∈ pre ∨ StateVerify ∉ pre ∨
      (stagedWithMarker env rs0 w ∧ w.current = some env.timestamp)
  | StateEnd =>
    StateError ∈ pre ∨ StateVerify ∉ pre ∨
      (w.lockFile = false ∧ w.current = some env.timestamp ∧
        w.entry env.timestamp = some
          { name := env.timestamp, isDir := true, modTime := env.now,
            revision := some env.revision })

/-! # Theorems -/

/-! ## Compensations -/

theorem rollbackLoop_eq {F W : Type} (call : F → W → Option Error × W) (funcs : List F) :
    ∀ n, n ≤ funcs.length → ∀ (w : W) (called : List F),
      Context.rollbackLoop call funcs n w called =
        ((funcs.take n).reverse.foldl (fun w fn => (call fn w).2) w,
          called ++ (funcs.take n).reverse) := by
  intro n
  induction n with
  | zero => intro _ w called; simp [Context.rollbackLoop]
  | succ i ih =>
    intro hi w called
    have hlt : i < funcs.length := hi
    have hget : funcs.get? i = some (funcs.get ⟨i, hlt⟩) := List.get?_eq_get hlt
    rw [Context.rollbackLoop, hget]
    simp only []
    rw [ih (Nat.le_of_lt hlt), List.take_succ, List.getElem?_eq_getElem hlt]
    simp only [Option.toList, List.reverse_append, List.reverse_cons, List.reverse_nil,
      List.nil_append, List.singleton_append, List.cons_append, List.foldl_cons,
      List.append_assoc, List.get_eq_getElem]

theorem ExecuteRollback_eq {F W : Type} (call : F → W → Option Error × W)
    (ctx : Context F) (w : W) :
    Context.ExecuteRollback call ctx w =
      ({ ctx with rollbackFuncs := [] },
        ctx.rollbackFuncs.reverse.foldl (fun w fn => (call fn w).2) w,
        ctx.rollbackFuncs.reverse) := by
  unfold Context.ExecuteRollback
  rw [rollbackLoop_eq call ctx.rollbackFuncs _ (Nat.le_refl _)]
  simp

theorem foldl_AddRollbackFunc {F : Type} (fs : List F) :
    ∀ ctx : Context F,
      (fs.foldl Context.AddRollbackFunc ctx).rollbackFuncs = ctx.rollbackFuncs ++ fs := by
  induction fs with
  | nil => intro ctx; simp
  | cons f rest ih =>
    intro ctx
    rw [List.foldl_cons, ih]
    simp [Context.AddRollbackFunc]

/-- C4: whatever compensations `f1, ..., fn` were registered with `AddRollbackFunc`, in
that order, and whatever each of them returns, `ExecuteRollback` calls exactly
`fn, ..., f1` in that order, the state it leaves is the one obtained by running them
in that order with their errors dropped, the list of the context is empty afterwards,
and an `ExecuteRollback` following at once calls nothing and changes nothing. -/
theorem ExecuteRollback_runs_registered_in_reverse {F W : Type}
    (call : F → W → Option Error × W) (ctx : Context F) (fs : List F) (w : W) :
    (Context.ExecuteRollback call
        (fs.foldl Context.AddRollbackFunc { ctx with rollbackFuncs := [] }) w).2.2
      = fs.reverse ∧
    (Context.ExecuteRollback call
        (fs.foldl Context.AddRollbackFunc { ctx with rollbackFuncs := [] }) w).2.1
      = fs.reverse.foldl (fun w fn => (call fn w).2) w ∧
    (Context.ExecuteRollback call
        (fs.foldl Context.AddRollbackFunc { ctx with rollbackFuncs := [] }) w).1.rollbackFuncs
      = [] ∧
    Context.ExecuteRollback call
        (Context.ExecuteRollback call
          (fs.foldl Context.AddRollbackFunc { ctx with rollbackFuncs := [] }) w).1
        (Context.ExecuteRollback call
          (fs.foldl Context.AddRollbackFunc { ctx with rollbackFuncs := [] }) w).2.1
      = ((Context.ExecuteRollback call
            (fs.foldl Context.AddRollbackFunc { ctx with rollbackFuncs := [] }) w).1,
         (Context.ExecuteRollback call
            (fs.foldl Context.AddRollbackFunc { ctx with rollbackFuncs := [] }) w).2.1,
         []) := by
  have hreg : (fs.foldl Context.AddRollbackFunc { ctx with rollbackFuncs := [] }).rollbackFuncs
      = fs := by
    rw [foldl_AddRollbackFunc]; simp
  refine ⟨?_, ?_, ?_, ?_⟩
  · rw [ExecuteRollback_eq, hreg]
  · rw [ExecuteRollback_eq, hreg]
  · rw [ExecuteRollback_eq]
  · rw [ExecuteRollback_eq call (Context.ExecuteRollback call _ w).1]
    rw [ExecuteRollback_eq call (fs.foldl _ _)]
    simp

/-! ## Effects of the calls on the lock marker -/

theorem Provider_Init_world (env : Env) (w : World) : (Provider.Init env w).2 = w.next := by
  unfold Provider.Init
  simp only
  split <;> rfl

theorem Acquire_ok_lockFile (env : Env) (w w1 : World)
    (h : lock.Acquire env w = (none, w1)) : w1.lockFile = true := by
  unfold lock.Acquire at h
  simp only at h
  split at h
  · simp at h
  · split at h
    · simp at h
    · simp only [Prod.mk.injEq, true_and] at h
      rw [← h]

theorem handleInit_detect_lock (env : Env) (c0 c1 : Ctx) (v0 v1 : World)
    (h : handleInit env c0 v0 = Step.ret StateDetectChanges none c1 v1) :
    v1.lockFile = true := by
  unfold handleInit at h
  split at h
  · simp at h
  · rename_i w2 hacq
    have h2 := Acquire_ok_lockFile env v0 w2 hacq
    split at h
    · simp at h
    · rename_i w3 hinit
      have h3 : w3 = w2.next := by
        have := Provider_Init_world env w2
        rw [hinit] at this
        exact this
      simp only [Step.ret.injEq, true_and] at h
      rw [← h.2, h3]
      exact h2

/-! ## The loop of `Execute` -/

/-- C6 (as amended): for any handler table and transition table, when the current state
is not `StateEnd` and has no handler, or its handler returns an error, or its handler
returns a next state that the transition table does not list for the current state,
`Execute` returns that error from this very pass of its loop: the current state is
unchanged, no other handler is invoked, and the context and world are the ones the
failing handler left.  In particular a run that acquired the lock in `StateInit` and
then meets an unregistered state ends with the lock marker in place, the handler of
`StateFinalize` not having run. -/
theorem Execute_fatal_failure_is_immediate {C W : Type} (d : Deployer C W) (ctx : C) (w : W)
    (fuel : Nat) (hEnd : d.currentState ≠ StateEnd) :
    (d.handlers d.currentState = none →
      d.Execute ctx w (fuel + 1) =
        some { outcome := Outcome.error (Error.noHandler d.currentState),
               currentState := d.currentState, ctx := ctx, world := w, invoked := [] }) ∧
    (∀ h next e ctx1 w1, d.handlers d.currentState = some h →
      h ctx w = Step.ret next (some e) ctx1 w1 →
      d.Execute ctx w (fuel + 1) =
        some { outcome := Outcome.error e, currentState := d.currentState, ctx := ctx1,
               world := w1, invoked := [d.currentState] }) ∧
    (∀ h next ctx1 w1, d.handlers d.currentState = some h →
      h ctx w = Step.ret next none ctx1 w1 → d.isValidTransition next = false →
      d.Execute ctx w (fuel + 1) =
        some { outcome := Outcome.error (Error.invalidTransition d.currentState next),
               currentState := d.currentState, ctx := ctx1, world := w1,
               invoked := [d.currentState] }) ∧
    (∀ (env : Env) (c0 c1 : Ctx) (v0 v1 : World),
      handleInit env c0 v0 = Step.ret StateDetectChanges none c1 v1 →
      ∃ r, (deployerWithoutDetect env).Execute c0 v0 (fuel + 2) = some r ∧
        r.outcome = Outcome.error (Error.noHandler StateDetectChanges) ∧
        r.currentState = StateDetectChanges ∧ r.invoked = [StateInit] ∧
        r.world = v1 ∧ r.world.lockFile = true) := by
  refine ⟨?_, ?_, ?_, ?_⟩
  · intro h
    simp [Deployer.Execute, hEnd, h]
  · intro h next e ctx1 w1 hh hret
    simp [Deployer.Execute, hEnd, hh, hret]
  · intro h next ctx1 w1 hh hret hinv
    simp [Deployer.Execute, hEnd, hh, hret, hinv]
  · intro env c0 c1 v0 v1 hret
    have hlock : v1.lockFile = true := handleInit_detect_lock env c0 c1 v0 v1 hret
    refine ⟨{ outcome := Outcome.error (Error.noHandler StateDetectChanges),
              currentState := StateDetectChanges, ctx := c1, world := v1,
              invoked := [StateInit] }, ?_, rfl, rfl, rfl, rfl, hlock⟩
    simp [Deployer.Execute, deployerWithoutDetect, stateHandlers, hret,
      Deployer.isValidTransition, stateTransitions]


theorem handleInit_returns (env : Env) (ctx : Ctx) (w : World) :
    ∃ next w1, handleInit env ctx w = Step.ret next none ctx w1 ∧
      (next = StateDetectChanges ∨ next = StateError) := by
  unfold handleInit
  repeat' split
  all_goals first
    | exact ⟨_, _, rfl, Or.inr rfl⟩
    | exact ⟨_, _, rfl, Or.inl rfl⟩

theorem handleDetectChanges_returns (env : Env) (ctx : Ctx) (w : World) :
    ∃ next w1, handleDetectChanges env ctx w = Step.ret next none ctx w1 ∧
      (next = StateClone ∨ next = StateFinalize ∨ next = StateError) := by
  unfold handleDetectChanges
  repeat' split
  all_goals first
    | exact ⟨_, _, rfl, Or.inl rfl⟩
    | exact ⟨_, _, rfl, Or.inr (Or.inl rfl)⟩
    | exact ⟨_, _, rfl, Or.inr (Or.inr rfl)⟩

theorem handleClone_returns (env : Env) (ctx : Ctx) (w : World) :
    ∃ next ctx1 w1, handleClone env ctx w = Step.ret next none ctx1 w1 ∧
      ctx1.Config = ctx.Config ∧ (next = StateBuild ∨ next = StateError) := by
  unfold handleClone
  simp only []
  repeat' split
  all_goals first
    | exact ⟨_, _, _, rfl, rfl, Or.inr rfl⟩
    | exact ⟨_, _, _, rfl, rfl, Or.inl rfl⟩

theorem handleBuild_returns (env : Env) (ctx : Ctx) (w : World) :
    ∃ next w1, handleBuild env ctx w = Step.ret next none ctx w1 ∧
      (next = StateDeploy ∨ next = StateError) := by
  unfold handleBuild
  split
  · exact ⟨_, _, rfl, Or.inr rfl⟩
  · exact ⟨_, _, rfl, Or.inl rfl⟩

theorem handleDeploy_returns (env : Env) (ctx : Ctx) (w : World) :
    ∃ next ctx1 w1, handleDeploy env ctx w = Step.ret next none ctx1 w1 ∧
      ctx1.Config = ctx.Config ∧ (next = StatePostDeploy ∨ next = StateError) := by
  unfold handleDeploy
  repeat' split
  all_goals first
    | exact ⟨_, _, _, rfl, rfl, Or.inr rfl⟩
    | exact ⟨_, _, _, rfl, rfl, Or.inl rfl⟩

theorem handlePostDeploy_returns (env : Env) (ctx : Ctx) (w : World) :
    ∃ next w1, handlePostDeploy env ctx w = Step.ret next none ctx w1 ∧
      (next = StateVerify ∨ next = StateError) := by
  unfold handlePostDeploy
  split
  · exact ⟨_, _, rfl, Or.inr rfl⟩
  · exact ⟨_, _, rfl, Or.inl rfl⟩

theorem handleVerify_returns (env : Env) (ctx : Ctx) (w : World) :
    ∃ next w1, handleVerify env ctx w = Step.ret next none ctx w1 ∧
      (next = StateFinalize ∨ next = StateError) := by
  unfold handleVerify
  split
  · exact ⟨_, _, rfl, Or.inr rfl⟩
  · exact ⟨_, _, rfl, Or.inl rfl⟩

theorem handleError_returns (env : Env) (ctx : Ctx) (w : World) :
    ∃ ctx1 w1, handleError env ctx w = Step.ret StateFinalize none ctx1 w1 ∧
      ctx1.Config = ctx.Config := by
  unfold handleError
  exact ⟨_, _, rfl, by simp [Context.ExecuteRollback]⟩

theorem sliceCap_ge (env : Env) (n : Nat) : n ≤ env.sliceCap n := by
  unfold Env.sliceCap
  split
  · omega
  · exact le_max_left _ _

theorem removeInfos_no_panic (env : Env) (infos : List releaseDirInfo) :
    ∀ (w w1 : World) (text : String),
      release.removeInfos env infos w ≠ (Outcome.panic text, w1) := by
  induction infos with
  | nil => intro w w1 text; simp [release.removeInfos]
  | cons info rest ih =>
    intro w w1 text
    unfold release.removeInfos
    simp only []
    split
    · simp
    · split
      · exact ih _ _ _
      · exact ih _ _ _

theorem CleanupOldReleases_panic (env : Env) (keep : Int) (w w1 : World) (text : String)
    (h : release.CleanupOldReleases env keep w = (Outcome.panic text, w1)) : keep < 0 := by
  unfold release.CleanupOldReleases at h
  simp only [] at h
  split at h
  · simp at h
  · split at h
    · simp at h
    · split at h
      · simp at h
      · split at h
        · rename_i hlen hhigh
          have := sliceCap_ge env (release.sortInfos ‹_›).length
          omega
        · exact absurd h (removeInfos_no_panic env _ _ _ _)

theorem handleFinalize_returns (env : Env) (ctx : Ctx) (w : World) :
    (∃ w1, handleFinalize env ctx w = Step.ret StateEnd none ctx w1) ∨
    (∃ text w1, handleFinalize env ctx w = Step.panic text ctx w1 ∧
      ctx.Config.Deploy.KeepReleases < 0) := by
  unfold handleFinalize
  split
  · rename_i text w1 h
    exact Or.inr ⟨_, _, rfl, CleanupOldReleases_panic env _ _ _ _ h⟩
  · exact Or.inl ⟨_, rfl⟩

theorem isValidTransition_deployerAt (env : Env) (S next : State) :
    (deployerAt env S).isValidTransition next =
      (match stateTransitions S with
        | none => false
        | some validStates => validStates.any (fun state => state == next)) := rfl

theorem stateHandlers_step (env : Env) (S : State) (ctx : Ctx) (w : World)
    (hS : S ≠ StateEnd) :
    ∃ h, stateHandlers env S = some h ∧
      ((∃ next ctx1 w1, h ctx w = Step.ret next none ctx1 w1 ∧ ctx1.Config = ctx.Config ∧
          (deployerAt env S).isValidTransition next = true ∧ rank next < rank S ∧
          (next = StateEnd → S = StateFinalize)) ∨
       (∃ text w1, h ctx w = Step.panic text ctx w1 ∧
          S = StateFinalize ∧ ctx.Config.Deploy.KeepReleases < 0)) := by
  cases S with
  | StateEnd => exact absurd rfl hS
  | StateInit =>
    obtain ⟨next, w1, h, hn⟩ := handleInit_returns env ctx w
    refine ⟨_, rfl, Or.inl ⟨next, ctx, w1, h, rfl, ?_⟩⟩
    rw [isValidTransition_deployerAt]
    rcases hn with rfl | rfl <;> decide
  | StateDetectChanges =>
    obtain ⟨next, w1, h, hn⟩ := handleDetectChanges_returns env ctx w
    refine ⟨_, rfl, Or.inl ⟨next, ctx, w1, h, rfl, ?_⟩⟩
    rw [isValidTransition_deployerAt]
    rcases hn with rfl | rfl | rfl <;> decide
  | StateClone =>
    obtain ⟨next, ctx1, w1, h, hc, hn⟩ := handleClone_returns env ctx w
    refine ⟨_, rfl, Or.inl ⟨next, ctx1, w1, h, hc, ?_⟩⟩
    rw [isValidTransition_deployerAt]
    rcases hn with rfl | rfl <;> decide
  | StateBuild =>
    obtain ⟨next, w1, h, hn⟩ := handleBuild_returns env ctx w
    refine ⟨_, rfl, Or.inl ⟨next, ctx, w1, h, rfl, ?_⟩⟩
    rw [isValidTransition_deployerAt]
    rcases hn with rfl | rfl <;> decide
  | StateDeploy =>
    obtain ⟨next, ctx1, w1, h, hc, hn⟩ := handleDeploy_returns env ctx w
    refine ⟨_, rfl, Or.inl ⟨next, ctx1, w1, h, hc, ?_⟩⟩
    rw [isValidTransition_deployerAt]
    rcases hn with rfl | rfl <;> decide
  | StatePostDeploy =>
    obtain ⟨next, w1, h, hn⟩ := handlePostDeploy_returns env ctx w
    refine ⟨_, rfl, Or.inl ⟨next, ctx, w1, h, rfl, ?_⟩⟩
    rw [isValidTransition_deployerAt]
    rcases hn with rfl | rfl <;> decide
  | StateVerify =>
    obtain ⟨next, w1, h, hn⟩ := handleVerify_returns env ctx w
    refine ⟨_, rfl, Or.inl ⟨next, ctx, w1, h, rfl, ?_⟩⟩
    rw [isValidTransition_deployerAt]
    rcases hn with rfl | rfl <;> decide
  | StateError =>
    obtain ⟨ctx1, w1, h, hc⟩ := handleError_returns env ctx w
    refine ⟨_, rfl, Or.inl ⟨_, ctx1, w1, h, hc, ?_⟩⟩
    rw [isValidTransition_deployerAt]
    decide
  | StateFinalize =>
    rcases handleFinalize_returns env ctx w with ⟨w1, h⟩ | ⟨text, w1, h, hk⟩
    · refine ⟨_, rfl, Or.inl ⟨_, ctx, w1, h, rfl, ?_⟩⟩
      rw [isValidTransition_deployerAt]
      decide
    · exact ⟨_, rfl, Or.inr ⟨text, w1, h, rfl, hk⟩⟩

theorem Execute_step_ret (env : Env) (S next : State) (ctx ctx1 : Ctx) (w w1 : World)
    (fuel : Nat) (h : StateHandler Ctx World) (hh : stateHandlers env S = some h)
    (hS : S ≠ StateEnd) (hret : h ctx w = Step.ret next none ctx1 w1)
    (hvalid : (deployerAt env S).isValidTransition next = true) :
    (deployerAt env S).Execute ctx w (fuel + 1) =
      ((deployerAt env next).Execute ctx1 w1 fuel).map
        (fun r => { r with invoked := S :: r.invoked }) := by
  have h1 : (deployerAt env S).currentState = S := rfl
  have h2 : (deployerAt env S).handlers S = some h := hh
  have h3 : ∀ n, ({ deployerAt env S with currentState := n } : Deployer Ctx World)
      = deployerAt env n := fun _ => rfl
  rw [Deployer.Execute]
  simp only [h1, hS, if_false, h2, hret, hvalid, if_true, h3]

theorem Execute_step_panic (env : Env) (S : State) (ctx ctx1 : Ctx) (w w1 : World)
    (fuel : Nat) (text : String) (h : StateHandler Ctx World)
    (hh : stateHandlers env S = some h)
    (hS : S ≠ StateEnd) (hret : h ctx w = Step.panic text ctx1 w1) :
    (deployerAt env S).Execute ctx w (fuel + 1) =
      some { outcome := Outcome.panic text, currentState := S, ctx := ctx1, world := w1,
             invoked := [S] } := by
  have h1 : (deployerAt env S).currentState = S := rfl
  have h2 : (deployerAt env S).handlers S = some h := hh
  rw [Deployer.Execute]
  simp only [h1, hS, if_false, h2, hret]

theorem Execute_at_End (env : Env) (ctx : Ctx) (w : World) (fuel : Nat) :
    (deployerAt env StateEnd).Execute ctx w (fuel + 1) =
      some { outcome := Outcome.nil, currentState := StateEnd, ctx := ctx, world := w,
             invoked := [] } := by
  rw [Deployer.Execute]
  rfl


/-! ## Runs of the default machine -/

theorem Execute_result (env : Env) :
    ∀ (fuel : Nat) (S : State) (ctx : Ctx) (w : World) (r : Run Ctx World),
      (deployerAt env S).Execute ctx w fuel = some r →
      r.invoked.length ≤ rank S ∧ r.ctx.Config = ctx.Config ∧
      ((r.outcome = Outcome.nil ∧ r.currentState = StateEnd ∧
          (S ≠ StateEnd → r.invoked.getLast? = some StateFinalize)) ∨
       (∃ text, r.outcome = Outcome.panic text ∧ r.currentState = StateFinalize ∧
          r.invoked.getLast? = some StateFinalize ∧
          ctx.Config.Deploy.KeepReleases < 0)) := by
  intro fuel
  induction fuel with
  | zero => intro S ctx w r h; simp [Deployer.Execute] at h
  | succ fuel ih =>
    intro S ctx w r h
    by_cases hS : S = StateEnd
    · subst hS
      rw [Execute_at_End] at h
      cases h
      exact ⟨by simp, rfl, Or.inl ⟨rfl, rfl, fun hne => absurd rfl hne⟩⟩
    · obtain ⟨hd, hh, hstep⟩ := stateHandlers_step env S ctx w hS
      rcases hstep with ⟨next, ctx1, w1, hret, hcfg, hvalid, hrank, hend⟩ | ⟨text, w1, hret, hfin, hk⟩
      · rw [Execute_step_ret env S next ctx ctx1 w w1 fuel hd hh hS hret hvalid] at h
        cases hr : (deployerAt env next).Execute ctx1 w1 fuel with
        | none => rw [hr] at h; simp at h
        | some r1 =>
          rw [hr] at h
          simp only [Option.map_some', Option.some.injEq] at h
          obtain ⟨hlen, hc1, hcase⟩ := ih next ctx1 w1 r1 hr
          subst h
          refine ⟨?_, by rw [← hcfg]; exact hc1, ?_⟩
          · simp only [List.length_cons]; omega
          · have hlast : r1.invoked.getLast? = some StateFinalize →
                (S :: r1.invoked).getLast? = some StateFinalize := by
              intro hl
              cases hi : r1.invoked with
              | nil => rw [hi] at hl; simp at hl
              | cons a l => rw [hi] at hl; rw [List.getLast?_cons_cons]; exact hl
            rcases hcase with ⟨ho, hcs, hl⟩ | ⟨text, ho, hcs, hl, hk⟩
            · refine Or.inl ⟨ho, hcs, fun _ => ?_⟩
              by_cases hn : next = StateEnd
              · have hnil : r1.invoked = [] := by
                  have : r1.invoked.length ≤ 0 := by rw [hn] at hlen; exact hlen
                  exact List.length_eq_zero.mp (Nat.le_zero.mp this)
                simp only [hnil, List.getLast?_singleton, hend hn]
              · exact hlast (hl hn)
            · exact Or.inr ⟨text, ho, hcs, hlast hl, by rw [← hcfg]; exact hk⟩
      · rw [Execute_step_panic env S ctx ctx w w1 fuel text hd hh hS hret] at h
        cases h
        refine ⟨?_, rfl, Or.inr ⟨text, rfl, hfin, ?_, hk⟩⟩
        · subst hfin; simp [rank]
        · subst hfin; simp

theorem Execute_returns (env : Env) :
    ∀ (fuel : Nat) (S : State) (ctx : Ctx) (w : World), rank S < fuel →
      ∃ r, (deployerAt env S).Execute ctx w fuel = some r := by
  intro fuel
  induction fuel with
  | zero => intro S ctx w h; omega
  | succ fuel ih =>
    intro S ctx w hlt
    by_cases hS : S = StateEnd
    · subst hS
      exact ⟨_, Execute_at_End env ctx w fuel⟩
    · obtain ⟨hd, hh, hstep⟩ := stateHandlers_step env S ctx w hS
      rcases hstep with ⟨next, ctx1, w1, hret, _, hvalid, hrank, _⟩ | ⟨text, w1, hret, _, _⟩
      · obtain ⟨r1, hr1⟩ := ih next ctx1 w1 (by omega)
        refine ⟨{ r1 with invoked := S :: r1.invoked }, ?_⟩
        rw [Execute_step_ret env S next ctx ctx1 w w1 fuel hd hh hS hret hvalid, hr1]
        rfl
      · exact ⟨_, Execute_step_panic env S ctx ctx w w1 fuel text hd hh hS hret⟩

/-- C3: for each of the nine states that have a handler, and whatever the context, the
world and the environment's answers, the default handler either returns a nil error
with a next state that `isValidTransition` accepts for that state, or (only in
`StateFinalize`, only with a negative retention count) panics.  Hence `Execute` with
the default tables never returns an error: neither "invalid state transition" nor
"no handler for state". -/
theorem default_handlers_follow_stateTransitions (env : Env) (S : State) (ctx : Ctx)
    (w : World) (hS : S ≠ StateEnd) :
    (∃ h, stateHandlers env S = some h ∧
      (∀ next err ctx1 w1, h ctx w = Step.ret next err ctx1 w1 →
        err = none ∧ (deployerAt env S).isValidTransition next = true ∧
          ∃ validStates, stateTransitions S = some validStates ∧ next ∈ validStates) ∧
      (∀ text ctx1 w1, h ctx w = Step.panic text ctx1 w1 →
        S = StateFinalize ∧ ctx.Config.Deploy.KeepReleases < 0)) ∧
    (∀ fuel r, (deployerAt env S).Execute ctx w fuel = some r →
      ∀ e, r.outcome ≠ Outcome.error e) := by
  constructor
  · obtain ⟨h, hh, hstep⟩ := stateHandlers_step env S ctx w hS
    refine ⟨h, hh, ?_, ?_⟩
    · intro next err ctx1 w1 hret
      rcases hstep with ⟨n, c, v, hret1, _, hvalid, _, _⟩ | ⟨text, v, hret1, _, _⟩
      · rw [hret1] at hret
        simp only [Step.ret.injEq] at hret
        obtain ⟨rfl, rfl, _, _⟩ := hret
        refine ⟨rfl, hvalid, ?_⟩
        rw [isValidTransition_deployerAt] at hvalid
        cases hT : stateTransitions S with
        | none => rw [hT] at hvalid; simp at hvalid
        | some l =>
          rw [hT] at hvalid
          refine ⟨l, rfl, ?_⟩
          simp only [List.any_eq_true, beq_iff_eq] at hvalid
          obtain ⟨x, hx, rfl⟩ := hvalid
          exact hx
      · rw [hret1] at hret; cases hret
    · intro text ctx1 w1 hret
      rcases hstep with ⟨n, c, v, hret1, _, _, _, _⟩ | ⟨t, v, hret1, hfin, hk⟩
      · rw [hret1] at hret; cases hret
      · exact ⟨hfin, hk⟩
  · intro fuel r hr e he
    obtain ⟨_, _, hcase⟩ := Execute_result env fuel S ctx w r hr
    rcases hcase with ⟨ho, _, _⟩ | ⟨text, ho, _, _, _⟩
    · rw [ho] at he; cases he
    · rw [ho] at he; cases he

theorem default_handlers_follow_stateTransitions_witness :
    StateVerify ≠ StateEnd ∧
    ∀ fuel r, (deployerAt calmEnv StateVerify).Execute (newContext Config.Default false)
        freshWorld fuel = some r → ∀ e, r.outcome ≠ Outcome.error e :=
  ⟨by decide,
   (default_handlers_follow_stateTransitions calmEnv StateVerify
      (newContext Config.Default false) freshWorld (by decide)).2⟩

/-- C6 (counterexample): `StateEnd` has no registered handler in the default table, yet
`Execute` on a deployer whose current state is `StateEnd` returns `nil`: the loop
leaves before it looks a handler up. -/
theorem Execute_at_unregistered_End_returns_nil :
    (stateHandlers calmEnv StateEnd).isNone = true ∧
    ((deployerAt calmEnv StateEnd).Execute (newContext Config.Default false) freshWorld 1).map
        (fun r => (r.outcome, r.currentState, r.invoked))
      = some (Outcome.nil, StateEnd, []) := by
  exact ⟨rfl, rfl⟩

theorem Execute_fatal_failure_witness :
    (deployerWithoutDetect calmEnv).currentState ≠ StateEnd ∧
    ∃ r, (deployerWithoutDetect calmEnv).Execute (newContext Config.Default false)
          freshWorld 2 = some r ∧
        r.outcome = Outcome.error (Error.noHandler StateDetectChanges) ∧
        r.currentState = StateDetectChanges ∧ r.invoked = [StateInit] ∧
        r.world = { freshWorld with lockFile := true, tick := 3 } ∧
        r.world.lockFile = true :=
  ⟨by decide,
   (Execute_fatal_failure_is_immediate (deployerWithoutDetect calmEnv)
      (newContext Config.Default false) freshWorld 0 (by decide)).2.2.2 calmEnv
      (newContext Config.Default false) (newContext Config.Default false) freshWorld
      { freshWorld with lockFile := true, tick := 3 } rfl⟩


theorem CurrentRevision_noCurrent_iff (env : Env) (w : World) :
    (release.CurrentRevision env w).1 = Except.error Error.ErrNoCurrentRelease ↔
      (env.fails w Op.readlinkCurrent = false ∧ w.current = none) := by
  unfold release.CurrentRevision
  simp only []
  constructor
  · intro h
    split at h
    · simp at h
    · rename_i hf
      refine ⟨by simpa using hf, ?_⟩
      split at h
      · rename_i hc; exact hc
      · split at h
        · simp at h
        · split at h
          · split at h <;> simp at h
          · simp at h
  · rintro ⟨hf, hc⟩
    have hc1 : w.next.current = none := hc
    simp [hf, hc1]

/-- C7: when the revision lookups of the `StateDetectChanges` handler succeed (the
current revision lookup reports that there is no current release, or it reads the
marker and the provider then answers), the handler returns `StateClone` exactly when
there is no current release, or the marker differs from the provider's revision, or
the force flag is set; otherwise it returns `StateFinalize`.  With no `current` link
(and a readlink that is not failed) it returns `StateClone` whatever the force flag
and the provider. -/
theorem DetectChanges_decision (env : Env) (ctx : Ctx) (w : World)
    (hlookups :
      (release.CurrentRevision env w).1 = Except.error Error.ErrNoCurrentRelease ∨
      ∃ cur prov, (release.CurrentRevision env w).1 = Except.ok cur ∧
        (Provider.GetRevision env (release.CurrentRevision env w).2).1 = Except.ok prov) :
    ∃ next w1, handleDetectChanges env ctx w = Step.ret next none ctx w1 ∧
      (next = StateClone ↔
        ((release.CurrentRevision env w).1 = Except.error Error.ErrNoCurrentRelease ∨
         (∃ cur prov, (release.CurrentRevision env w).1 = Except.ok cur ∧
            (Provider.GetRevision env (release.CurrentRevision env w).2).1 = Except.ok prov ∧
            cur ≠ prov) ∨
         ctx.Force = true)) ∧
      (next = StateClone ∨ next = StateFinalize) ∧
      (w.current = none → env.fails w Op.readlinkCurrent = false → next = StateClone) := by
  have hno := CurrentRevision_noCurrent_iff env w
  unfold handleDetectChanges
  cases hcr : release.CurrentRevision env w with
  | mk res w1 =>
    rw [hcr] at hlookups hno
    simp only [] at hlookups hno ⊢
    cases res with
    | error err =>
      rcases hlookups with h | ⟨cur, prov, h, _⟩
      · simp only [Except.error.injEq] at h
        subst h
        exact ⟨StateClone, w1, by simp, by simp, Or.inl rfl, fun _ _ => rfl⟩
      · cases h
    | ok cur =>
      have hno1 : ¬ (env.fails w Op.readlinkCurrent = false ∧ w.current = none) := by
        rw [← hno]; simp
      rcases hlookups with h | ⟨cur1, prov, h, hp⟩
      · cases h
      · cases hgr : Provider.GetRevision env w1 with
        | mk res2 w2 =>
          rw [hgr] at hp
          simp only [] at hp
          subst hp
          simp only [Except.ok.injEq] at h
          subst h
          by_cases hne : cur = prov
          · by_cases hforce : ctx.Force = true
            · refine ⟨StateClone, w2, by simp [hne, hforce, hgr], by simp [hforce], Or.inl rfl,
                fun _ _ => rfl⟩
            · refine ⟨StateFinalize, w2, by simp [hne, hforce, hgr], ?_, Or.inr rfl, ?_⟩
              · simp [hne, hforce, hgr]
              · intro hc hf; exact absurd ⟨hf, hc⟩ hno1
          · refine ⟨StateClone, w2, by simp [hne, hgr], ?_, Or.inl rfl, fun _ _ => rfl⟩
            simp [hne, hgr]

theorem DetectChanges_decision_witness :
    ((release.CurrentRevision calmEnv freshWorld).1 = Except.error Error.ErrNoCurrentRelease ∨
      ∃ cur prov, (release.CurrentRevision calmEnv freshWorld).1 = Except.ok cur ∧
        (Provider.GetRevision calmEnv (release.CurrentRevision calmEnv freshWorld).2).1
          = Except.ok prov) ∧
    ∃ next w1, handleDetectChanges calmEnv (newContext Config.Default false) freshWorld
        = Step.ret next none (newContext Config.Default false) w1 ∧
      (freshWorld.current = none → calmEnv.fails freshWorld Op.readlinkCurrent = false →
        next = StateClone) :=
  ⟨Or.inl rfl,
   (DetectChanges_decision calmEnv (newContext Config.Default false) freshWorld
      (Or.inl rfl)).imp fun _ h => h.imp fun _ h => ⟨h.1, h.2.2.2⟩⟩


theorem fails_of_fsCalm (env : Env) (hcalm : env.fsCalm) (w : World) (op : Op)
    (hop : op.isFileSystem = true) : env.fails w op = false :=
  hcalm _ _ hop

theorem collectInfos_calm (env : Env) (hcalm : env.fsCalm) :
    ∀ (l : List ReleaseEntry) (w : World) (acc : List releaseDirInfo),
      release.collectInfos env l w acc =
        (Except.ok (acc ++ (l.filter (fun e => e.isDir)).map
            (fun e => ({ name := e.name, created := e.modTime } : releaseDirInfo))),
         { w with tick := w.tick + (l.filter (fun e => e.isDir)).length }) := by
  intro l
  induction l with
  | nil => intro w acc; simp [release.collectInfos]
  | cons e rest ih =>
    intro w acc
    unfold release.collectInfos
    by_cases hd : e.isDir = true
    · have hf : env.fails w (Op.statRelease e.name) = false := hcalm _ _ rfl
      simp only [hd, if_true, hf, Bool.false_eq_true, if_false, ih, World.next,
        List.filter_cons_of_pos, List.map_cons, List.length_cons, List.append_assoc,
        List.singleton_append]
      simp only [Prod.mk.injEq, true_and]
      congr 1
      omega
    · simp only [hd, if_false, ih, Bool.false_eq_true]
      simp [hd]

theorem removeInfos_calm (env : Env) (hcalm : env.fsCalm) :
    ∀ (infos : List releaseDirInfo) (w : World), (∀ i ∈ infos, i.name ≠ "") →
      release.removeInfos env infos w =
        (Outcome.nil,
         { w with tick := w.tick + infos.length
                  releases := w.releases.filter
                    (fun e => decide (e.name ∉ infos.map (fun i => i.name))) }) := by
  intro infos
  induction infos with
  | nil => intro w _; simp [release.removeInfos]
  | cons i rest ih =>
    intro w hne
    have hi : i.name ≠ "" := hne i (List.mem_cons_self _ _)
    have hrest : ∀ j ∈ rest, j.name ≠ "" := fun j hj => hne j (List.mem_cons_of_mem _ hj)
    unfold release.removeInfos
    have hf : env.fails w (Op.removeAllRelease i.name) = false := hcalm _ _ rfl
    simp only [hf, Bool.false_eq_true, if_false, hi, ih _ hrest,
      World.removeEntry, World.next, List.filter_filter, List.length_cons, List.map_cons,
      List.mem_cons, not_or]
    simp only [Prod.mk.injEq, true_and]
    congr 1
    · congr 1
      funext e
      by_cases h1 : e.name = i.name <;> simp [h1]
    · omega


theorem CleanupOldReleases_calm (env : Env) (hcalm : env.fsCalm)
    (w : World) (N : Nat) (hex : w.releasesExists = true)
    (hne : ∀ e ∈ w.releases, e.name ≠ "") :
    ∃ t, release.CleanupOldReleases env (N : Int) w =
      (Outcome.nil,
       { w with
          tick := t
          releases :=
            if ((w.releases.filter (fun e => e.isDir)).length ≤ N) then w.releases
            else w.releases.filter (fun e => decide (e.name ∉
              ((release.sortInfos ((w.releases.filter (fun e => e.isDir)).map
                  (fun e => ({ name := e.name, created := e.modTime } : releaseDirInfo)))).take
                ((w.releases.filter (fun e => e.isDir)).length - N)).map (fun i => i.name))) }) := by
  have hlen : (release.sortInfos ((w.releases.filter (fun e => e.isDir)).map
      (fun e => ({ name := e.name, created := e.modTime } : releaseDirInfo)))).length
      = (w.releases.filter (fun e => e.isDir)).length := by
    simp [release.sortInfos, List.length_insertionSort]
  unfold release.CleanupOldReleases
  have hf : env.fails w Op.readDirReleases = false := hcalm _ _ rfl
  simp only [hf, World.next, hex, Bool.false_eq_true, Bool.not_true,
    Bool.or_self, if_false]
  rw [collectInfos_calm env hcalm]
  simp only [List.nil_append, hlen, Nat.cast_le]
  by_cases hle : (w.releases.filter (fun e => e.isDir)).length ≤ N
  · simp only [hle, if_true]
    exact ⟨_, rfl⟩
  · simp only [hle, if_false]
    have hcap := sliceCap_ge env (w.releases.filter (fun e => e.isDir)).length
    have hnot : ¬ (((w.releases.filter (fun e => e.isDir)).length : Int) - (N : Int)
        > ((env.sliceCap (w.releases.filter (fun e => e.isDir)).length : Nat) : Int)) := by
      omega
    simp only [hnot, if_false]
    have htoNat : (((w.releases.filter (fun e => e.isDir)).length : Int) - (N : Int)).toNat
        = (w.releases.filter (fun e => e.isDir)).length - N := by omega
    rw [htoNat, List.take_append_of_le_length (by rw [hlen]; omega)]
    rw [removeInfos_calm env hcalm]
    · exact ⟨_, rfl⟩
    · intro i hi
      have hi1 := List.mem_of_mem_take hi
      simp only [release.sortInfos, List.mem_insertionSort, List.mem_map, List.mem_filter] at hi1
      obtain ⟨e, ⟨he, _⟩, rfl⟩ := hi1
      exact hne e he


theorem filter_not_selected (l : List releaseDirInfo) (k : Nat)
    (h : (l.map (fun i => i.name)).Nodup) :
    l.filter (fun i => decide (i.name ∉ (l.take k).map (fun i => i.name))) = l.drop k := by
  have key : ∀ D : List String, D = (l.take k).map (fun i => i.name) →
      (l.take k ++ l.drop k).filter (fun i => decide (i.name ∉ D)) = l.drop k := by
    intro D hD
    rw [List.filter_append]
    have h1 : (l.take k).filter (fun i => decide (i.name ∉ D)) = [] := by
      rw [List.filter_eq_nil_iff]
      intro i hi
      simp only [decide_eq_true_eq, not_not, hD]
      exact List.mem_map_of_mem _ hi
    have h2 : (l.drop k).filter (fun i => decide (i.name ∉ D)) = l.drop k := by
      rw [List.filter_eq_self]
      intro i hi
      simp only [decide_eq_true_eq, hD]
      intro hmem
      rw [← List.take_append_drop k l, List.map_append, List.nodup_append] at h
      exact h.2.2 hmem (List.mem_map_of_mem _ hi)
    rw [h1, h2, List.nil_append]
  have := key _ rfl
  rwa [List.take_append_drop] at this

theorem pruned_of_calm (env : Env) (hcalm : env.fsCalm)
    (w : World) (N : Nat) (hex : w.releasesExists = true) (hwf : w.WellFormed)
    (hdistinct : (w.dirs.map (fun e => e.modTime)).Nodup) :
    ∃ (t : Nat) (R : List ReleaseEntry),
      release.CleanupOldReleases env (N : Int) w = (Outcome.nil, { w with tick := t, releases := R }) ∧
      R.Sublist w.releases ∧
      (∀ e ∈ w.releases, e.isDir = false → e ∈ R) ∧
      (R.filter (fun e => e.isDir)).length = min N w.dirs.length ∧
      (∀ d ∈ w.dirs, d ∉ R → ∀ k ∈ R, k.isDir = true → d.modTime < k.modTime) ∧
      (w.dirs.length ≤ N → R = w.releases) := by
  obtain ⟨hnodup, hne⟩ := hwf
  obtain ⟨t, ht⟩ := CleanupOldReleases_calm env hcalm w N hex hne
  refine ⟨t, _, ht, ?_⟩
  have hdirs : w.releases.filter (fun e => e.isDir) = w.dirs := rfl
  simp only [hdirs]
  by_cases hle : w.dirs.length ≤ N
  · rw [if_pos hle]
    refine ⟨List.Sublist.refl _, fun e he _ => he, ?_, ?_, fun _ => rfl⟩
    · rw [hdirs]; omega
    · intro d hd hnot; exact absurd (List.mem_of_mem_filter hd) hnot
  · rw [if_neg hle]
    -- names and notations
    generalize hinfos : w.dirs.map
      (fun e => ({ name := e.name, created := e.modTime } : releaseDirInfo)) = infos
    generalize hk : w.dirs.length - N = k
    have hsub : w.dirs.Sublist w.releases := List.filter_sublist _
    have hperm : (release.sortInfos infos).Perm infos := List.perm_insertionSort _ _
    haveI : IsTotal releaseDirInfo releaseDirInfo.le := ⟨fun a b => Nat.le_total _ _⟩
    haveI : IsTrans releaseDirInfo releaseDirInfo.le := ⟨fun a b c => Nat.le_trans⟩
    have hsorted : (release.sortInfos infos).Sorted releaseDirInfo.le :=
      List.sorted_insertionSort _ _
    have hnamesDirs : (w.dirs.map (fun e => e.name)).Nodup :=
      hnodup.sublist (hsub.map _)
    have hinfoNames : infos.map (fun i => i.name) = w.dirs.map (fun e => e.name) := by
      rw [← hinfos, List.map_map]; rfl
    have hsortedNames : ((release.sortInfos infos).map (fun i => i.name)).Nodup := by
      rw [(hperm.map _).nodup_iff, hinfoNames]; exact hnamesDirs
    have hsplit : release.sortInfos infos =
        (release.sortInfos infos).take k ++ (release.sortInfos infos).drop k :=
      (List.take_append_drop k _).symm
    have hdisj : ∀ i ∈ (release.sortInfos infos).drop k,
        i.name ∉ ((release.sortInfos infos).take k).map (fun i => i.name) := by
      intro i hi hmem
      rw [hsplit, List.map_append, List.nodup_append] at hsortedNames
      exact hsortedNames.2.2 hmem (List.mem_map_of_mem _ hi)
    have hlenSorted : (release.sortInfos infos).length = w.dirs.length := by
      rw [hperm.length_eq, ← hinfos, List.length_map]
    -- an entry whose name is selected is a directory, and its info is among the selected
    have hsel : ∀ e ∈ w.releases,
        e.name ∈ ((release.sortInfos infos).take k).map (fun i => i.name) →
        e.isDir = true ∧
          ({ name := e.name, created := e.modTime } : releaseDirInfo)
            ∈ (release.sortInfos infos).take k := by
      intro e he hmem
      obtain ⟨i, hi, hname⟩ := List.mem_map.mp hmem
      have hi1 : i ∈ infos := hperm.mem_iff.mp (List.mem_of_mem_take hi)
      rw [← hinfos] at hi1
      obtain ⟨d, hd, rfl⟩ := List.mem_map.mp hi1
      have hdrel : d ∈ w.releases := hsub.subset hd
      have : d = e := List.inj_on_of_nodup_map hnodup hdrel he hname
      subst this
      exact ⟨(List.mem_filter.mp hd).2, hi⟩
    refine ⟨List.filter_sublist _, ?_, ?_, ?_, fun h => absurd h hle⟩
    · intro e he hfile
      refine List.mem_filter.mpr ⟨he, ?_⟩
      simp only [decide_eq_true_eq]
      intro hmem
      have := (hsel e he hmem).1
      rw [hfile] at this
      cases this
    · -- the directories that remain are, up to order, the last entries of the sorted slice
      have hmap : ((w.releases.filter (fun e => decide (e.name ∉
            ((release.sortInfos infos).take k).map (fun i => i.name)))).filter
            (fun e => e.isDir)).map
            (fun e => ({ name := e.name, created := e.modTime } : releaseDirInfo))
          = infos.filter (fun i => decide (i.name ∉
            ((release.sortInfos infos).take k).map (fun i => i.name))) := by
        rw [List.filter_comm, hdirs, ← hinfos, List.filter_map]
        rfl
      have hfil := filter_not_selected (release.sortInfos infos) k hsortedNames
      have hcount := congrArg List.length hmap
      rw [List.length_map, ((hperm.filter _).length_eq).symm, hfil, List.length_drop,
        hlenSorted] at hcount
      rw [hcount]
      omega
    · intro d hd hnot kk hkk hkdir
      have hdrel : d ∈ w.releases := hsub.subset hd
      have hdsel : d.name ∈ ((release.sortInfos infos).take k).map (fun i => i.name) := by
        by_contra hcon
        exact hnot (List.mem_filter.mpr ⟨hdrel, by simpa using hcon⟩)
      have hdtake := (hsel d hdrel hdsel).2
      obtain ⟨hkrel, hknot⟩ := List.mem_filter.mp hkk
      simp only [decide_eq_true_eq] at hknot
      have hkdirs : kk ∈ w.dirs := List.mem_filter.mpr ⟨hkrel, hkdir⟩
      have hkinfo : ({ name := kk.name, created := kk.modTime } : releaseDirInfo)
          ∈ release.sortInfos infos := by
        rw [hperm.mem_iff, ← hinfos]
        exact List.mem_map_of_mem _ hkdirs
      have hkdrop : ({ name := kk.name, created := kk.modTime } : releaseDirInfo)
          ∈ (release.sortInfos infos).drop k := by
        rw [hsplit, List.mem_append] at hkinfo
        rcases hkinfo with h | h
        · exact absurd (List.mem_map_of_mem (fun i => i.name) h) hknot
        · exact h
      have hle2 : d.modTime ≤ kk.modTime :=
        hsorted.rel_of_mem_take_of_mem_drop hdtake hkdrop
      have hneq : d.modTime ≠ kk.modTime := by
        intro heq
        have : d = kk := List.inj_on_of_nodup_map hdistinct hd hkdirs heq
        subst this
        exact hknot hdsel
      omega


/-- C10: when the environment fails no file system call, for release directories with pairwise distinct
modification times and every retention count `N ≥ 0`, `CleanupOldReleases` returns
`nil`; it creates and changes no entry and leaves entries that are not directories
alone; `min N count` release directories remain; every directory it deleted is
strictly older than every directory that remains; with `count ≤ N` nothing is
deleted; the lock marker and the links are untouched. -/
theorem CleanupOldReleases_keeps_newest (env : Env) (w : World) (N : Nat)
    (hcalm : env.fsCalm) (hex : w.releasesExists = true)
    (hwf : w.WellFormed) (hdistinct : (w.dirs.map (fun e => e.modTime)).Nodup) :
    (release.CleanupOldReleases env (N : Int) w).1 = Outcome.nil ∧
    (release.CleanupOldReleases env (N : Int) w).2.releases.Sublist w.releases ∧
    (∀ e ∈ w.releases, e.isDir = false →
      e ∈ (release.CleanupOldReleases env (N : Int) w).2.releases) ∧
    (release.CleanupOldReleases env (N : Int) w).2.dirs.length = min N w.dirs.length ∧
    (∀ d ∈ w.dirs, d ∉ (release.CleanupOldReleases env (N : Int) w).2.dirs →
      ∀ k ∈ (release.CleanupOldReleases env (N : Int) w).2.dirs, d.modTime < k.modTime) ∧
    (w.dirs.length ≤ N → (release.CleanupOldReleases env (N : Int) w).2.releases = w.releases) ∧
    (release.CleanupOldReleases env (N : Int) w).2.lockFile = w.lockFile ∧
    (release.CleanupOldReleases env (N : Int) w).2.current = w.current ∧
    (release.CleanupOldReleases env (N : Int) w).2.previous = w.previous := by
  obtain ⟨t, R, hrun, hsub, hfiles, hlen, hold, hall⟩ :=
    pruned_of_calm env hcalm w N hex hwf hdistinct
  rw [hrun]
  refine ⟨rfl, hsub, hfiles, hlen, ?_, hall, rfl, rfl, rfl⟩
  intro d hd hnot k hk
  have hk1 := List.mem_filter.mp hk
  refine hold d hd (fun hmem => hnot ?_) k hk1.1 hk1.2
  exact List.mem_filter.mpr ⟨hmem, (List.mem_filter.mp hd).2⟩

theorem CleanupOldReleases_keeps_newest_witness :
    (fiveReleases.dirs.map (fun e => e.modTime)).Nodup ∧
    (release.CleanupOldReleases calmEnv 3 fiveReleases).1 = Outcome.nil ∧
    (release.CleanupOldReleases calmEnv 3 fiveReleases).2.dirs.length = 3 ∧
    (release.CleanupOldReleases calmEnv 3 fiveReleases).2.releases.map (fun e => e.name)
      = ["20240101_000003", "20240101_000005", "20240101_000004"] :=
  have h := CleanupOldReleases_keeps_newest calmEnv fiveReleases 3 (fun _ _ _ => rfl) rfl
    ⟨by decide, by decide⟩ (by decide)
  ⟨by decide, h.1, h.2.2.2.1, by decide⟩



/-- With a retention count that is not negative, `Execute` from `StateInit` returns
`nil` at `StateEnd` after at most nine handler calls, the last one being the
`StateFinalize` handler, whatever the environment answers. -/
theorem Execute_terminates_of_keep_nonneg (env : Env) (ctx : Ctx) (w : World) (fuel : Nat)
    (hkeep : 0 ≤ ctx.Config.Deploy.KeepReleases) (hfuel : 10 ≤ fuel) :
    ∃ r, (New env).Execute ctx w fuel = some r ∧ r.outcome = Outcome.nil ∧
      r.currentState = StateEnd ∧ r.invoked.length ≤ 9 ∧
      r.invoked.getLast? = some StateFinalize := by
  obtain ⟨r, hr⟩ := Execute_returns env fuel StateInit ctx w (by simp only [rank]; omega)
  obtain ⟨hlen, _, hcase⟩ := Execute_result env fuel StateInit ctx w r hr
  refine ⟨r, hr, ?_⟩
  rcases hcase with ⟨ho, hs, hl⟩ | ⟨text, _, _, _, hneg⟩
  · exact ⟨ho, hs, hlen, hl (by decide)⟩
  · omega

/-- C5 (failing input): with `keep_releases = -1`, an empty `releases` directory and a
provider that cannot be initialised, `Execute` does not return `nil`: the handler of
`StateFinalize` panics on the slice expression of `CleanupOldReleases`, the current
state stays `StateFinalize`, `StateEnd` is not reached and the lock marker stays. -/
theorem Execute_panics_with_negative_keep :
    ((New initFailsEnv).Execute (newContext (configKeeping (-1)) false) freshWorld 10).map
        (fun r => (r.outcome, r.currentState, r.invoked, r.world.lockFile))
      = some (Outcome.panic "slice bounds out of range", StateFinalize,
          [StateInit, StateError, StateFinalize], true) := by
  decide

/-- C1 (failing input): a first deployment (no `current`, no `previous`) whose `verify`
hook fails ends with `current` pointing at the new release, which the discard
compensation has deleted; `current` was absent before the run. -/
theorem first_deploy_verify_failure_leaves_current :
    freshWorld.current = none ∧
    ((New verifyFailsEnv).Execute (newContext Config.Default false) freshWorld 10).map
        (fun r => (r.outcome, r.currentState, r.world.current,
          r.world.entry "20240102_150405", r.invoked))
      = some (Outcome.nil, StateEnd, some "20240102_150405", none,
          [StateInit, StateDetectChanges, StateClone, StateBuild, StateDeploy,
           StatePostDeploy, StateVerify, StateError, StateFinalize]) := by
  decide

/-- C2 (counterexample): with retention count 0, a run that detects no change prunes
the release directory `current` points to: `current` resolved before the run and is
dangling after it. -/
theorem noop_run_with_keep_zero_prunes_current :
    oneRelease.current = some "20240101_000001" ∧
    oneRelease.isReleaseDir "20240101_000001" = true ∧
    ((New calmEnv).Execute (newContext (configKeeping 0) false) oneRelease 10).map
        (fun r => (r.outcome, r.world.current, r.world.isReleaseDir "20240101_000001",
          r.invoked))
      = some (Outcome.nil, some "20240101_000001", false,
          [StateInit, StateDetectChanges, StateFinalize]) := by
  decide

/-- C8 (failing input): with `keep_releases = -1`, a run that detects no change visits
`StateInit`, `StateDetectChanges` and `StateFinalize` and panics there; `StateEnd` is
not reached.  No release is created, no hook is run and the links are unchanged. -/
theorem noop_run_panics_with_negative_keep :
    ((New calmEnv).Execute (newContext (configKeeping (-1)) false) oneRelease 10).map
        (fun r => (r.outcome, r.currentState, r.invoked, r.world.releases, r.world.hooksRun,
          r.world.current, r.world.previous))
      = some (Outcome.panic "slice bounds out of range", StateFinalize,
          [StateInit, StateDetectChanges, StateFinalize], oneRelease.releases, [],
          oneRelease.current, oneRelease.previous) := by
  rfl


/-! ## What each call can change -/

theorem Acquire_frame (env : Env) (w : World) :
    ∃ t lk, (lock.Acquire env w).2 = { w with tick := t, lockFile := lk } := by
  unfold lock.Acquire
  simp only []
  repeat' split
  all_goals exact ⟨_, _, rfl⟩

theorem Release_frame (env : Env) (w : World) :
    ∃ t lk, (lock.Release env w).2 = { w with tick := t, lockFile := lk } := by
  unfold lock.Release
  simp only []
  repeat' split
  all_goals exact ⟨_, _, rfl⟩

theorem GetRevision_frame (env : Env) (w : World) :
    (Provider.GetRevision env w).2 = w.next := by
  unfold Provider.GetRevision
  simp only []
  split <;> rfl

theorem Clone_frame (env : Env) (dir : String) (w : World) :
    (Provider.Clone env dir w).2 = w.next := by
  unfold Provider.Clone
  simp only []
  split <;> rfl

theorem ExecuteHook_frame (env : Env) (dir : String) (h : Hook) (w : World) :
    (hook.ExecuteHook env dir h w).2 =
      { w with tick := w.tick + 1, hooksRun := w.hooksRun ++ [(h, dir)] } := by
  unfold hook.ExecuteHook
  simp only []
  split <;> rfl

theorem linkShared_frame (env : Env) (entries : List String) :
    ∀ w : World, ∃ t, (linkShared env entries w).2 = { w with tick := t } := by
  induction entries with
  | nil => intro w; exact ⟨w.tick, rfl⟩
  | cons e rest ih =>
    intro w
    unfold linkShared
    simp only []
    split
    · exact ⟨_, rfl⟩
    · obtain ⟨t, ht⟩ := ih w.next.next
      exact ⟨t, by rw [ht]; rfl⟩

theorem CurrentRevision_frame (env : Env) (w : World) :
    ∃ t, (release.CurrentRevision env w).2 = { w with tick := t } := by
  unfold release.CurrentRevision
  simp only []
  repeat' split
  all_goals exact ⟨_, rfl⟩

theorem mkdirAllRelease_frame (env : Env) (name : String) (w w1 : World)
    (h : release.mkdirAllRelease env name w = some w1) :
    ∃ ex rs, w1 = { w with tick := w.tick + 1, releasesExists := ex, releases := rs } := by
  unfold release.mkdirAllRelease at h
  split at h
  · cases h
  · split at h
    · split at h
      · cases h; exact ⟨_, _, rfl⟩
      · cases h
    · cases h; exact ⟨_, _, rfl⟩

theorem NewRelease_frame (env : Env) (rev : String) (w : World) :
    ∃ t ex rs, (release.NewRelease env rev w).2 =
      { w with tick := t, releasesExists := ex, releases := rs } := by
  unfold release.NewRelease
  simp only []
  split
  · exact ⟨_, _, _, rfl⟩
  · rename_i w1 hmk
    obtain ⟨ex, rs, rfl⟩ := mkdirAllRelease_frame env _ w w1 hmk
    split
    · exact ⟨_, _, _, rfl⟩
    · exact ⟨_, _, _, rfl⟩

theorem setPrevious_frame (env : Env) (w : World) :
    ∃ t prev, release.setPrevious env w = { w with tick := t, previous := prev } := by
  unfold release.setPrevious
  simp only []
  repeat' split
  all_goals exact ⟨_, _, rfl⟩

theorem UpdateCurrent_frame (env : Env) (dir : String) (w : World) :
    ∃ t cur prev tmp, (release.UpdateCurrent env dir w).2 =
        { w with tick := t, current := cur, previous := prev, currentTmp := tmp } ∧
      (((release.UpdateCurrent env dir w).1 ≠ none ∧ cur = w.current) ∨
       ((release.UpdateCurrent env dir w).1 = none ∧ cur = some dir ∧ tmp = none)) := by
  unfold release.UpdateCurrent
  obtain ⟨t, prev, hp⟩ := setPrevious_frame env w
  simp only [hp]
  split
  · exact ⟨_, _, _, _, rfl, Or.inl ⟨by simp, rfl⟩⟩
  · split
    · split
      · exact ⟨_, _, _, _, rfl, Or.inl ⟨by simp, rfl⟩⟩
      · exact ⟨_, _, _, _, rfl, Or.inl ⟨by simp, rfl⟩⟩
    · exact ⟨_, _, _, _, rfl, Or.inr ⟨rfl, rfl, rfl⟩⟩


theorem Rollback_frame (env : Env) (w : World) :
    ∃ t cur prev tmp, (release.Rollback env w).2 =
        { w with tick := t, current := cur, previous := prev, currentTmp := tmp } ∧
      ((release.Rollback env w).1 ≠ none → cur = w.current) := by
  unfold release.Rollback
  simp only []
  split
  · exact ⟨_, _, _, _, rfl, fun _ => rfl⟩
  · rename_i target _
    obtain ⟨t, cur, prev, tmp, hw, hc⟩ := UpdateCurrent_frame env target w.next
    split
    · rename_i e w1 hu
      rw [hu] at hw hc
      simp only at hw hc
      refine ⟨t, cur, prev, tmp, hw, fun _ => ?_⟩
      rcases hc with ⟨_, h⟩ | ⟨h, _⟩
      · exact h
      · cases h
    · rename_i w1 hu
      rw [hu] at hw
      exact ⟨t, cur, prev, tmp, hw, fun h => absurd rfl h⟩

theorem CleanupRelease_frame (env : Env) (dir : String) (w : World) :
    ∃ t rs, (release.CleanupRelease env dir w).2 = { w with tick := t, releases := rs } ∧
      rs.Sublist w.releases ∧
      (env.fails w (Op.removeAllRelease dir) = false →
        rs = w.releases.filter (fun e => !(e.name == dir))) := by
  unfold release.CleanupRelease
  simp only []
  split
  · rename_i h
    exact ⟨_, _, rfl, List.Sublist.refl _, fun h1 => by rw [h] at h1; cases h1⟩
  · exact ⟨_, _, rfl, List.filter_sublist _, fun _ => rfl⟩

theorem collectInfos_frame (env : Env) (l : List ReleaseEntry) :
    ∀ (w : World) (acc : List releaseDirInfo),
      ∃ t, (release.collectInfos env l w acc).2 = { w with tick := t } := by
  induction l with
  | nil => intro w acc; exact ⟨w.tick, rfl⟩
  | cons e rest ih =>
    intro w acc
    unfold release.collectInfos
    split
    · simp only []
      split
      · exact ⟨_, rfl⟩
      · obtain ⟨t, ht⟩ := ih w.next (acc ++ [{ name := e.name, created := e.modTime }])
        exact ⟨t, by rw [ht]; rfl⟩
    · exact ih w acc

theorem removeInfos_frame (env : Env) (infos : List releaseDirInfo) :
    ∀ w : World, ∃ t ex rs, (release.removeInfos env infos w).2 =
        { w with tick := t, releasesExists := ex, releases := rs } ∧
      rs.Sublist w.releases := by
  induction infos with
  | nil => intro w; exact ⟨_, _, _, rfl, List.Sublist.refl _⟩
  | cons info rest ih =>
    intro w
    unfold release.removeInfos
    simp only []
    split
    · exact ⟨_, _, _, rfl, List.Sublist.refl _⟩
    · split
      · obtain ⟨t, ex, rs, h, hs⟩ :=
          ih { w.next with releases := [], releasesExists := false }
        exact ⟨t, ex, rs, by rw [h]; rfl, hs.trans (List.nil_sublist _)⟩
      · obtain ⟨t, ex, rs, h, hs⟩ := ih (w.next.removeEntry info.name)
        exact ⟨t, ex, rs, by rw [h]; rfl, hs.trans (List.filter_sublist _)⟩

theorem CleanupOldReleases_frame (env : Env) (keep : Int) (w : World) :
    ∃ t ex rs, (release.CleanupOldReleases env keep w).2 =
        { w with tick := t, releasesExists := ex, releases := rs } ∧
      rs.Sublist w.releases := by
  unfold release.CleanupOldReleases
  simp only []
  split
  · exact ⟨_, _, _, rfl, List.Sublist.refl _⟩
  · obtain ⟨t1, h1⟩ := collectInfos_frame env w.next.releases w.next []
    split
    · rename_i e w1 hc
      rw [hc] at h1
      simp only at h1
      exact ⟨_, _, _, by rw [h1]; rfl, List.Sublist.refl _⟩
    · rename_i infos w1 hc
      rw [hc] at h1
      simp only at h1
      subst h1
      split
      · exact ⟨_, _, _, rfl, List.Sublist.refl _⟩
      · split
        · exact ⟨_, _, _, rfl, List.Sublist.refl _⟩
        · obtain ⟨t, ex, rs, h, hs⟩ := removeInfos_frame env
            (List.take (↑(release.sortInfos infos).length - keep).toNat
              (release.sortInfos infos ++
                List.replicate (env.sliceCap (release.sortInfos infos).length -
                  (release.sortInfos infos).length) { name := "", created := 0 }))
            { w.next with tick := t1 }
          exact ⟨t, ex, rs, by rw [h]; rfl, hs⟩


/-! ## What each handler can change -/

theorem handleInit_effect (env : Env) (ctx : Ctx) (w : World) :
    ∃ next t lk, handleInit env ctx w =
        Step.ret next none ctx { w with tick := t, lockFile := lk } ∧
      (next = StateDetectChanges ∨ next = StateError) := by
  unfold handleInit
  obtain ⟨t, lk, ha⟩ := Acquire_frame env w
  split
  · rename_i e w1 h
    rw [h] at ha; simp only at ha; subst ha
    exact ⟨_, _, _, rfl, Or.inr rfl⟩
  · rename_i w1 h
    rw [h] at ha; simp only at ha; subst ha
    have hi := Provider_Init_world env { w with tick := t, lockFile := lk }
    split
    · rename_i e w2 h2
      rw [h2] at hi; simp only at hi; subst hi
      exact ⟨_, _, _, rfl, Or.inr rfl⟩
    · rename_i w2 h2
      rw [h2] at hi; simp only at hi; subst hi
      exact ⟨_, _, _, rfl, Or.inl rfl⟩

theorem handleDetectChanges_effect (env : Env) (ctx : Ctx) (w : World) :
    ∃ next t, handleDetectChanges env ctx w = Step.ret next none ctx { w with tick := t } ∧
      (next = StateClone ∨ next = StateFinalize ∨ next = StateError) := by
  unfold handleDetectChanges
  obtain ⟨t, hc⟩ := CurrentRevision_frame env w
  split
  · rename_i e w1 h
    rw [h] at hc; simp only at hc; subst hc
    split
    · exact ⟨_, _, rfl, Or.inl rfl⟩
    · exact ⟨_, _, rfl, Or.inr (Or.inr rfl)⟩
  · rename_i rev w1 h
    rw [h] at hc; simp only at hc; subst hc
    have hg := GetRevision_frame env { w with tick := t }
    split
    · rename_i e w2 h2
      rw [h2] at hg; simp only at hg; subst hg
      exact ⟨_, _, rfl, Or.inr (Or.inr rfl)⟩
    · rename_i p w2 h2
      rw [h2] at hg; simp only at hg; subst hg
      repeat' split
      all_goals first
        | exact ⟨_, _, rfl, Or.inl rfl⟩
        | exact ⟨_, _, rfl, Or.inr (Or.inl rfl)⟩

theorem hookStep_effect (env : Env) (ctx : Ctx) (w : World) (hk : Hook) (ok : State) :
    ∃ next,
      (match hook.ExecuteHook env ctx.NewReleaseDir hk w with
        | (some _, w) => Step.ret StateError none ctx w
        | (none, w) => Step.ret ok none ctx w) =
        Step.ret next none ctx
          { w with tick := w.tick + 1, hooksRun := w.hooksRun ++ [(hk, ctx.NewReleaseDir)] } ∧
      (next = ok ∨ next = StateError) := by
  have hf := ExecuteHook_frame env ctx.NewReleaseDir hk w
  split
  · rename_i e w1 h
    rw [h] at hf; simp only at hf; subst hf
    exact ⟨_, rfl, Or.inr rfl⟩
  · rename_i w1 h
    rw [h] at hf; simp only at hf; subst hf
    exact ⟨_, rfl, Or.inl rfl⟩

theorem handleBuild_effect (env : Env) (ctx : Ctx) (w : World) :
    ∃ next, handleBuild env ctx w = Step.ret next none ctx
        { w with tick := w.tick + 1,
                 hooksRun := w.hooksRun ++ [(HookBuild, ctx.NewReleaseDir)] } ∧
      (next = StateDeploy ∨ next = StateError) :=
  hookStep_effect env ctx w HookBuild StateDeploy

theorem handlePostDeploy_effect (env : Env) (ctx : Ctx) (w : World) :
    ∃ next, handlePostDeploy env ctx w = Step.ret next none ctx
        { w with tick := w.tick + 1,
                 hooksRun := w.hooksRun ++ [(HookPostDeploy, ctx.NewReleaseDir)] } ∧
      (next = StateVerify ∨ next = StateError) :=
  hookStep_effect env ctx w HookPostDeploy StateVerify

theorem handleVerify_effect (env : Env) (ctx : Ctx) (w : World) :
    ∃ next, handleVerify env ctx w = Step.ret next none ctx
        { w with tick := w.tick + 1,
                 hooksRun := w.hooksRun ++ [(HookVerify, ctx.NewReleaseDir)] } ∧
      (next = StateFinalize ∨ next = StateError) :=
  hookStep_effect env ctx w HookVerify StateFinalize

theorem handleDeploy_effect (env : Env) (ctx : Ctx) (w : World) :
    ∃ next ctx1 t cur prev tmp hr, handleDeploy env ctx w =
        Step.ret next none ctx1
          { w with tick := t, current := cur, previous := prev, currentTmp := tmp,
                   hooksRun := hr } ∧
      ((next = StateError ∧ ctx1 = ctx ∧ cur = w.current) ∨
       (next = StatePostDeploy ∧ ctx1 = ctx.AddRollbackFunc RollbackFunc.rollback ∧
          cur = some ctx.NewReleaseDir ∧ tmp = none)) := by
  unfold handleDeploy
  have hf := ExecuteHook_frame env ctx.NewReleaseDir HookDeploy w
  split
  · rename_i e w1 h
    rw [h] at hf; simp only at hf; subst hf
    exact ⟨_, _, _, _, _, _, _, rfl, Or.inl ⟨rfl, rfl, rfl⟩⟩
  · rename_i w1 h
    rw [h] at hf; simp only at hf; subst hf
    obtain ⟨t, cur, prev, tmp, hu, hcase⟩ := UpdateCurrent_frame env ctx.NewReleaseDir
      { w with tick := w.tick + 1, hooksRun := w.hooksRun ++ [(HookDeploy, ctx.NewReleaseDir)] }
    split
    · rename_i e w2 h2
      rw [h2] at hu hcase; simp only at hu hcase; subst hu
      rcases hcase with ⟨_, hc⟩ | ⟨hc, _⟩
      · exact ⟨_, _, _, _, _, _, _, rfl, Or.inl ⟨rfl, rfl, hc⟩⟩
      · cases hc
    · rename_i w2 h2
      rw [h2] at hu hcase; simp only at hu hcase; subst hu
      rcases hcase with ⟨hc, _⟩ | ⟨_, hc, ht⟩
      · exact absurd rfl hc
      · exact ⟨_, _, _, _, _, _, _, rfl, Or.inr ⟨rfl, rfl, hc, ht⟩⟩


theorem NewRelease_ok (env : Env) (rev dir : String) (w : World)
    (h : (release.NewRelease env rev w).1 = Except.ok dir) : dir = env.timestamp := by
  unfold release.NewRelease at h
  simp only [] at h
  split at h
  · cases h
  · split at h
    · cases h
    · simp only [Except.ok.injEq] at h
      exact h.symm

theorem handleClone_effect (env : Env) (ctx : Ctx) (w : World) :
    ∃ next ctx1 t ex rs hr, handleClone env ctx w =
        Step.ret next none ctx1
          { w with tick := t, releasesExists := ex, releases := rs, hooksRun := hr } ∧
      ((next = StateError ∧ ctx1.rollbackFuncs = ctx.rollbackFuncs ∧
          ctx1.Config = ctx.Config ∧ ctx1.Force = ctx.Force ∧
          (ctx1.NewReleaseDir = ctx.NewReleaseDir ∨ ctx1.NewReleaseDir = "")) ∨
       ((next = StateBuild ∨ next = StateError) ∧
          ctx1 = { ctx with NewReleaseDir := env.timestamp
                            rollbackFuncs := ctx.rollbackFuncs ++ [RollbackFunc.cleanupNewRelease] })) := by
  unfold handleClone
  have hg := GetRevision_frame env w
  split
  · rename_i e w1 h
    rw [h] at hg; simp only at hg; subst hg
    exact ⟨_, _, _, _, _, _, rfl, Or.inl ⟨rfl, rfl, rfl, rfl, Or.inl rfl⟩⟩
  · rename_i rev w1 h
    rw [h] at hg; simp only at hg; subst hg
    obtain ⟨t, ex, rs, hn⟩ := NewRelease_frame env rev w.next
    have hok := NewRelease_ok env rev
    split
    · rename_i e w2 h2
      rw [h2] at hn; simp only at hn; subst hn
      exact ⟨_, _, _, _, _, _, rfl, Or.inl ⟨rfl, rfl, rfl, rfl, Or.inr rfl⟩⟩
    · rename_i dir w2 h2
      have hdir : dir = env.timestamp := hok dir w.next (by rw [h2])
      rw [h2] at hn; simp only at hn; subst hn
      subst hdir
      simp only [Context.AddRollbackFunc]
      have hcl := Clone_frame env env.timestamp
        { w.next with tick := t, releasesExists := ex, releases := rs }
      split
      · rename_i e w3 h3
        rw [h3] at hcl; simp only at hcl; subst hcl
        exact ⟨_, _, _, _, _, _, rfl, Or.inr ⟨Or.inr rfl, rfl⟩⟩
      · rename_i w3 h3
        rw [h3] at hcl; simp only at hcl; subst hcl
        have hh := ExecuteHook_frame env env.timestamp HookClone
          ({ w.next with tick := t, releasesExists := ex, releases := rs } : World).next
        split
        · rename_i e w4 h4
          rw [h4] at hh; simp only at hh; subst hh
          exact ⟨_, _, _, _, _, _, rfl, Or.inr ⟨Or.inr rfl, rfl⟩⟩
        · rename_i w4 h4
          rw [h4] at hh; simp only at hh; subst hh
          obtain ⟨t5, h5⟩ := linkShared_frame env ctx.Config.Deploy.Shared.Dirs
            { ({ w.next with tick := t, releasesExists := ex, releases := rs } : World).next with
              tick := ({ w.next with tick := t, releasesExists := ex, releases := rs } : World).next.tick + 1
              hooksRun := ({ w.next with tick := t, releasesExists := ex, releases := rs } : World).next.hooksRun
                ++ [(HookClone, env.timestamp)] }
          split
          · rename_i w5 h6
            rw [h6] at h5; simp only at h5; subst h5
            exact ⟨_, _, _, _, _, _, rfl, Or.inr ⟨Or.inr rfl, rfl⟩⟩
          · rename_i w5 h6
            rw [h6] at h5; simp only at h5; subst h5
            obtain ⟨t7, h7⟩ := linkShared_frame env ctx.Config.Deploy.Shared.Files
              { ({ ({ w.next with tick := t, releasesExists := ex, releases := rs } : World).next with
                tick := ({ w.next with tick := t, releasesExists := ex, releases := rs } : World).next.tick + 1
                hooksRun := ({ w.next with tick := t, releasesExists := ex, releases := rs } : World).next.hooksRun
                  ++ [(HookClone, env.timestamp)] } : World) with tick := t5 }
            split
            · rename_i w6 h8
              rw [h8] at h7; simp only at h7; subst h7
              exact ⟨_, _, _, _, _, _, rfl, Or.inr ⟨Or.inr rfl, rfl⟩⟩
            · rename_i w6 h8
              rw [h8] at h7; simp only at h7; subst h7
              exact ⟨_, _, _, _, _, _, rfl, Or.inr ⟨Or.inl rfl, rfl⟩⟩

theorem handleError_eq (env : Env) (ctx : Ctx) (w : World) :
    handleError env ctx w =
      Step.ret StateFinalize none { ctx with rollbackFuncs := [] }
        (ctx.rollbackFuncs.reverse.foldl (fun w fn => (RollbackFunc.call env ctx fn w).2) w) := by
  unfold handleError
  simp only [ExecuteRollback_eq]

theorem handleFinalize_effect (env : Env) (ctx : Ctx) (w : World) :
    ∃ t lk ex rs, rs.Sublist w.releases ∧
      (handleFinalize env ctx w = Step.ret StateEnd none ctx
          { w with tick := t, lockFile := lk, releasesExists := ex, releases := rs } ∨
       (∃ text, handleFinalize env ctx w = Step.panic text ctx
          { w with tick := t, lockFile := lk, releasesExists := ex, releases := rs })) := by
  unfold handleFinalize
  obtain ⟨t, ex, rs, hw, hs⟩ := CleanupOldReleases_frame env ctx.Config.Deploy.KeepReleases w
  split
  · rename_i text w1 h
    rw [h] at hw; simp only at hw; subst hw
    exact ⟨_, _, _, _, hs, Or.inr ⟨text, rfl⟩⟩
  · rename_i o w1 _ h
    rw [h] at hw; simp only at hw; subst hw
    obtain ⟨t2, lk, hr⟩ := Release_frame env
      { w with tick := t, releasesExists := ex, releases := rs }
    exact ⟨t2, lk, ex, rs, hs, Or.inl (by rw [hr])⟩


/-! ## Invariants of the default machine -/

theorem Execute_invariant (env : Env) (I : List State → State → Ctx → World → Prop)
    (Q : List State → Ctx → World → Prop)
    (hret : ∀ pre S ctx w h next ctx1 w1, stateHandlers env S = some h →
      h ctx w = Step.ret next none ctx1 w1 → I pre S ctx w → I (pre ++ [S]) next ctx1 w1)
    (hpanic : ∀ pre S ctx w h text ctx1 w1, stateHandlers env S = some h →
      h ctx w = Step.panic text ctx1 w1 → I pre S ctx w → Q (pre ++ [S]) ctx1 w1)
    (hend : ∀ pre ctx w, I pre StateEnd ctx w → Q pre ctx w) :
    ∀ (fuel : Nat) (pre : List State) (S : State) (ctx : Ctx) (w : World) (r : Run Ctx World),
      I pre S ctx w → (deployerAt env S).Execute ctx w fuel = some r →
      Q (pre ++ r.invoked) r.ctx r.world := by
  intro fuel
  induction fuel with
  | zero => intro pre S ctx w r _ h; simp [Deployer.Execute] at h
  | succ fuel ih =>
    intro pre S ctx w r hI h
    by_cases hS : S = StateEnd
    · subst hS
      rw [Execute_at_End] at h
      cases h
      simpa using hend pre ctx w hI
    · obtain ⟨hd, hh, hstep⟩ := stateHandlers_step env S ctx w hS
      rcases hstep with ⟨next, ctx1, w1, hr, _, hvalid, _, _⟩ | ⟨text, w1, hr, _, _⟩
      · rw [Execute_step_ret env S next ctx ctx1 w w1 fuel hd hh hS hr hvalid] at h
        cases hr1 : (deployerAt env next).Execute ctx1 w1 fuel with
        | none => rw [hr1] at h; simp at h
        | some r1 =>
          rw [hr1] at h
          simp only [Option.map_some', Option.some.injEq] at h
          subst h
          have := ih (pre ++ [S]) next ctx1 w1 r1 (hret pre S ctx w hd next ctx1 w1 hh hr hI) hr1
          simpa [List.append_assoc] using this
      · rw [Execute_step_panic env S ctx ctx w w1 fuel text hd hh hS hr] at h
        cases h
        exact hpanic pre S ctx w hd text ctx w1 hh hr hI

theorem entry_removed (w : World) (name : String) (t : Nat) :
    ({ w with tick := t,
              releases := w.releases.filter (fun e => !(e.name == name)) } : World).entry name
      = none := by
  simp [World.entry, List.find?_eq_none]

theorem entry_none_of_sublist (w : World) (name : String) (rs : List ReleaseEntry)
    (hs : rs.Sublist w.releases) (h : w.entry name = none) :
    rs.find? (fun e => e.name == name) = none := by
  simp only [World.entry, List.find?_eq_none] at h ⊢
  intro e he
  exact h e (hs.subset he)


theorem stagingInv_step (env : Env) (c0 : Option String) (pre : List State) (S : State)
    (ctx : Ctx) (w : World) (h : StateHandler Ctx World) (next : State) (ctx1 : Ctx)
    (w1 : World) (hh : stateHandlers env S = some h)
    (hr : h ctx w = Step.ret next none ctx1 w1) (hI : stagingInv env c0 pre S ctx w) :
    stagingInv env c0 (pre ++ [S]) next ctx1 w1 := by
  cases S with
  | StateEnd => simp [stateHandlers] at hh
  | StateInit =>
    simp only [stateHandlers, Option.some.injEq] at hh; subst hh
    obtain ⟨n, t, lk, he, hn⟩ := handleInit_effect env ctx w
    rw [he] at hr
    simp only [Step.ret.injEq, true_and] at hr
    obtain ⟨rfl, rfl, rfl⟩ := hr
    simp only [stagingInv] at hI
    rcases hn with rfl | rfl
    · simpa [stagingInv] using hI
    · simp only [stagingInv]
      exact Or.inr ⟨hI.1, Or.inl hI.2⟩
  | StateDetectChanges =>
    simp only [stateHandlers, Option.some.injEq] at hh; subst hh
    obtain ⟨n, t, he, hn⟩ := handleDetectChanges_effect env ctx w
    rw [he] at hr
    simp only [Step.ret.injEq, true_and] at hr
    obtain ⟨rfl, rfl, rfl⟩ := hr
    simp only [stagingInv] at hI
    rcases hn with rfl | rfl | rfl
    · simpa [stagingInv] using hI
    · simp only [stagingInv]
      exact Or.inr ⟨hI.1, Or.inl hI.2.1⟩
    · simp only [stagingInv]
      exact Or.inr ⟨hI.1, Or.inl hI.2⟩
  | StateClone =>
    simp only [stateHandlers, Option.some.injEq] at hh; subst hh
    obtain ⟨n, c1, t, ex, rs, hk, he, hn⟩ := handleClone_effect env ctx w
    rw [he] at hr
    simp only [Step.ret.injEq, true_and] at hr
    obtain ⟨rfl, rfl, rfl⟩ := hr
    simp only [stagingInv] at hI
    obtain ⟨hcur, hdir, hfun⟩ := hI
    rcases hn with ⟨rfl, hf1, _, _, hd1⟩ | ⟨hn1, rfl⟩
    · simp only [stagingInv]
      refine Or.inr ⟨hcur, Or.inl ⟨?_, by rw [hf1, hfun]⟩⟩
      rcases hd1 with h1 | h1
      · rw [h1, hdir]
      · exact h1
    · rcases hn1 with rfl | rfl
      · simp only [stagingInv, hfun, List.nil_append]
        exact ⟨hcur, trivial, trivial⟩
      · simp only [stagingInv, hfun, List.nil_append]
        exact Or.inr ⟨hcur, Or.inr ⟨trivial, trivial⟩⟩
  | StateBuild =>
    simp only [stateHandlers, Option.some.injEq] at hh; subst hh
    obtain ⟨n, he, hn⟩ := handleBuild_effect env ctx w
    rw [he] at hr
    simp only [Step.ret.injEq, true_and] at hr
    obtain ⟨rfl, rfl, rfl⟩ := hr
    simp only [stagingInv] at hI
    rcases hn with rfl | rfl
    · simpa [stagingInv] using hI
    · simp only [stagingInv]
      exact Or.inr ⟨hI.1, Or.inr hI.2⟩
  | StateDeploy =>
    simp only [stateHandlers, Option.some.injEq] at hh; subst hh
    obtain ⟨n, c1, t, cur, prev, tmp, hk, he, hn⟩ := handleDeploy_effect env ctx w
    rw [he] at hr
    simp only [Step.ret.injEq, true_and] at hr
    obtain ⟨rfl, rfl, rfl⟩ := hr
    simp only [stagingInv] at hI
    rcases hn with ⟨rfl, rfl, rfl⟩ | ⟨rfl, _, _, _⟩
    · simp only [stagingInv]
      exact Or.inr ⟨hI.1, Or.inr hI.2⟩
    · simp only [stagingInv]
  | StatePostDeploy =>
    simp only [stateHandlers, Option.some.injEq] at hh; subst hh
    obtain ⟨n, he, hn⟩ := handlePostDeploy_effect env ctx w
    rw [he] at hr
    simp only [Step.ret.injEq, true_and] at hr
    obtain ⟨rfl, rfl, rfl⟩ := hr
    rcases hn with rfl | rfl
    · simp [stagingInv]
    · simp [stagingInv]
  | StateVerify =>
    simp only [stateHandlers, Option.some.injEq] at hh; subst hh
    obtain ⟨n, he, hn⟩ := handleVerify_effect env ctx w
    rw [he] at hr
    simp only [Step.ret.injEq, true_and] at hr
    obtain ⟨rfl, rfl, rfl⟩ := hr
    simp only [stagingInv] at hI
    rcases hn with rfl | rfl
    · simp [stagingInv, hI]
    · simp [stagingInv, hI]
  | StateError =>
    simp only [stateHandlers, Option.some.injEq] at hh; subst hh
    rw [handleError_eq] at hr
    simp only [Step.ret.injEq, true_and] at hr
    obtain ⟨rfl, rfl, rfl⟩ := hr
    simp only [stagingInv] at hI ⊢
    rcases hI with hp | ⟨hcur, ⟨hdir, hfun⟩ | ⟨hdir, hfun⟩⟩
    · exact Or.inl (List.mem_append_left _ hp)
    · refine Or.inr ⟨?_, Or.inl hdir⟩
      simp only [hfun, List.reverse_nil, List.foldl_nil]
      exact hcur
    · simp only [hfun, List.reverse_cons, List.reverse_nil, List.nil_append, List.foldl_cons,
        List.foldl_nil, RollbackFunc.call, hdir]
      obtain ⟨t, rs, hw, _, hrm⟩ := CleanupRelease_frame env env.timestamp w
      rw [hw]
      refine Or.inr ⟨hcur, Or.inr fun hok => ?_⟩
      rw [hrm (hok _)]
      exact entry_removed w env.timestamp t
  | StateFinalize =>
    simp only [stateHandlers, Option.some.injEq] at hh; subst hh
    obtain ⟨t, lk, ex, rs, hs, he⟩ := handleFinalize_effect env ctx w
    rcases he with he | ⟨text, he⟩
    · rw [he] at hr
      simp only [Step.ret.injEq, true_and] at hr
      obtain ⟨rfl, rfl, rfl⟩ := hr
      simp only [stagingInv] at hI ⊢
      rcases hI with hp | ⟨hcur, hd⟩
      · exact Or.inl (List.mem_append_left _ hp)
      · refine Or.inr ⟨hcur, hd.imp id fun hnone hok => ?_⟩
        exact entry_none_of_sublist w env.timestamp rs hs (hnone hok)
    · rw [he] at hr; cases hr


theorem panic_only_in_Finalize (env : Env) (S : State) (ctx ctx1 : Ctx) (w w1 : World)
    (text : String) (h : StateHandler Ctx World) (hh : stateHandlers env S = some h)
    (hr : h ctx w = Step.panic text ctx1 w1) : S = StateFinalize := by
  have hS : S ≠ StateEnd := by
    intro hS; subst hS; simp [stateHandlers] at hh
  obtain ⟨h1, hh1, hstep⟩ := stateHandlers_step env S ctx w hS
  rw [hh] at hh1
  simp only [Option.some.injEq] at hh1
  subst hh1
  rcases hstep with ⟨next, c, v, hret, _⟩ | ⟨_, _, _, hfin, _⟩
  · rw [hret] at hr; cases hr
  · exact hfin

/-- C9 (as amended): in every run of `Execute` with the default handlers, started from a
fresh context, in which `StateClone` created the new release directory (the context
names it) and the handler of `StatePostDeploy` was never reached (a step before the
end of promotion failed), the `current` link has the target it had before the run;
and when the environment does not fail the recursive delete of the new release
directory, that directory no longer exists after the run. -/
theorem failed_staging_discards_release (env : Env) (cfg : Config) (force : Bool)
    (w : World) (fuel : Nat) (r : Run Ctx World)
    (hrun : (New env).Execute (newContext cfg force) w fuel = some r)
    (hts : env.timestamp ≠ "")
    (hcreated : r.ctx.NewReleaseDir = env.timestamp)
    (hbefore : StatePostDeploy ∉ r.invoked) :
    r.world.current = w.current ∧
    ((∀ t, env.fault t (Op.removeAllRelease env.timestamp) = false) →
      r.world.entry env.timestamp = none ∧ r.world.isReleaseDir env.timestamp = false) := by
  have key := Execute_invariant env (stagingInv env w.current)
    (fun pre ctx v => ctx.NewReleaseDir = env.timestamp → StatePostDeploy ∉ pre →
      v.current = w.current ∧
      ((∀ t, env.fault t (Op.removeAllRelease env.timestamp) = false) →
        v.entry env.timestamp = none))
    (fun pre S ctx v h next ctx1 v1 hh hr hI =>
      stagingInv_step env w.current pre S ctx v h next ctx1 v1 hh hr hI)
    (by
      intro pre S ctx v h text ctx1 v1 hh hr hI hdir hpre
      have hS := panic_only_in_Finalize env S ctx ctx1 v v1 text h hh hr
      subst hS
      simp only [stateHandlers, Option.some.injEq] at hh; subst hh
      obtain ⟨t, lk, ex, rs, hs, he⟩ := handleFinalize_effect env ctx v
      rcases he with he | ⟨text1, he⟩
      · rw [he] at hr; cases hr
      · rw [he] at hr
        simp only [Step.panic.injEq] at hr
        obtain ⟨_, rfl, rfl⟩ := hr
        simp only [stagingInv] at hI
        rcases hI with hp | ⟨hcur, hd⟩
        · exact absurd (List.mem_append_left _ hp) hpre
        · refine ⟨hcur, fun hok => ?_⟩
          rcases hd with hd | hd
          · rw [hd] at hdir; exact absurd hdir.symm hts
          · exact entry_none_of_sublist v env.timestamp rs hs (hd hok))
    (by
      intro pre ctx v hI hdir hpre
      simp only [stagingInv] at hI
      rcases hI with hp | ⟨hcur, hd⟩
      · exact absurd hp hpre
      · refine ⟨hcur, fun hok => ?_⟩
        rcases hd with hd | hd
        · rw [hd] at hdir; exact absurd hdir.symm hts
        · exact hd hok)
    fuel [] StateInit (newContext cfg force) w r
    (by simp [stagingInv, newContext]) hrun hcreated (by simpa using hbefore)
  refine ⟨key.1, fun hok => ⟨key.2 hok, ?_⟩⟩
  simp [World.isReleaseDir, key.2 hok]

/-- C9 (counterexample): the `build` hook fails after `StateClone` created the release
directory, and the recursive delete of the discard compensation fails too (its error
is logged and dropped): after the run the new release directory still exists. -/
theorem failed_discard_leaves_release :
    ((New buildAndDiscardFailEnv).Execute (newContext Config.Default false) freshWorld 10).map
        (fun r => (r.outcome, r.ctx.NewReleaseDir, r.invoked,
          r.world.isReleaseDir "20240102_150405"))
      = some (Outcome.nil, "20240102_150405",
          [StateInit, StateDetectChanges, StateClone, StateBuild, StateError, StateFinalize],
          true) := by
  decide

theorem failed_staging_discards_release_witness :
    ∃ r, (New buildFailsEnv).Execute (newContext Config.Default true) oneRelease 10 = some r ∧
      r.ctx.NewReleaseDir = buildFailsEnv.timestamp ∧ StatePostDeploy ∉ r.invoked ∧
      r.world.current = oneRelease.current ∧
      r.world.isReleaseDir buildFailsEnv.timestamp = false :=
  ⟨{ outcome := Outcome.nil, currentState := StateEnd,
     ctx := { Config := Config.Default, Force := true, NewReleaseDir := "20240102_150405",
              rollbackFuncs := [] },
     world := { oneRelease with
                hooksRun := [(HookClone, "20240102_150405"), (HookBuild, "20240102_150405")]
                tick := 16 },
     invoked := [StateInit, StateDetectChanges, StateClone, StateBuild, StateError,
                 StateFinalize] },
   rfl, rfl, by decide,
   (failed_staging_discards_release buildFailsEnv Config.Default true oneRelease 10 _
      rfl (by decide) rfl (by decide)).1,
   ((failed_staging_discards_release buildFailsEnv Config.Default true oneRelease 10 _
      rfl (by decide) rfl (by decide)).2 (fun _ => rfl)).2⟩


/-! ## Calls in an environment that fails no file system call -/

theorem setPrevious_calm (env : Env) (hcalm : env.fsCalm) (w : World) (c : String)
    (hc : w.current = some c) :
    ∃ t, release.setPrevious env w = { w with tick := t, previous := some c } := by
  have h1 : env.fails w Op.readlinkCurrent = false := hcalm _ _ rfl
  have h2 : env.fails w.next Op.removePrevious = false := hcalm _ _ rfl
  have h3 : env.fails w.next.next (Op.symlinkPrevious c) = false := hcalm _ _ rfl
  have hc1 : w.next.current = some c := hc
  unfold release.setPrevious
  simp only [h1, Bool.false_eq_true, if_false, hc1, h2]
  have h4 : env.fails ({ w.next.next with previous := none } : World)
      (Op.symlinkPrevious c) = false := hcalm _ _ rfl
  simp only [h4]
  exact ⟨_, rfl⟩

theorem UpdateCurrent_previous (env : Env) (dir : String) (w : World) :
    (release.UpdateCurrent env dir w).2.previous = (release.setPrevious env w).previous := by
  unfold release.UpdateCurrent
  simp only []
  repeat' split
  all_goals rfl

theorem UpdateCurrent_calm (env : Env) (hcalm : env.fsCalm) (dir : String) (w : World)
    (htmp : w.currentTmp = none) :
    ∃ t prev, release.UpdateCurrent env dir w =
      (none, { w with tick := t, current := some dir, previous := prev, currentTmp := none }) := by
  obtain ⟨t, prev, hp⟩ := setPrevious_frame env w
  unfold release.UpdateCurrent
  simp only [hp]
  have h1 : env.fails ({ w with tick := t, previous := prev } : World) (Op.symlinkTmp dir)
      = false := hcalm _ _ rfl
  have h2 : env.fails
      ({ ({ w with tick := t, previous := prev } : World).next with currentTmp := some dir } : World)
      Op.renameTmp = false := hcalm _ _ rfl
  have h3 : ({ w with tick := t, previous := prev } : World).next.currentTmp = none := htmp
  simp only [h1, h2, h3, Option.isSome_none, Bool.or_self, Bool.false_eq_true, if_false]
  exact ⟨_, _, rfl⟩

theorem Rollback_calm (env : Env) (hcalm : env.fsCalm) (w : World) (c : String)
    (hp : w.previous = some c) (htmp : w.currentTmp = none) :
    ∃ t prev, release.Rollback env w =
      (none, { w with tick := t, current := some c, previous := prev, currentTmp := none }) := by
  have h1 : env.fails w Op.readlinkPrevious = false := hcalm _ _ rfl
  have hp1 : w.next.previous = some c := hp
  obtain ⟨t, prev, hu⟩ := UpdateCurrent_calm env hcalm c w.next htmp
  unfold release.Rollback
  simp only [h1, Bool.false_eq_true, if_false, hp1, hu]
  exact ⟨_, _, rfl⟩

theorem CleanupRelease_calm (env : Env) (hcalm : env.fsCalm) (dir : String) (w : World) :
    release.CleanupRelease env dir w =
      (none, { w with tick := w.tick + 1
                      releases := w.releases.filter (fun e => !(e.name == dir)) }) := by
  have h1 : env.fails w (Op.removeAllRelease dir) = false := hcalm _ _ rfl
  unfold release.CleanupRelease
  simp only [h1, Bool.false_eq_true, if_false]
  rfl

theorem handleDeploy_calm (env : Env) (hcalm : env.fsCalm) (ctx : Ctx) (w : World)
    (c : String) (hc : w.current = some c) :
    ∃ next ctx1 t cur prev tmp hr, handleDeploy env ctx w =
        Step.ret next none ctx1
          { w with tick := t, current := cur, previous := prev, currentTmp := tmp,
                   hooksRun := hr } ∧
      ((next = StateError ∧ ctx1 = ctx ∧ cur = some c) ∨
       (next = StatePostDeploy ∧ ctx1 = ctx.AddRollbackFunc RollbackFunc.rollback ∧
          cur = some ctx.NewReleaseDir ∧ prev = some c ∧ tmp = none)) := by
  obtain ⟨next, ctx1, t, cur, prev, tmp, hr, he, hcase⟩ := handleDeploy_effect env ctx w
  refine ⟨next, ctx1, t, cur, prev, tmp, hr, he, ?_⟩
  rcases hcase with ⟨h1, h2, h3⟩ | ⟨h1, h2, h3, h4⟩
  · exact Or.inl ⟨h1, h2, by rw [h3, hc]⟩
  · refine Or.inr ⟨h1, h2, h3, ?_, h4⟩
    -- the `previous` link is the one `setPrevious` made from the old `current`
    have hf := ExecuteHook_frame env ctx.NewReleaseDir HookDeploy w
    unfold handleDeploy at he
    split at he
    · rename_i e w1 hh
      simp only [Step.ret.injEq] at he
      rw [h1] at he
      exact absurd he.1 (by decide)
    · rename_i w1 hh
      rw [hh] at hf; simp only at hf; subst hf
      have hprev := UpdateCurrent_previous env ctx.NewReleaseDir
        { w with tick := w.tick + 1, hooksRun := w.hooksRun ++ [(HookDeploy, ctx.NewReleaseDir)] }
      obtain ⟨t2, hsp⟩ := setPrevious_calm env hcalm
        { w with tick := w.tick + 1, hooksRun := w.hooksRun ++ [(HookDeploy, ctx.NewReleaseDir)] }
        c hc
      rw [hsp] at hprev
      split at he
      · rename_i e w2 hu
        simp only [Step.ret.injEq] at he
        rw [h1] at he
        exact absurd he.1 (by decide)
      · rename_i w2 hu
        rw [hu] at hprev
        simp only [Step.ret.injEq, true_and] at he
        obtain ⟨_, _, hw2⟩ := he
        rw [hw2] at hprev
        exact hprev


theorem restoreInv_step (env : Env) (hcalm : env.fsCalm) (c : String) (pre : List State)
    (S : State) (ctx : Ctx) (w : World) (h : StateHandler Ctx World) (next : State)
    (ctx1 : Ctx) (w1 : World) (hh : stateHandlers env S = some h)
    (hr : h ctx w = Step.ret next none ctx1 w1) (hI : restoreInv c pre S ctx w) :
    restoreInv c (pre ++ [S]) next ctx1 w1 := by
  cases S with
  | StateEnd => simp [stateHandlers] at hh
  | StateInit =>
    simp only [stateHandlers, Option.some.injEq] at hh; subst hh
    obtain ⟨n, t, lk, he, hn⟩ := handleInit_effect env ctx w
    rw [he] at hr
    simp only [Step.ret.injEq, true_and] at hr
    obtain ⟨rfl, rfl, rfl⟩ := hr
    simp only [restoreInv] at hI
    rcases hn with rfl | rfl
    · simpa [restoreInv] using hI
    · simp only [restoreInv]
      exact Or.inl ⟨hI.1, Or.inl hI.2.1⟩
  | StateDetectChanges =>
    simp only [stateHandlers, Option.some.injEq] at hh; subst hh
    obtain ⟨n, t, he, hn⟩ := handleDetectChanges_effect env ctx w
    rw [he] at hr
    simp only [Step.ret.injEq, true_and] at hr
    obtain ⟨rfl, rfl, rfl⟩ := hr
    simp only [restoreInv] at hI
    rcases hn with rfl | rfl | rfl
    · simpa [restoreInv] using hI
    · simp only [restoreInv]
      exact Or.inl (by simpa using hI.2.2)
    · simp only [restoreInv]
      exact Or.inl ⟨hI.1, Or.inl hI.2.1⟩
  | StateClone =>
    simp only [stateHandlers, Option.some.injEq] at hh; subst hh
    obtain ⟨n, c1, t, ex, rs, hk, he, hn⟩ := handleClone_effect env ctx w
    rw [he] at hr
    simp only [Step.ret.injEq, true_and] at hr
    obtain ⟨rfl, rfl, rfl⟩ := hr
    simp only [restoreInv] at hI
    obtain ⟨hcur, hfun, hpre⟩ := hI
    rcases hn with ⟨rfl, hf1, _, _, _⟩ | ⟨hn1, rfl⟩
    · simp only [restoreInv]
      exact Or.inl ⟨hcur, Or.inl (by rw [hf1, hfun])⟩
    · rcases hn1 with rfl | rfl
      · simp only [restoreInv, hfun, List.nil_append]
        exact ⟨hcur, trivial, by simpa using hpre⟩
      · simp only [restoreInv, hfun, List.nil_append]
        exact Or.inl ⟨hcur, Or.inr trivial⟩
  | StateBuild =>
    simp only [stateHandlers, Option.some.injEq] at hh; subst hh
    obtain ⟨n, he, hn⟩ := handleBuild_effect env ctx w
    rw [he] at hr
    simp only [Step.ret.injEq, true_and] at hr
    obtain ⟨rfl, rfl, rfl⟩ := hr
    simp only [restoreInv] at hI
    rcases hn with rfl | rfl
    · simpa [restoreInv] using hI
    · simp only [restoreInv]
      exact Or.inl ⟨hI.1, Or.inr hI.2.1⟩
  | StateDeploy =>
    simp only [stateHandlers, Option.some.injEq] at hh; subst hh
    simp only [restoreInv] at hI
    obtain ⟨hcur, hfun, hpre⟩ := hI
    obtain ⟨n, c1, t, cur, prev, tmp, hk, he, hn⟩ := handleDeploy_calm env hcalm ctx w c hcur
    rw [he] at hr
    simp only [Step.ret.injEq, true_and] at hr
    obtain ⟨rfl, rfl, rfl⟩ := hr
    rcases hn with ⟨rfl, rfl, rfl⟩ | ⟨rfl, rfl, _, rfl, rfl⟩
    · simp only [restoreInv]
      exact Or.inl ⟨trivial, Or.inr hfun⟩
    · simp only [restoreInv, Context.AddRollbackFunc, hfun, List.singleton_append]
      exact ⟨trivial, trivial, trivial, by simpa using hpre⟩
  | StatePostDeploy =>
    simp only [stateHandlers, Option.some.injEq] at hh; subst hh
    obtain ⟨n, he, hn⟩ := handlePostDeploy_effect env ctx w
    rw [he] at hr
    simp only [Step.ret.injEq, true_and] at hr
    obtain ⟨rfl, rfl, rfl⟩ := hr
    simp only [restoreInv] at hI
    rcases hn with rfl | rfl
    · simpa [restoreInv] using hI
    · simp only [restoreInv]
      exact Or.inr ⟨hI.1, hI.2.1, hI.2.2.1⟩
  | StateVerify =>
    simp only [stateHandlers, Option.some.injEq] at hh; subst hh
    obtain ⟨n, he, hn⟩ := handleVerify_effect env ctx w
    rw [he] at hr
    simp only [Step.ret.injEq, true_and] at hr
    obtain ⟨rfl, rfl, rfl⟩ := hr
    simp only [restoreInv] at hI
    rcases hn with rfl | rfl
    · simp only [restoreInv]
      exact Or.inl (by simpa using hI.2.2.2)
    · simp only [restoreInv]
      exact Or.inr ⟨hI.1, hI.2.1, hI.2.2.1⟩
  | StateError =>
    simp only [stateHandlers, Option.some.injEq] at hh; subst hh
    rw [handleError_eq] at hr
    simp only [Step.ret.injEq, true_and] at hr
    obtain ⟨rfl, rfl, rfl⟩ := hr
    simp only [restoreInv] at hI ⊢
    refine Or.inr ?_
    rcases hI with ⟨hcur, hfun | hfun⟩ | ⟨hprev, htmp, hfun⟩
    · simp only [hfun, List.reverse_nil, List.foldl_nil]
      exact hcur
    · simp only [hfun, List.reverse_cons, List.reverse_nil, List.nil_append, List.foldl_cons,
        List.foldl_nil, RollbackFunc.call]
      obtain ⟨t, rs, hw, _, _⟩ := CleanupRelease_frame env ctx.NewReleaseDir w
      rw [hw]
      exact hcur
    · simp only [hfun, List.reverse_cons, List.reverse_nil, List.nil_append,
        List.singleton_append, List.foldl_cons, List.foldl_nil, RollbackFunc.call]
      obtain ⟨t, prev, hrb⟩ := Rollback_calm env hcalm w c hprev htmp
      rw [hrb]
      obtain ⟨t2, rs, hw, _, _⟩ := CleanupRelease_frame env ctx.NewReleaseDir
        { w with tick := t, current := some c, previous := prev, currentTmp := none }
      rw [hw]
  | StateFinalize =>
    simp only [stateHandlers, Option.some.injEq] at hh; subst hh
    obtain ⟨t, lk, ex, rs, hs, he⟩ := handleFinalize_effect env ctx w
    rcases he with he | ⟨text, he⟩
    · rw [he] at hr
      simp only [Step.ret.injEq, true_and] at hr
      obtain ⟨rfl, rfl, rfl⟩ := hr
      simp only [restoreInv] at hI ⊢
      rcases hI with hp | hcur
      · exact Or.inl (by simpa using hp)
      · exact Or.inr hcur
    · rw [he] at hr; cases hr

/-- C1 (as amended): when `current` pointed at a release before the run and the
environment fails no file system call (hooks and the provider may fail), every run of
`Execute` with the default handlers that passes through `StateError`, in particular
every run whose `verify` hook fails after a successful promotion, ends with `current`
pointing where it pointed before the run. -/
theorem contained_failure_restores_current (env : Env) (cfg : Config) (force : Bool)
    (w : World) (c : String) (fuel : Nat) (r : Run Ctx World)
    (hcalm : env.fsCalm) (hcur : w.current = some c)
    (hrun : (New env).Execute (newContext cfg force) w fuel = some r)
    (hfailed : StateError ∈ r.invoked) :
    r.world.current = w.current := by
  have key := Execute_invariant env (restoreInv c)
    (fun pre _ v => StateError ∈ pre → v.current = some c)
    (fun pre S ctx v h next ctx1 v1 hh hr hI =>
      restoreInv_step env hcalm c pre S ctx v h next ctx1 v1 hh hr hI)
    (by
      intro pre S ctx v h text ctx1 v1 hh hr hI hpre
      have hS := panic_only_in_Finalize env S ctx ctx1 v v1 text h hh hr
      subst hS
      simp only [stateHandlers, Option.some.injEq] at hh; subst hh
      obtain ⟨t, lk, ex, rs, hs, he⟩ := handleFinalize_effect env ctx v
      rcases he with he | ⟨text1, he⟩
      · rw [he] at hr; cases hr
      · rw [he] at hr
        simp only [Step.panic.injEq] at hr
        obtain ⟨_, rfl, rfl⟩ := hr
        simp only [restoreInv] at hI
        rcases hI with hp | hc
        · simp only [List.mem_append, List.mem_singleton] at hpre
          rcases hpre with hpre | hpre
          · exact absurd hpre hp
          · cases hpre
        · exact hc)
    (by
      intro pre ctx v hI hpre
      simp only [restoreInv] at hI
      rcases hI with hp | hc
      · exact absurd hpre hp
      · exact hc)
    fuel [] StateInit (newContext cfg force) w r
    (by simp [restoreInv, newContext, hcur]) hrun (by simpa using hfailed)
  rw [key, hcur]

/-- C1 (counterexample): a second deployment whose `verify` hook fails, while the
`os.Readlink` of `previous` inside the `rollback` compensation fails too (its error is
logged and dropped): promotion had succeeded, and after the run `current` points at the
new release instead of the release it pointed at before. -/
theorem failed_rollback_leaves_new_current :
    oneRelease.current = some "20240101_000001" ∧
    ((New verifyAndReadlinkFailEnv).Execute (newContext Config.Default true) oneRelease 10).map
        (fun r => (r.outcome, r.world.current, r.invoked))
      = some (Outcome.nil, some "20240102_150405",
          [StateInit, StateDetectChanges, StateClone, StateBuild, StateDeploy,
           StatePostDeploy, StateVerify, StateError, StateFinalize]) := by
  decide

theorem contained_failure_restores_current_witness :
    verifyFailsEnv.fsCalm ∧ oneRelease.current = some "20240101_000001" ∧
    ∃ r, (New verifyFailsEnv).Execute (newContext Config.Default true) oneRelease 10 = some r ∧
      StateVerify ∈ r.invoked ∧ StateError ∈ r.invoked ∧
      r.world.current = oneRelease.current := by
  have hcalm : verifyFailsEnv.fsCalm := by
    intro t op hop
    cases op <;> first | rfl | cases hop
  obtain ⟨r, hr⟩ := Execute_returns verifyFailsEnv 10 StateInit
    (newContext Config.Default true) oneRelease (by decide)
  have hinv : r.invoked = [StateInit, StateDetectChanges, StateClone, StateBuild, StateDeploy,
      StatePostDeploy, StateVerify, StateError, StateFinalize] := by
    have : ((New verifyFailsEnv).Execute (newContext Config.Default true) oneRelease 10).map
        (fun r => r.invoked) = some [StateInit, StateDetectChanges, StateClone, StateBuild,
          StateDeploy, StatePostDeploy, StateVerify, StateError, StateFinalize] := by decide
    rw [show (New verifyFailsEnv) = deployerAt verifyFailsEnv StateInit from rfl, hr] at this
    simpa using this
  exact ⟨hcalm, rfl, r, hr, by rw [hinv]; decide, by rw [hinv]; decide,
    contained_failure_restores_current verifyFailsEnv Config.Default true oneRelease
      "20240101_000001" 10 r hcalm rfl hr (by rw [hinv]; decide)⟩


theorem not_named_of_entry_none (w : World) (name : String) (h : w.entry name = none) :
    ∀ e ∈ w.releases, (e.name == name) = false := by
  simp only [World.entry, List.find?_eq_none] at h
  intro e he
  simpa using h e he

theorem NewRelease_calm (env : Env) (hcalm : env.fsCalm) (rev : String) (w : World)
    (hfresh : w.entry env.timestamp = none) :
    release.NewRelease env rev w =
      (Except.ok env.timestamp,
       { w with
          releasesExists := true
          releases := w.releases ++
            [{ name := env.timestamp, isDir := true, modTime := env.now, revision := some rev }]
          tick := w.tick + 2 }) := by
  have h1 : env.fails w (Op.mkdirAllRelease env.timestamp) = false := hcalm _ _ rfl
  have hmk : release.mkdirAllRelease env env.timestamp w =
      some { w.next with
        releasesExists := true
        releases := w.releases ++
          [{ name := env.timestamp, isDir := true, modTime := env.now, revision := none }] } := by
    unfold release.mkdirAllRelease
    simp only [h1, Bool.false_eq_true, if_false, hfresh]
  have h2 : ∀ v : World, env.fails v (Op.writeRevision env.timestamp) = false :=
    fun v => hcalm _ _ rfl
  have hmap : w.releases.map (fun e =>
      if e.name == env.timestamp then
        { e with revision := some rev
                 modTime := if e.revision.isSome then e.modTime else env.now }
      else e) = w.releases := by
    have hn := not_named_of_entry_none w env.timestamp hfresh
    conv_rhs => rw [← List.map_id w.releases]
    apply List.map_congr_left
    intro e he
    simp [hn e he]
  unfold release.NewRelease
  simp only [hmk, h2, Bool.false_eq_true, if_false, World.next, List.map_append, hmap,
    List.map_cons, List.map_nil, beq_self_eq_true, if_true, Option.isSome_none]

theorem handleClone_calm (env : Env) (hcalm : env.fsCalm) (ctx : Ctx) (w : World)
    (hfresh : w.entry env.timestamp = none) :
    (∃ t, handleClone env ctx w = Step.ret StateError none ctx { w with tick := t }) ∨
    (∃ next t hr, handleClone env ctx w =
        Step.ret next none
          { ctx with NewReleaseDir := env.timestamp
                     rollbackFuncs := ctx.rollbackFuncs ++ [RollbackFunc.cleanupNewRelease] }
          { w with
              releasesExists := true
              releases := w.releases ++
                [{ name := env.timestamp, isDir := true, modTime := env.now,
                   revision := some env.revision }]
              hooksRun := hr
              tick := t } ∧
      (next = StateBuild ∨ next = StateError)) := by
  by_cases hg : env.fails w Op.providerGetRevision = true
  · have hget : Provider.GetRevision env w =
        (Except.error (Error.msg "provider revision"), w.next) := by
      simp [Provider.GetRevision, hg]
    refine Or.inl ⟨w.tick + 1, ?_⟩
    simp only [handleClone, hget]
    rfl
  · refine Or.inr ?_
    have hget : Provider.GetRevision env w = (Except.ok env.revision, w.next) := by
      simp [Provider.GetRevision, hg]
    have hfresh1 : w.next.entry env.timestamp = none := hfresh
    simp only [handleClone, hget,
      NewRelease_calm env hcalm env.revision w.next hfresh1, Context.AddRollbackFunc]
    have hcl := Clone_frame env env.timestamp
      { w.next with
          releasesExists := true
          releases := w.next.releases ++
            [{ name := env.timestamp, isDir := true, modTime := env.now,
               revision := some env.revision }]
          tick := w.next.tick + 2 }
    split
    · rename_i e w3 h3
      rw [h3] at hcl; simp only at hcl; subst hcl
      exact ⟨_, _, _, rfl, Or.inr rfl⟩
    · rename_i w3 h3
      rw [h3] at hcl; simp only at hcl; subst hcl
      have hh := ExecuteHook_frame env env.timestamp HookClone
        ({ w.next with
          releasesExists := true
          releases := w.next.releases ++
            [{ name := env.timestamp, isDir := true, modTime := env.now,
               revision := some env.revision }]
          tick := w.next.tick + 2 } : World).next
      split
      · rename_i e w4 h4
        rw [h4] at hh; simp only at hh; subst hh
        exact ⟨_, _, _, rfl, Or.inr rfl⟩
      · rename_i w4 h4
        rw [h4] at hh; simp only at hh; subst hh
        split
        · rename_i w5 h6
          obtain ⟨t5, h5⟩ := linkShared_frame env ctx.Config.Deploy.Shared.Dirs _
          rw [h6] at h5; simp only at h5; subst h5
          exact ⟨_, _, _, rfl, Or.inr rfl⟩
        · rename_i w5 h6
          obtain ⟨t5, h5⟩ := linkShared_frame env ctx.Config.Deploy.Shared.Dirs _
          rw [h6] at h5; simp only at h5; subst h5
          split
          · rename_i w6 h8
            obtain ⟨t7, h7⟩ := linkShared_frame env ctx.Config.Deploy.Shared.Files _
            rw [h8] at h7; simp only at h7; subst h7
            exact ⟨_, _, _, rfl, Or.inr rfl⟩
          · rename_i w6 h8
            obtain ⟨t7, h7⟩ := linkShared_frame env ctx.Config.Deploy.Shared.Files _
            rw [h8] at h7; simp only at h7; subst h7
            exact ⟨_, _, _, rfl, Or.inl rfl⟩


theorem find_of_mem_of_nodup (rs : List ReleaseEntry)
    (hnodup : (rs.map (fun e => e.name)).Nodup) (e : ReleaseEntry) (he : e ∈ rs) :
    rs.find? (fun x => x.name == e.name) = some e := by
  induction rs with
  | nil => cases he
  | cons a rest ih =>
    simp only [List.map_cons, List.nodup_cons] at hnodup
    rcases List.mem_cons.mp he with rfl | hmem
    · simp
    · have hne : a.name ≠ e.name := by
        intro heq
        exact hnodup.1 (heq ▸ List.mem_map_of_mem (fun e => e.name) hmem)
      have hb : (a.name == e.name) = false := by simpa using hne
      rw [List.find?_cons, hb]
      exact ih hnodup.2 hmem

theorem newest_survives_pruning (env : Env) (hcalm : env.fsCalm) (w : World) (keep : Int)
    (hkeep : 1 ≤ keep) (hwf : w.WellFormed) (e : ReleaseEntry) (he : e ∈ w.releases)
    (hdir : e.isDir = true)
    (hnew : ∀ d ∈ w.releases, d.isDir = true → d ≠ e → d.modTime < e.modTime) :
    e ∈ (release.CleanupOldReleases env keep w).2.releases := by
  by_cases hex : w.releasesExists = true
  · obtain ⟨hnodup, hne⟩ := hwf
    have hN : keep = ((keep.toNat : Nat) : Int) := by omega
    have hN1 : 1 ≤ keep.toNat := by omega
    obtain ⟨t, ht⟩ := CleanupOldReleases_calm env hcalm w keep.toNat hex hne
    rw [← hN] at ht
    rw [ht]
    simp only []
    split
    · exact he
    · rename_i hlen
      generalize hinfos : (w.releases.filter (fun e => e.isDir)).map
        (fun e => ({ name := e.name, created := e.modTime } : releaseDirInfo)) = infos
      generalize hk : (w.releases.filter (fun e => e.isDir)).length - keep.toNat = k
      have hperm : (release.sortInfos infos).Perm infos := List.perm_insertionSort _ _
      haveI : IsTotal releaseDirInfo releaseDirInfo.le := ⟨fun a b => Nat.le_total _ _⟩
      haveI : IsTrans releaseDirInfo releaseDirInfo.le := ⟨fun a b c => Nat.le_trans⟩
      have hsorted : (release.sortInfos infos).Sorted releaseDirInfo.le :=
        List.sorted_insertionSort _ _
      have hsub : (w.releases.filter (fun e => e.isDir)).Sublist w.releases :=
        List.filter_sublist _
      have hinfoNames : infos.map (fun i => i.name)
          = (w.releases.filter (fun e => e.isDir)).map (fun e => e.name) := by
        rw [← hinfos, List.map_map]; rfl
      have hsortedNames : ((release.sortInfos infos).map (fun i => i.name)).Nodup := by
        rw [(hperm.map _).nodup_iff, hinfoNames]; exact hnodup.sublist (hsub.map _)
      have hlenSorted : (release.sortInfos infos).length
          = (w.releases.filter (fun e => e.isDir)).length := by
        rw [hperm.length_eq, ← hinfos, List.length_map]
      refine List.mem_filter.mpr ⟨he, ?_⟩
      simp only [decide_eq_true_eq]
      intro hmem
      obtain ⟨j, hj, hname⟩ := List.mem_map.mp hmem
      -- the selected info is the one of `e`
      have hj1 : j ∈ infos := hperm.mem_iff.mp (List.mem_of_mem_take hj)
      rw [← hinfos] at hj1
      obtain ⟨d, hd, rfl⟩ := List.mem_map.mp hj1
      have hde : d = e :=
        List.inj_on_of_nodup_map hnodup (hsub.subset hd) he hname
      subst hde
      -- something is kept, and it is not older than `e`
      have hdropLen : ((release.sortInfos infos).drop k).length ≠ 0 := by
        rw [List.length_drop, hlenSorted]; omega
      obtain ⟨y, hy⟩ := List.exists_mem_of_length_pos (Nat.pos_of_ne_zero hdropLen)
      have hle := hsorted.rel_of_mem_take_of_mem_drop hj hy
      have hy1 : y ∈ infos := hperm.mem_iff.mp (List.mem_of_mem_drop hy)
      rw [← hinfos] at hy1
      obtain ⟨d2, hd2, rfl⟩ := List.mem_map.mp hy1
      by_cases hd2e : d2 = d
      · subst hd2e
        have hsplit := List.take_append_drop k (release.sortInfos infos)
        rw [← hsplit, List.map_append, List.nodup_append] at hsortedNames
        exact hsortedNames.2.2 (List.mem_map_of_mem (fun i => i.name) hj)
          (List.mem_map_of_mem (fun i => i.name) hy)
      · have := hnew d2 (hsub.subset hd2) (List.mem_filter.mp hd2).2 hd2e
        have hle2 : d.modTime ≤ d2.modTime := hle
        omega
  · have hf : env.fails w Op.readDirReleases = false := hcalm _ _ rfl
    unfold release.CleanupOldReleases
    simp only [hf, World.next, hex, Bool.false_eq_true, Bool.not_false, Bool.or_true, if_true]
    exact he

theorem handleFinalize_releases (env : Env) (ctx ctx1 : Ctx) (w w1 : World) (next : State)
    (h : handleFinalize env ctx w = Step.ret next none ctx1 w1) :
    w1.releases = (release.CleanupOldReleases env ctx.Config.Deploy.KeepReleases w).2.releases ∧
      w1.current = w.current := by
  obtain ⟨t, ex, rs, hw, _⟩ := CleanupOldReleases_frame env ctx.Config.Deploy.KeepReleases w
  unfold handleFinalize at h
  split at h
  · cases h
  · rename_i o v _ hc
    rw [hc] at hw
    simp only at hw
    subst hw
    obtain ⟨t2, lk, hr⟩ := Release_frame env
      { w with tick := t, releasesExists := ex, releases := rs }
    simp only [Step.ret.injEq, true_and] at h
    obtain ⟨_, _, rfl⟩ := h
    rw [hr, hc]
    exact ⟨rfl, rfl⟩


theorem filter_staged (rs0 : List ReleaseEntry) (n : ReleaseEntry)
    (hfresh : rs0.find? (fun e => e.name == n.name) = none) :
    (rs0 ++ [n]).filter (fun e => !(e.name == n.name)) = rs0 := by
  rw [List.filter_append]
  have h1 : rs0.filter (fun e => !(e.name == n.name)) = rs0 := by
    rw [List.filter_eq_self]
    intro e he
    simp only [List.find?_eq_none] at hfresh
    simpa using hfresh e he
  rw [h1]
  simp

theorem live_after_pruning (env : Env) (hcalm : env.fsCalm) (w w1 : World) (ctx ctx1 : Ctx)
    (next : State) (hkeep : 1 ≤ ctx.Config.Deploy.KeepReleases) (hwf : w.WellFormed)
    (e : ReleaseEntry) (he : e ∈ w.releases) (hdir : e.isDir = true)
    (hnew : ∀ d ∈ w.releases, d.isDir = true → d ≠ e → d.modTime < e.modTime)
    (hcur : w.current = some e.name)
    (hr : handleFinalize env ctx w = Step.ret next none ctx1 w1) :
    ∃ t, w1.current = some t ∧ w1.isReleaseDir t = true := by
  obtain ⟨hrel, hc⟩ := handleFinalize_releases env ctx ctx1 w w1 next hr
  have hmem := newest_survives_pruning env hcalm w _ hkeep hwf e he hdir hnew
  obtain ⟨t, ex, rs, hw, hsub⟩ :=
    CleanupOldReleases_frame env ctx.Config.Deploy.KeepReleases w
  rw [hw] at hrel hmem
  simp only at hrel hmem
  have hnodup : (w1.releases.map (fun e => e.name)).Nodup := by
    rw [hrel]; exact hwf.1.sublist (hsub.map _)
  refine ⟨e.name, by rw [hc, hcur], ?_⟩
  have hfind := find_of_mem_of_nodup w1.releases hnodup e (by rw [hrel]; exact hmem)
  simp only [World.isReleaseDir, World.entry, hfind, hdir]


theorem liveInv_step (env : Env) (hcalm : env.fsCalm) (cfg : Config)
    (hkeep : 1 ≤ cfg.Deploy.KeepReleases) (rs0 : List ReleaseEntry)
    (hnodup : (rs0.map (fun e => e.name)).Nodup) (hne : ∀ e ∈ rs0, e.name ≠ "")
    (hts : env.timestamp ≠ "")
    (hfresh : rs0.find? (fun e => e.name == env.timestamp) = none)
    (e0 : ReleaseEntry) (he0 : e0 ∈ rs0) (hdir0 : e0.isDir = true)
    (hnew0 : ∀ d ∈ rs0, d.isDir = true → d ≠ e0 → d.modTime < e0.modTime)
    (hnow : ∀ d ∈ rs0, d.isDir = true → d.modTime < env.now)
    (S : State) (ctx : Ctx) (w : World) (h : StateHandler Ctx World) (next : State)
    (ctx1 : Ctx) (w1 : World) (hh : stateHandlers env S = some h)
    (hr : h ctx w = Step.ret next none ctx1 w1)
    (hI : liveInv env cfg e0.name rs0 S ctx w) :
    liveInv env cfg e0.name rs0 next ctx1 w1 := by
  obtain ⟨hcfg, hI⟩ := hI
  cases S with
  | StateEnd => simp [stateHandlers] at hh
  | StateInit =>
    simp only [stateHandlers, Option.some.injEq] at hh; subst hh
    obtain ⟨n, t, lk, he, hn⟩ := handleInit_effect env ctx w
    rw [he] at hr
    simp only [Step.ret.injEq, true_and] at hr
    obtain ⟨rfl, rfl, rfl⟩ := hr
    simp only at hI
    rcases hn with rfl | rfl
    · exact ⟨hcfg, hI⟩
    · exact ⟨hcfg, Or.inl hI⟩
  | StateDetectChanges =>
    simp only [stateHandlers, Option.some.injEq] at hh; subst hh
    obtain ⟨n, t, he, hn⟩ := handleDetectChanges_effect env ctx w
    rw [he] at hr
    simp only [Step.ret.injEq, true_and] at hr
    obtain ⟨rfl, rfl, rfl⟩ := hr
    simp only at hI
    rcases hn with rfl | rfl | rfl
    · exact ⟨hcfg, hI⟩
    · exact ⟨hcfg, Or.inl ⟨hI.1, hI.2.1⟩⟩
    · exact ⟨hcfg, Or.inl hI⟩
  | StateClone =>
    simp only [stateHandlers, Option.some.injEq] at hh; subst hh
    simp only at hI
    obtain ⟨hrel, hcur, hfun⟩ := hI
    have hfreshw : w.entry env.timestamp = none := by
      simp only [World.entry, hrel]; exact hfresh
    rcases handleClone_calm env hcalm ctx w hfreshw with ⟨t, he⟩ | ⟨n, t, hk, he, hn⟩
    · rw [he] at hr
      simp only [Step.ret.injEq, true_and] at hr
      obtain ⟨rfl, rfl, rfl⟩ := hr
      exact ⟨hcfg, Or.inl ⟨hrel, hcur, hfun⟩⟩
    · rw [he] at hr
      simp only [Step.ret.injEq, true_and] at hr
      obtain ⟨rfl, rfl, rfl⟩ := hr
      have hst : stagedOn env rs0
          { w with
              releasesExists := true
              releases := w.releases ++
                [{ name := env.timestamp, isDir := true, modTime := env.now,
                   revision := some env.revision }]
              hooksRun := hk
              tick := t } := ⟨some env.revision, by simp only [hrel]⟩
      rcases hn with rfl | rfl
      · exact ⟨hcfg, hst, hcur, rfl, by simp [hfun]⟩
      · exact ⟨hcfg, Or.inr (Or.inl ⟨hst, hcur, rfl, by simp [hfun]⟩)⟩
  | StateBuild =>
    simp only [stateHandlers, Option.some.injEq] at hh; subst hh
    obtain ⟨n, he, hn⟩ := handleBuild_effect env ctx w
    rw [he] at hr
    simp only [Step.ret.injEq, true_and] at hr
    obtain ⟨rfl, rfl, rfl⟩ := hr
    simp only at hI
    rcases hn with rfl | rfl
    · exact ⟨hcfg, hI⟩
    · exact ⟨hcfg, Or.inr (Or.inl hI)⟩
  | StateDeploy =>
    simp only [stateHandlers, Option.some.injEq] at hh; subst hh
    simp only at hI
    obtain ⟨hst, hcur, hdir, hfun⟩ := hI
    obtain ⟨n, c1, t, cur, prev, tmp, hk, he, hn⟩ :=
      handleDeploy_calm env hcalm ctx w e0.name hcur
    rw [he] at hr
    simp only [Step.ret.injEq, true_and] at hr
    obtain ⟨rfl, rfl, rfl⟩ := hr
    rcases hn with ⟨rfl, rfl, rfl⟩ | ⟨rfl, rfl, rfl, rfl, rfl⟩
    · exact ⟨hcfg, Or.inr (Or.inl ⟨hst, rfl, hdir, hfun⟩)⟩
    · refine ⟨hcfg, hst, ?_, rfl, rfl, hdir, ?_⟩
      · simp only [hdir]
      · simp [Context.AddRollbackFunc, hfun]
  | StatePostDeploy =>
    simp only [stateHandlers, Option.some.injEq] at hh; subst hh
    obtain ⟨n, he, hn⟩ := handlePostDeploy_effect env ctx w
    rw [he] at hr
    simp only [Step.ret.injEq, true_and] at hr
    obtain ⟨rfl, rfl, rfl⟩ := hr
    simp only at hI
    rcases hn with rfl | rfl
    · exact ⟨hcfg, hI⟩
    · exact ⟨hcfg, Or.inr (Or.inr ⟨hI.1, hI.2.2.1, hI.2.2.2⟩)⟩
  | StateVerify =>
    simp only [stateHandlers, Option.some.injEq] at hh; subst hh
    obtain ⟨n, he, hn⟩ := handleVerify_effect env ctx w
    rw [he] at hr
    simp only [Step.ret.injEq, true_and] at hr
    obtain ⟨rfl, rfl, rfl⟩ := hr
    simp only at hI
    rcases hn with rfl | rfl
    · exact ⟨hcfg, Or.inr ⟨hI.1, hI.2.1⟩⟩
    · exact ⟨hcfg, Or.inr (Or.inr ⟨hI.1, hI.2.2.1, hI.2.2.2⟩)⟩
  | StateError =>
    simp only [stateHandlers, Option.some.injEq] at hh; subst hh
    rw [handleError_eq] at hr
    simp only [Step.ret.injEq, true_and] at hr
    obtain ⟨rfl, rfl, rfl⟩ := hr
    simp only at hI
    refine ⟨hcfg, Or.inl ?_⟩
    rcases hI with ⟨hrel, hcur, hfun⟩ | ⟨⟨rev, hrel⟩, hcur, hdir, hfun⟩ |
      ⟨⟨rev, hrel⟩, hprev, htmp, hdir, hfun⟩
    · simp only [hfun, List.reverse_nil, List.foldl_nil]
      exact ⟨hrel, hcur⟩
    · simp only [hfun, List.reverse_cons, List.reverse_nil, List.nil_append, List.foldl_cons,
        List.foldl_nil, RollbackFunc.call, hdir, CleanupRelease_calm env hcalm, hrel]
      exact ⟨filter_staged rs0
        { name := env.timestamp, isDir := true, modTime := env.now, revision := rev } hfresh,
        hcur⟩
    · obtain ⟨t, prev, hrb⟩ := Rollback_calm env hcalm w e0.name hprev htmp
      simp only [hfun, List.reverse_cons, List.reverse_nil, List.nil_append,
        List.singleton_append, List.foldl_cons, List.foldl_nil, RollbackFunc.call, hdir, hrb,
        CleanupRelease_calm env hcalm, hrel]
      exact ⟨filter_staged rs0
        { name := env.timestamp, isDir := true, modTime := env.now, revision := rev } hfresh,
        trivial⟩
  | StateFinalize =>
    simp only [stateHandlers, Option.some.injEq] at hh; subst hh
    have hkeep1 : 1 ≤ ctx.Config.Deploy.KeepReleases := by rw [hcfg]; exact hkeep
    have hnext : next = StateEnd ∧ ctx1 = ctx := by
      rcases handleFinalize_returns env ctx w with ⟨v, hv⟩ | ⟨text, v, hv, _⟩
      · rw [hv] at hr
        simp only [Step.ret.injEq, true_and] at hr
        exact ⟨hr.1.symm, hr.2.1.symm⟩
      · rw [hv] at hr; cases hr
    obtain ⟨rfl, rfl⟩ := hnext
    refine ⟨hcfg, ?_⟩
    simp only at hI ⊢
    rcases hI with ⟨hrel, hcur⟩ | ⟨⟨rev, hrel⟩, hcur⟩
    · exact live_after_pruning env hcalm w w1 ctx1 ctx1 StateEnd hkeep1
        ⟨by rw [hrel]; exact hnodup, by rw [hrel]; exact hne⟩ e0 (by rw [hrel]; exact he0)
        hdir0 (by rw [hrel]; exact hnew0) hcur hr
    · have hnotin : env.timestamp ∉ rs0.map (fun e => e.name) := by
        intro hmem
        obtain ⟨d, hd, hdn⟩ := List.mem_map.mp hmem
        simp only [List.find?_eq_none] at hfresh
        exact hfresh d hd (by simpa using hdn)
      refine live_after_pruning env hcalm w w1 ctx1 ctx1 StateEnd hkeep1 ?_
        { name := env.timestamp, isDir := true, modTime := env.now, revision := rev }
        (by rw [hrel]; simp) rfl ?_ hcur hr
      · constructor
        · rw [hrel, List.map_append, List.nodup_append]
          refine ⟨hnodup, by simp, ?_⟩
          intro x hx hx2
          simp only [List.map_cons, List.map_nil, List.mem_singleton] at hx2
          exact hnotin (hx2 ▸ hx)
        · rw [hrel]
          intro d hd
          rcases List.mem_append.mp hd with hd | hd
          · exact hne d hd
          · simp only [List.mem_singleton] at hd
            rw [hd]; exact hts
      · rw [hrel]
        intro d hd hdd hdne
        rcases List.mem_append.mp hd with hd | hd
        · exact hnow d hd hdd
        · simp only [List.mem_singleton] at hd
          exact absurd hd hdne


/-- C2 (as amended): take an environment that fails no file system call (hooks and the
provider may fail), a retention count of at least 1, and an app directory in which
`current` resolves to the release directory that was modified last, the timestamp of
the run names no entry of `releases` and the clock of the run is later than every
modification time.  Then `Execute` with the default handlers returns `nil` at
`StateEnd`, and after the run `current` resolves to an existing release directory:
neither the compensations nor the pruning have deleted it. -/
theorem run_keeps_current_live (env : Env) (cfg : Config) (force : Bool) (w : World)
    (fuel : Nat) (e0 : ReleaseEntry)
    (hcalm : env.fsCalm) (hkeep : 1 ≤ cfg.Deploy.KeepReleases) (hwf : w.WellFormed)
    (hts : env.timestamp ≠ "") (hfresh : w.entry env.timestamp = none)
    (he0 : e0 ∈ w.releases) (hdir0 : e0.isDir = true) (hcur : w.current = some e0.name)
    (hnew0 : ∀ d ∈ w.releases, d.isDir = true → d ≠ e0 → d.modTime < e0.modTime)
    (hnow : ∀ d ∈ w.releases, d.isDir = true → d.modTime < env.now)
    (hfuel : 10 ≤ fuel) :
    ∃ r, (New env).Execute (newContext cfg force) w fuel = some r ∧
      r.outcome = Outcome.nil ∧ r.currentState = StateEnd ∧
      ∃ t, r.world.current = some t ∧ r.world.isReleaseDir t = true := by
  obtain ⟨r, hr, ho, hs, _, _⟩ := Execute_terminates_of_keep_nonneg env
    (newContext cfg force) w fuel (by simp only [newContext]; omega) hfuel
  refine ⟨r, hr, ho, hs, ?_⟩
  exact Execute_invariant env (fun _ S ctx v => liveInv env cfg e0.name w.releases S ctx v)
    (fun _ _ v => ∃ t, v.current = some t ∧ v.isReleaseDir t = true)
    (fun _ S ctx v h next ctx1 v1 hh hstep hI =>
      liveInv_step env hcalm cfg hkeep w.releases hwf.1 hwf.2 hts hfresh e0 he0 hdir0 hnew0
        hnow S ctx v h next ctx1 v1 hh hstep hI)
    (by
      intro pre S ctx v h text ctx1 v1 hh hstep hI
      have hS := panic_only_in_Finalize env S ctx ctx1 v v1 text h hh hstep
      subst hS
      simp only [stateHandlers, Option.some.injEq] at hh; subst hh
      rcases handleFinalize_returns env ctx v with ⟨v2, hv⟩ | ⟨text2, v2, _, hneg⟩
      · rw [hv] at hstep; cases hstep
      · rw [hI.1] at hneg; omega)
    (fun _ _ _ hI => hI.2)
    fuel [] StateInit (newContext cfg force) w r
    ⟨rfl, rfl, hcur, rfl⟩ hr

theorem run_keeps_current_live_witness :
    calmEnv.fsCalm ∧ oneRelease.WellFormed ∧
    oneRelease.current = some "20240101_000001" ∧
    oneRelease.isReleaseDir "20240101_000001" = true ∧
    ∃ r, (New calmEnv).Execute (newContext Config.Default true) oneRelease 10 = some r ∧
      r.outcome = Outcome.nil ∧ r.currentState = StateEnd ∧
      ∃ t, r.world.current = some t ∧ r.world.isReleaseDir t = true :=
  ⟨fun _ _ _ => rfl, ⟨by decide, by decide⟩, rfl, by decide,
   run_keeps_current_live calmEnv Config.Default true oneRelease 10
     { name := "20240101_000001", isDir := true, modTime := 10, revision := some "abc123" }
     (fun _ _ _ => rfl) (by decide) ⟨by decide, by decide⟩ (by decide) (by decide)
     (by decide) rfl rfl (by decide) (by decide) (by decide)⟩


/-- The run that detects no change: when the lock is acquired, the provider is
initialised, the marker of the current release is read and equals the revision the
provider answers, and the force flag is off, `Execute` invokes the handlers of
`StateInit`, `StateDetectChanges` and `StateFinalize` and no other; it creates no entry
of `releases`, runs no hook, registers no compensation and leaves `current` and
`previous` alone.  With a retention count that is not negative it then returns `nil` at
`StateEnd`. -/
theorem noop_run_frame (env : Env) (cfg : Config) (w : World) (fuel : Nat) (rev : String)
    (hfuel : 4 ≤ fuel)
    (hlock : (lock.Acquire env w).1 = none)
    (hinit : (Provider.Init env (lock.Acquire env w).2).1 = none)
    (hcur : (release.CurrentRevision env (Provider.Init env (lock.Acquire env w).2).2).1
      = Except.ok rev)
    (hprov : (Provider.GetRevision env
        (release.CurrentRevision env (Provider.Init env (lock.Acquire env w).2).2).2).1
      = Except.ok rev) :
    ∃ r, (New env).Execute (newContext cfg false) w fuel = some r ∧
      r.invoked = [StateInit, StateDetectChanges, StateFinalize] ∧
      r.world.releases.Sublist w.releases ∧ r.world.hooksRun = w.hooksRun ∧
      r.ctx.rollbackFuncs = [] ∧ r.world.current = w.current ∧
      r.world.previous = w.previous ∧
      (0 ≤ cfg.Deploy.KeepReleases → r.outcome = Outcome.nil ∧ r.currentState = StateEnd) := by
  obtain ⟨fuel, rfl⟩ : ∃ k, fuel = k + 4 := ⟨fuel - 4, by omega⟩
  -- StateInit
  obtain ⟨t1, lk, ha⟩ := Acquire_frame env w
  have hi := Provider_Init_world env (lock.Acquire env w).2
  have h1 : handleInit env (newContext cfg false) w =
      Step.ret StateDetectChanges none (newContext cfg false)
        (Provider.Init env (lock.Acquire env w).2).2 := by
    unfold handleInit
    cases hacq : lock.Acquire env w with
    | mk e1 v1 =>
      rw [hacq] at hlock hinit
      simp only at hlock hinit
      subst hlock
      cases hpi : Provider.Init env v1 with
      | mk e2 v2 =>
        rw [hpi] at hinit
        simp only at hinit
        subst hinit
        simp only [hpi]
  -- StateDetectChanges
  have h2 : handleDetectChanges env (newContext cfg false)
      (Provider.Init env (lock.Acquire env w).2).2 =
      Step.ret StateFinalize none (newContext cfg false)
        (Provider.GetRevision env
          (release.CurrentRevision env (Provider.Init env (lock.Acquire env w).2).2).2).2 := by
    unfold handleDetectChanges
    cases hcr : release.CurrentRevision env (Provider.Init env (lock.Acquire env w).2).2 with
    | mk e1 v1 =>
      rw [hcr] at hcur hprov
      simp only at hcur hprov
      subst hcur
      cases hgr : Provider.GetRevision env v1 with
      | mk e2 v2 =>
        rw [hgr] at hprov
        simp only at hprov
        subst hprov
        simp [newContext, hgr]
  -- the world handed to StateFinalize differs from `w` in the lock marker and the tick
  obtain ⟨t2, hc⟩ := CurrentRevision_frame env (Provider.Init env (lock.Acquire env w).2).2
  have hg := GetRevision_frame env
    (release.CurrentRevision env (Provider.Init env (lock.Acquire env w).2).2).2
  have hworld : ∃ t l, (Provider.GetRevision env
      (release.CurrentRevision env (Provider.Init env (lock.Acquire env w).2).2).2).2
      = { w with tick := t, lockFile := l } := by
    rw [hg, hc, hi, ha]
    exact ⟨_, _, rfl⟩
  obtain ⟨t3, l3, hw3⟩ := hworld
  rw [hw3] at h2
  -- StateFinalize
  obtain ⟨t4, l4, ex, rs, hsub, hfin⟩ := handleFinalize_effect env (newContext cfg false)
    { w with tick := t3, lockFile := l3 }
  have e1 := Execute_step_ret env StateInit StateDetectChanges (newContext cfg false)
    (newContext cfg false) w _ (fuel + 3) _ rfl (by decide) h1 (by rw [isValidTransition_deployerAt]; decide)
  have e2 := Execute_step_ret env StateDetectChanges StateFinalize (newContext cfg false)
    (newContext cfg false) _ _ (fuel + 2) _ rfl (by decide) h2 (by rw [isValidTransition_deployerAt]; decide)
  rcases hfin with hfin | ⟨text, hfin⟩
  · have e3 := Execute_step_ret env StateFinalize StateEnd (newContext cfg false)
      (newContext cfg false) _ _ (fuel + 1) _ rfl (by decide) hfin (by rw [isValidTransition_deployerAt]; decide)
    rw [Execute_at_End] at e3
    refine ⟨{ outcome := Outcome.nil, currentState := StateEnd, ctx := newContext cfg false,
              world := { ({ w with tick := t3, lockFile := l3 } : World) with
                tick := t4, lockFile := l4, releasesExists := ex, releases := rs },
              invoked := [StateInit, StateDetectChanges, StateFinalize] }, ?_, ?_⟩
    · show (deployerAt env StateInit).Execute (newContext cfg false) w (fuel + 3 + 1) = _
      rw [e1, e2, e3]
      rfl
    · exact ⟨rfl, hsub, rfl, rfl, rfl, rfl, fun _ => ⟨rfl, rfl⟩⟩
  · have e3 := Execute_step_panic env StateFinalize (newContext cfg false)
      (newContext cfg false) _ _ (fuel + 1) text _ rfl (by decide) hfin
    refine ⟨{ outcome := Outcome.panic text, currentState := StateFinalize,
              ctx := newContext cfg false,
              world := { ({ w with tick := t3, lockFile := l3 } : World) with
                tick := t4, lockFile := l4, releasesExists := ex, releases := rs },
              invoked := [StateInit, StateDetectChanges, StateFinalize] }, ?_, ?_⟩
    · show (deployerAt env StateInit).Execute (newContext cfg false) w (fuel + 3 + 1) = _
      rw [e1, e2, e3]
      rfl
    · refine ⟨rfl, hsub, rfl, rfl, rfl, rfl, fun hk => ?_⟩
      rcases handleFinalize_returns env (newContext cfg false)
        { w with tick := t3, lockFile := l3 } with ⟨v, hv⟩ | ⟨tx, v, _, hneg⟩
      · rw [hv] at hfin; cases hfin
      · simp only [newContext] at hneg; omega

/-! ## Rollback of the links -/

theorem Rollback_swap_calm (env : Env) (hcalm : env.fsCalm) (w : World) (c p : String)
    (hc : w.current = some c) (hp : w.previous = some p) (htmp : w.currentTmp = none) :
    ∃ t, release.Rollback env w =
      (none, { w with tick := t, current := some p, previous := some c, currentTmp := none }) := by
  have h1 : env.fails w Op.readlinkPrevious = false := hcalm _ _ rfl
  have hp1 : w.next.previous = some p := hp
  obtain ⟨t, prev, hu⟩ := UpdateCurrent_calm env hcalm p w.next htmp
  obtain ⟨t2, hs⟩ := setPrevious_calm env hcalm w.next c hc
  have hup := UpdateCurrent_previous env p w.next
  rw [hs, hu] at hup
  simp only at hup
  subst hup
  unfold release.Rollback
  simp only [h1, Bool.false_eq_true, if_false, hp1, hu]
  exact ⟨_, rfl⟩

theorem promotions_links (env : Env) (hcalm : env.fsCalm) (v : World) (a b : String)
    (htmp : v.currentTmp = none) :
    ∃ t, (release.UpdateCurrent env b (release.UpdateCurrent env a v).2) =
      (none, { v with tick := t, current := some b, previous := some a, currentTmp := none }) := by
  obtain ⟨t1, prev1, h1⟩ := UpdateCurrent_calm env hcalm a v htmp
  rw [h1]
  obtain ⟨t2, prev2, h2⟩ := UpdateCurrent_calm env hcalm b
    { v with tick := t1, current := some a, previous := prev1, currentTmp := none } rfl
  obtain ⟨t3, hs⟩ := setPrevious_calm env hcalm
    { v with tick := t1, current := some a, previous := prev1, currentTmp := none } a rfl
  have hup := UpdateCurrent_previous env b
    { v with tick := t1, current := some a, previous := prev1, currentTmp := none }
  rw [hs, h2] at hup
  simp only at hup
  subst hup
  exact ⟨t2, h2⟩

/-- C11 (as amended): in an environment that fails no file system call, on an app
directory in which `current` points at `c`, `previous` points at `p` and no `current.tmp`
link is left over, `release.Rollback` returns `nil` and leaves `current` pointing at `p`
and `previous` pointing at `c`; a second `Rollback` returns `nil` and puts both links
back.  After the promotions of `a` then `b` (the `UpdateCurrent` of two successful
deployments) `current` points at `b` and `previous` at `a`, one `Rollback` makes
`current` point at `a` and a second one at `b` again. -/
theorem Rollback_swaps_current_and_previous (env : Env) (w : World) (c p : String)
    (hcalm : env.fsCalm) (hc : w.current = some c) (hp : w.previous = some p)
    (htmp : w.currentTmp = none) :
    (∃ t, release.Rollback env w =
      (none, { w with tick := t, current := some p, previous := some c, currentTmp := none })) ∧
    (∃ t, release.Rollback env (release.Rollback env w).2 =
      (none, { w with tick := t, current := some c, previous := some p, currentTmp := none })) ∧
    (∀ (v : World) (a b : String), v.currentTmp = none →
      ∃ v2, release.UpdateCurrent env b (release.UpdateCurrent env a v).2 = (none, v2) ∧
        v2.current = some b ∧ v2.previous = some a ∧
        (release.Rollback env v2).1 = none ∧
        (release.Rollback env v2).2.current = some a ∧
        (release.Rollback env v2).2.previous = some b ∧
        (release.Rollback env (release.Rollback env v2).2).1 = none ∧
        (release.Rollback env (release.Rollback env v2).2).2.current = some b ∧
        (release.Rollback env (release.Rollback env v2).2).2.previous = some a) := by
  have two : ∀ (u : World) (x y : String), u.current = some x → u.previous = some y →
      u.currentTmp = none →
      (∃ t, release.Rollback env u =
        (none, { u with tick := t, current := some y, previous := some x, currentTmp := none })) ∧
      (∃ t, release.Rollback env (release.Rollback env u).2 =
        (none, { u with tick := t, current := some x, previous := some y,
                        currentTmp := none })) := by
    intro u x y hx hy hu
    obtain ⟨t1, h1⟩ := Rollback_swap_calm env hcalm u x y hx hy hu
    refine ⟨⟨t1, h1⟩, ?_⟩
    rw [h1]
    obtain ⟨t2, h2⟩ := Rollback_swap_calm env hcalm
      { u with tick := t1, current := some y, previous := some x, currentTmp := none }
      y x rfl rfl rfl
    exact ⟨t2, h2⟩
  refine ⟨(two w c p hc hp htmp).1, (two w c p hc hp htmp).2, ?_⟩
  intro v a b hv
  obtain ⟨t, hpr⟩ := promotions_links env hcalm v a b hv
  refine ⟨_, hpr, rfl, rfl, ?_⟩
  obtain ⟨⟨t1, h1⟩, ⟨t2, h2⟩⟩ := two
    { v with tick := t, current := some b, previous := some a, currentTmp := none }
    b a rfl rfl rfl
  rw [h2, h1]
  exact ⟨rfl, rfl, rfl, rfl, rfl, rfl⟩

/-- C11 (counterexample): `current` and `previous` both point at releases, and a
`current.tmp` link left over by an interrupted promotion makes `Rollback` fail:
`current` keeps its target, and `previous` has already been pointed at it. -/
theorem Rollback_fails_on_stale_tmp :
    staleTmpWorld.current = some "20240101_000002" ∧
    staleTmpWorld.previous = some "20240101_000001" ∧
    release.Rollback calmEnv staleTmpWorld =
      (some (Error.msg "failed to rollback to previous release"),
        { staleTmpWorld with previous := some "20240101_000002", tick := 5 }) := by
  refine ⟨rfl, rfl, ?_⟩
  rfl

theorem Rollback_swaps_current_and_previous_witness :
    calmEnv.fsCalm ∧ twoReleases.current = some "20240101_000002" ∧
    twoReleases.previous = some "20240101_000001" ∧ twoReleases.currentTmp = none ∧
    (∃ t, release.Rollback calmEnv twoReleases =
      (none, { twoReleases with tick := t, current := some "20240101_000001",
                                previous := some "20240101_000002", currentTmp := none })) :=
  ⟨fun _ _ _ => rfl, rfl, rfl, rfl,
   (Rollback_swaps_current_and_previous calmEnv twoReleases "20240101_000002"
      "20240101_000001" (fun _ _ _ => rfl) rfl rfl rfl).1⟩

/-! ## The lock marker -/

theorem Acquire_calm_absent (env : Env) (hcalm : env.fsCalm) (w : World)
    (h : w.lockFile = false) :
    ∃ t, lock.Acquire env w = (none, { w with tick := t, lockFile := true }) := by
  have h1 : env.fails w.next Op.lockWrite = false := hcalm _ _ rfl
  have h2 : w.next.lockFile = false := h
  unfold lock.Acquire
  simp only [h1, h2, Bool.false_and, Bool.false_eq_true, if_false]
  exact ⟨_, rfl⟩

theorem Acquire_calm_present (env : Env) (hcalm : env.fsCalm) (w : World)
    (h : w.lockFile = true) :
    lock.Acquire env w =
      (some (Error.msg "deployment already in progress, lock file exists"),
        { w with tick := w.tick + 1 }) := by
  have h1 : env.fails w Op.lockStat = false := hcalm _ _ rfl
  have h2 : w.next.lockFile = true := h
  unfold lock.Acquire
  simp only [h1, h2, Bool.not_false, Bool.and_self, if_true]
  rfl

theorem Release_calm (env : Env) (hcalm : env.fsCalm) (w : World) :
    (lock.Release env w).2 = { w with tick := w.tick + 1, lockFile := false } ∧
    (w.lockFile = true → (lock.Release env w).1 = none) := by
  have h1 : env.fails w Op.lockRemove = false := hcalm _ _ rfl
  cases w with
  | mk lf cur prev tmp ex rs hr tk =>
    cases lf with
    | false =>
      refine ⟨?_, fun h => by cases h⟩
      unfold lock.Release
      simp only [h1, Bool.false_or, World.next, Bool.not_false, if_true]
    | true =>
      refine ⟨?_, fun _ => ?_⟩
      · unfold lock.Release
        simp only [h1, Bool.false_or, World.next, Bool.not_true, Bool.false_eq_true, if_false]
      · unfold lock.Release
        simp only [h1, Bool.false_or, World.next, Bool.not_true, Bool.false_eq_true, if_false]

/-- C12 (as amended): in an environment that fails no file system call, for every app
directory: `lock.Acquire` returns `nil` and creates the marker when the marker is
absent; it returns the error "deployment already in progress" and leaves the marker in
place when the marker is present, so a second `Acquire` with no `Release` in between
fails; `lock.Release` leaves the marker absent (and returns `nil` when it was present),
so an `Acquire` that follows a `Release` returns `nil`. -/
theorem lock_protocol (env : Env) (w : World) (hcalm : env.fsCalm) :
    (w.lockFile = false →
      ∃ t, lock.Acquire env w = (none, { w with tick := t, lockFile := true })) ∧
    (w.lockFile = true →
      lock.Acquire env w =
        (some (Error.msg "deployment already in progress, lock file exists"),
          { w with tick := w.tick + 1 })) ∧
    ((lock.Acquire env (lock.Acquire env w).2).1 =
        some (Error.msg "deployment already in progress, lock file exists") ∧
      (lock.Acquire env (lock.Acquire env w).2).2.lockFile = true) ∧
    ((lock.Release env w).2 = { w with tick := w.tick + 1, lockFile := false } ∧
      (w.lockFile = true → (lock.Release env w).1 = none)) ∧
    (lock.Acquire env (lock.Release env w).2).1 = none := by
  refine ⟨Acquire_calm_absent env hcalm w, Acquire_calm_present env hcalm w, ?_,
    Release_calm env hcalm w, ?_⟩
  · have hheld : (lock.Acquire env w).2.lockFile = true := by
      cases hl : w.lockFile with
      | false =>
        obtain ⟨t, h⟩ := Acquire_calm_absent env hcalm w hl
        rw [h]
      | true =>
        rw [Acquire_calm_present env hcalm w hl]
        exact hl
    rw [Acquire_calm_present env hcalm _ hheld]
    exact ⟨rfl, hheld⟩
  · obtain ⟨t, h⟩ := Acquire_calm_absent env hcalm (lock.Release env w).2
      (by rw [(Release_calm env hcalm w).1])
    rw [h]

/-- C12 (counterexample): the marker is absent and cannot be written (`os.WriteFile`
fails): `Acquire` returns the error and the marker stays absent. -/
theorem Acquire_fails_when_marker_cannot_be_written :
    freshWorld.lockFile = false ∧
    lock.Acquire lockWriteFailsEnv freshWorld =
      (some (Error.msg "write deploy.lock"), { freshWorld with tick := 2 }) := by
  refine ⟨rfl, ?_⟩
  rfl

theorem lock_protocol_witness :
    calmEnv.fsCalm ∧
    (lock.Acquire calmEnv freshWorld).1 = none ∧
    (lock.Acquire calmEnv freshWorld).2.lockFile = true ∧
    (lock.Acquire calmEnv (lock.Acquire calmEnv freshWorld).2).1 =
      some (Error.msg "deployment already in progress, lock file exists") ∧
    (lock.Acquire calmEnv (lock.Release calmEnv freshWorld).2).1 = none :=
  ⟨fun _ _ _ => rfl, rfl, rfl,
   (lock_protocol calmEnv freshWorld (fun _ _ _ => rfl)).2.2.1.1,
   (lock_protocol calmEnv freshWorld (fun _ _ _ => rfl)).2.2.2.2⟩

/-! ## The lock marker at the end of a run -/

theorem handleFinalize_lock_calm (env : Env) (hcalm : env.fsCalm) (ctx ctx1 : Ctx)
    (w w1 : World) (next : State)
    (h : handleFinalize env ctx w = Step.ret next none ctx1 w1) : w1.lockFile = false := by
  unfold handleFinalize at h
  split at h
  · cases h
  · simp only [Step.ret.injEq, true_and] at h
    obtain ⟨_, _, rfl⟩ := h
    rw [(Release_calm env hcalm _).1]

/-- In an environment that fails no file system call and with a retention count that is
not negative, no run leaves the lock marker behind, whether or not it created it. -/
theorem run_leaves_no_marker (env : Env) (cfg : Config) (force : Bool) (w : World)
    (fuel : Nat) (r : Run Ctx World) (hcalm : env.fsCalm)
    (hkeep : 0 ≤ cfg.Deploy.KeepReleases)
    (hrun : (New env).Execute (newContext cfg force) w fuel = some r) :
    r.world.lockFile = false := by
  refine Execute_invariant env
    (fun _ S ctx v => ctx.Config = cfg ∧ (S = StateEnd → v.lockFile = false))
    (fun _ _ v => v.lockFile = false) ?_ ?_ (fun _ _ _ hI => hI.2 rfl)
    fuel [] StateInit (newContext cfg force) w r ⟨rfl, fun h => by cases h⟩ hrun
  · intro pre S ctx v h next ctx1 v1 hh hstep hI
    obtain ⟨hcfg, _⟩ := hI
    cases S with
    | StateEnd => simp [stateHandlers] at hh
    | StateInit =>
      simp only [stateHandlers, Option.some.injEq] at hh; subst hh
      obtain ⟨n, t, lk, he, hn⟩ := handleInit_effect env ctx v
      rw [he] at hstep
      simp only [Step.ret.injEq, true_and] at hstep
      obtain ⟨rfl, rfl, rfl⟩ := hstep
      exact ⟨hcfg, fun h => by rcases hn with rfl | rfl <;> cases h⟩
    | StateDetectChanges =>
      simp only [stateHandlers, Option.some.injEq] at hh; subst hh
      obtain ⟨n, t, he, hn⟩ := handleDetectChanges_effect env ctx v
      rw [he] at hstep
      simp only [Step.ret.injEq, true_and] at hstep
      obtain ⟨rfl, rfl, rfl⟩ := hstep
      exact ⟨hcfg, fun h => by rcases hn with rfl | rfl | rfl <;> cases h⟩
    | StateClone =>
      simp only [stateHandlers, Option.some.injEq] at hh; subst hh
      obtain ⟨n, c1, t, ex, rs, hk, he, hn⟩ := handleClone_effect env ctx v
      rw [he] at hstep
      simp only [Step.ret.injEq, true_and] at hstep
      obtain ⟨rfl, rfl, rfl⟩ := hstep
      rcases hn with ⟨rfl, _, hc, _⟩ | ⟨hn, rfl⟩
      · exact ⟨hc.trans hcfg, fun h => by cases h⟩
      · exact ⟨hcfg, fun h => by rcases hn with rfl | rfl <;> cases h⟩
    | StateBuild =>
      simp only [stateHandlers, Option.some.injEq] at hh; subst hh
      obtain ⟨n, he, hn⟩ := handleBuild_effect env ctx v
      rw [he] at hstep
      simp only [Step.ret.injEq, true_and] at hstep
      obtain ⟨rfl, rfl, rfl⟩ := hstep
      exact ⟨hcfg, fun h => by rcases hn with rfl | rfl <;> cases h⟩
    | StateDeploy =>
      simp only [stateHandlers, Option.some.injEq] at hh; subst hh
      obtain ⟨n, c1, t, cur, prev, tmp, hk, he, hn⟩ := handleDeploy_effect env ctx v
      rw [he] at hstep
      simp only [Step.ret.injEq, true_and] at hstep
      obtain ⟨rfl, rfl, rfl⟩ := hstep
      rcases hn with ⟨rfl, rfl, _⟩ | ⟨rfl, rfl, _⟩
      · exact ⟨hcfg, fun h => by cases h⟩
      · exact ⟨hcfg, fun h => by cases h⟩
    | StatePostDeploy =>
      simp only [stateHandlers, Option.some.injEq] at hh; subst hh
      obtain ⟨n, he, hn⟩ := handlePostDeploy_effect env ctx v
      rw [he] at hstep
      simp only [Step.ret.injEq, true_and] at hstep
      obtain ⟨rfl, rfl, rfl⟩ := hstep
      exact ⟨hcfg, fun h => by rcases hn with rfl | rfl <;> cases h⟩
    | StateVerify =>
      simp only [stateHandlers, Option.some.injEq] at hh; subst hh
      obtain ⟨n, he, hn⟩ := handleVerify_effect env ctx v
      rw [he] at hstep
      simp only [Step.ret.injEq, true_and] at hstep
      obtain ⟨rfl, rfl, rfl⟩ := hstep
      exact ⟨hcfg, fun h => by rcases hn with rfl | rfl <;> cases h⟩
    | StateError =>
      simp only [stateHandlers, Option.some.injEq] at hh; subst hh
      rw [handleError_eq] at hstep
      simp only [Step.ret.injEq, true_and] at hstep
      obtain ⟨rfl, rfl, rfl⟩ := hstep
      exact ⟨hcfg, fun h => by cases h⟩
    | StateFinalize =>
      simp only [stateHandlers, Option.some.injEq] at hh; subst hh
      have hl := handleFinalize_lock_calm env hcalm ctx ctx1 v v1 next hstep
      obtain ⟨t, lk, ex, rs, _, hfin⟩ := handleFinalize_effect env ctx v
      rcases hfin with hfin | ⟨text, hfin⟩
      · rw [hfin] at hstep
        simp only [Step.ret.injEq, true_and] at hstep
        exact ⟨hstep.2.1 ▸ hcfg, fun _ => hl⟩
      · rw [hfin] at hstep; cases hstep
  · intro pre S ctx v h text ctx1 v1 hh hstep hI
    have hS := panic_only_in_Finalize env S ctx ctx1 v v1 text h hh hstep
    subst hS
    simp only [stateHandlers, Option.some.injEq] at hh; subst hh
    rcases handleFinalize_returns env ctx v with ⟨v2, hv⟩ | ⟨text2, v2, _, hneg⟩
    · rw [hv] at hstep; cases hstep
    · rw [hI.1] at hneg; omega

/-- C14 (failing input): a run that starts while the lock marker exists fails to
acquire the lock in `StateInit`, goes through `StateError` to `StateFinalize`, and there
`lock.Release` removes the marker it did not create: at `StateEnd` the marker is gone. -/
theorem run_without_lock_removes_marker :
    lockedWorld.lockFile = true ∧
    (lock.Acquire calmEnv lockedWorld).1 =
      some (Error.msg "deployment already in progress, lock file exists") ∧
    ((New calmEnv).Execute (newContext Config.Default false) lockedWorld 10).map
        (fun r => (r.outcome, r.currentState, r.invoked, r.world.lockFile))
      = some (Outcome.nil, StateEnd, [StateInit, StateError, StateFinalize], false) := by
  refine ⟨rfl, rfl, ?_⟩
  rfl

/-! ## The slice bound of the pruning -/

theorem CleanupOldReleases_total_of_nonneg (env : Env) (keep : Int) (w : World)
    (hkeep : 0 ≤ keep) :
    (release.CleanupOldReleases env keep w).1 = Outcome.nil ∨
      ∃ e, (release.CleanupOldReleases env keep w).1 = Outcome.error e := by
  cases h : release.CleanupOldReleases env keep w with
  | mk o v =>
    cases o with
    | nil => exact Or.inl rfl
    | error e => exact Or.inr ⟨e, rfl⟩
    | panic text =>
      have := CleanupOldReleases_panic env keep w v text h
      omega

/-- C15 (failing input): with the retention count -1 and an empty `releases`
directory the slice expression takes one element of a slice without any, and
`CleanupOldReleases` fails with a slice bound out of range.  With three release
directories, held in a slice of capacity four, the bound 4 passes the check: the three
directories are deleted, and the zero value that follows them names the `releases`
directory itself, which is deleted as well. -/
theorem CleanupOldReleases_negative_keep :
    release.CleanupOldReleases calmEnv (-1) freshWorld =
      (Outcome.panic "slice bounds out of range", { freshWorld with tick := 1 }) ∧
    release.CleanupOldReleases doublingEnv (-1) threeReleases =
      (Outcome.nil, { freshWorld with releasesExists := false, tick := 8 }) := by
  constructor
  · rfl
  · rfl

/-! ## The revision marker -/

theorem CurrentRevision_calm (env : Env) (hcalm : env.fsCalm) (w : World) (t rev : String)
    (e : ReleaseEntry) (hcur : w.current = some t) (he : w.entry t = some e)
    (hdir : e.isDir = true) (hrev : e.revision = some rev) :
    release.CurrentRevision env w = (Except.ok rev, { w with tick := w.tick + 2 }) := by
  have h1 : env.fails w Op.readlinkCurrent = false := hcalm _ _ rfl
  have h2 : env.fails w.next Op.readRevision = false := hcalm _ _ rfl
  have hc1 : w.next.current = some t := hcur
  have he1 : w.next.next.entry t = some e := he
  unfold release.CurrentRevision
  simp only [h1, Bool.false_eq_true, if_false, hc1, h2, he1, hdir, hrev]
  rfl

theorem deployedInv_step (env : Env) (hcalm : env.fsCalm) (cfg : Config)
    (hkeep : 1 ≤ cfg.Deploy.KeepReleases) (rs0 : List ReleaseEntry)
    (hnodup : (rs0.map (fun e => e.name)).Nodup) (hne : ∀ e ∈ rs0, e.name ≠ "")
    (hts : env.timestamp ≠ "")
    (hfresh : rs0.find? (fun e => e.name == env.timestamp) = none)
    (hnow : ∀ d ∈ rs0, d.isDir = true → d.modTime < env.now)
    (pre : List State) (S : State) (ctx : Ctx) (w : World) (h : StateHandler Ctx World)
    (next : State) (ctx1 : Ctx) (w1 : World) (hh : stateHandlers env S = some h)
    (hr : h ctx w = Step.ret next none ctx1 w1)
    (hI : deployedInv env cfg rs0 pre S ctx w) :
    deployedInv env cfg rs0 (pre ++ [S]) next ctx1 w1 := by
  obtain ⟨hcfg, hI⟩ := hI
  cases S with
  | StateEnd => simp [stateHandlers] at hh
  | StateInit =>
    simp only [stateHandlers, Option.some.injEq] at hh; subst hh
    obtain ⟨n, t, lk, he, hn⟩ := handleInit_effect env ctx w
    rw [he] at hr
    simp only [Step.ret.injEq, true_and] at hr
    obtain ⟨rfl, rfl, rfl⟩ := hr
    simp only at hI
    rcases hn with rfl | rfl
    · exact ⟨hcfg, hI.1, by simpa using hI.2⟩
    · exact ⟨hcfg, trivial⟩
  | StateDetectChanges =>
    simp only [stateHandlers, Option.some.injEq] at hh; subst hh
    obtain ⟨n, t, he, hn⟩ := handleDetectChanges_effect env ctx w
    rw [he] at hr
    simp only [Step.ret.injEq, true_and] at hr
    obtain ⟨rfl, rfl, rfl⟩ := hr
    simp only at hI
    rcases hn with rfl | rfl | rfl
    · exact ⟨hcfg, hI.1, by simpa using hI.2⟩
    · exact ⟨hcfg, Or.inr (Or.inl (by simpa using hI.2))⟩
    · exact ⟨hcfg, trivial⟩
  | StateClone =>
    simp only [stateHandlers, Option.some.injEq] at hh; subst hh
    simp only at hI
    obtain ⟨hrel, hpre⟩ := hI
    have hfreshw : w.entry env.timestamp = none := by
      simp only [World.entry, hrel]; exact hfresh
    rcases handleClone_calm env hcalm ctx w hfreshw with ⟨t, he⟩ | ⟨n, t, hk, he, hn⟩
    · rw [he] at hr
      simp only [Step.ret.injEq, true_and] at hr
      obtain ⟨rfl, rfl, rfl⟩ := hr
      exact ⟨hcfg, trivial⟩
    · rw [he] at hr
      simp only [Step.ret.injEq, true_and] at hr
      obtain ⟨rfl, rfl, rfl⟩ := hr
      rcases hn with rfl | rfl
      · refine ⟨hcfg, ?_, rfl, by simpa using hpre⟩
        simp only [stagedWithMarker, hrel]
      · exact ⟨hcfg, trivial⟩
  | StateBuild =>
    simp only [stateHandlers, Option.some.injEq] at hh; subst hh
    obtain ⟨n, he, hn⟩ := handleBuild_effect env ctx w
    rw [he] at hr
    simp only [Step.ret.injEq, true_and] at hr
    obtain ⟨rfl, rfl, rfl⟩ := hr
    simp only at hI
    rcases hn with rfl | rfl
    · exact ⟨hcfg, hI.1, hI.2.1, by simpa using hI.2.2⟩
    · exact ⟨hcfg, trivial⟩
  | StateDeploy =>
    simp only [stateHandlers, Option.some.injEq] at hh; subst hh
    simp only at hI
    obtain ⟨hst, hdir, hpre⟩ := hI
    obtain ⟨n, c1, t, cur, prev, tmp, hk, he, hn⟩ := handleDeploy_effect env ctx w
    rw [he] at hr
    simp only [Step.ret.injEq, true_and] at hr
    obtain ⟨rfl, rfl, rfl⟩ := hr
    rcases hn with ⟨rfl, rfl, rfl⟩ | ⟨rfl, rfl, rfl, rfl⟩
    · exact ⟨hcfg, trivial⟩
    · exact ⟨hcfg, hst, by simp only [hdir], by simpa using hpre⟩
  | StatePostDeploy =>
    simp only [stateHandlers, Option.some.injEq] at hh; subst hh
    obtain ⟨n, he, hn⟩ := handlePostDeploy_effect env ctx w
    rw [he] at hr
    simp only [Step.ret.injEq, true_and] at hr
    obtain ⟨rfl, rfl, rfl⟩ := hr
    simp only at hI
    rcases hn with rfl | rfl
    · exact ⟨hcfg, hI.1, hI.2.1⟩
    · exact ⟨hcfg, trivial⟩
  | StateVerify =>
    simp only [stateHandlers, Option.some.injEq] at hh; subst hh
    obtain ⟨n, he, hn⟩ := handleVerify_effect env ctx w
    rw [he] at hr
    simp only [Step.ret.injEq, true_and] at hr
    obtain ⟨rfl, rfl, rfl⟩ := hr
    simp only at hI
    rcases hn with rfl | rfl
    · exact ⟨hcfg, Or.inr (Or.inr ⟨hI.1, hI.2⟩)⟩
    · exact ⟨hcfg, trivial⟩
  | StateError =>
    simp only [stateHandlers, Option.some.injEq] at hh; subst hh
    rw [handleError_eq] at hr
    simp only [Step.ret.injEq, true_and] at hr
    obtain ⟨rfl, rfl, rfl⟩ := hr
    exact ⟨hcfg, Or.inl (by simp)⟩
  | StateFinalize =>
    simp only [stateHandlers, Option.some.injEq] at hh; subst hh
    have hkeep1 : 1 ≤ ctx.Config.Deploy.KeepReleases := by rw [hcfg]; exact hkeep
    have hnext : next = StateEnd ∧ ctx1 = ctx := by
      rcases handleFinalize_returns env ctx w with ⟨v, hv⟩ | ⟨text, v, hv, _⟩
      · rw [hv] at hr
        simp only [Step.ret.injEq, true_and] at hr
        exact ⟨hr.1.symm, hr.2.1.symm⟩
      · rw [hv] at hr; cases hr
    obtain ⟨rfl, rfl⟩ := hnext
    refine ⟨hcfg, ?_⟩
    simp only at hI ⊢
    rcases hI with herr | hnv | ⟨hrel, hcur⟩
    · exact Or.inl (by simp [herr])
    · exact Or.inr (Or.inl (by simpa using hnv))
    · refine Or.inr (Or.inr ?_)
      have hlock := handleFinalize_lock_calm env hcalm ctx1 ctx1 w w1 StateEnd hr
      obtain ⟨hrel1, hc1⟩ := handleFinalize_releases env ctx1 ctx1 w w1 StateEnd hr
      have hnotin : env.timestamp ∉ rs0.map (fun e => e.name) := by
        intro hmem
        obtain ⟨d, hd, hdn⟩ := List.mem_map.mp hmem
        simp only [List.find?_eq_none] at hfresh
        exact hfresh d hd (by simpa using hdn)
      have hwf : w.WellFormed := by
        constructor
        · rw [hrel, List.map_append, List.nodup_append]
          refine ⟨hnodup, by simp, ?_⟩
          intro x hx hx2
          simp only [List.map_cons, List.map_nil, List.mem_singleton] at hx2
          exact hnotin (hx2 ▸ hx)
        · rw [hrel]
          intro d hd
          rcases List.mem_append.mp hd with hd | hd
          · exact hne d hd
          · simp only [List.mem_singleton] at hd
            rw [hd]; exact hts
      have hmem := newest_survives_pruning env hcalm w _ hkeep1 hwf
        { name := env.timestamp, isDir := true, modTime := env.now,
          revision := some env.revision }
        (by rw [hrel]; simp) rfl
        (by
          rw [hrel]
          intro d hd hdd hdne
          rcases List.mem_append.mp hd with hd | hd
          · exact hnow d hd hdd
          · simp only [List.mem_singleton] at hd
            exact absurd hd hdne)
      obtain ⟨t, ex, rs, hw, hsub⟩ :=
        CleanupOldReleases_frame env ctx1.Config.Deploy.KeepReleases w
      rw [hw] at hrel1 hmem
      simp only at hrel1 hmem
      have hnodup1 : (w1.releases.map (fun e => e.name)).Nodup := by
        rw [hrel1]; exact hwf.1.sublist (hsub.map _)
      have hfind := find_of_mem_of_nodup w1.releases hnodup1 _ (by rw [hrel1]; exact hmem)
      exact ⟨hlock, by rw [hc1, hcur], hfind⟩

theorem Provider_Init_calm (env : Env) (hcalm : env.calm) (w : World) :
    Provider.Init env w = (none, w.next) := by
  have h : env.fails w Op.providerInit = false := hcalm _ _
  unfold Provider.Init
  simp only [h, Bool.false_eq_true, if_false]

theorem GetRevision_calm (env : Env) (hcalm : env.calm) (w : World) :
    Provider.GetRevision env w = (Except.ok env.revision, w.next) := by
  have h : env.fails w Op.providerGetRevision = false := hcalm _ _
  unfold Provider.GetRevision
  simp only [h, Bool.false_eq_true, if_false]

/-- C13 (as amended): the marker is written and read back unchanged, whatever string the
provider answers.  Take a run of `Execute` with the default handlers, in an environment
that fails no file system call and with a retention count of at least 1, on an app
directory in which the timestamp of the run names no entry of `releases` and the clock
of the run is later than every modification time; let the run reach `StateVerify` and
not go through `StateError` (a successful deployment, the first one or a later one).
Then, when no call fails afterwards, `release.CurrentRevision` returns exactly the
revision the provider answered during the run, and a following run with the same
provider revision and the force flag off returns `nil` at `StateEnd` after the handlers
of `StateInit`, `StateDetectChanges` and `StateFinalize` only, and adds no entry to
`releases`. -/
theorem revision_marker_round_trip (env env2 : Env) (cfg : Config) (force : Bool)
    (w : World) (fuel fuel2 : Nat) (r : Run Ctx World)
    (hcalm : env.fsCalm) (hkeep : 1 ≤ cfg.Deploy.KeepReleases) (hwf : w.WellFormed)
    (hts : env.timestamp ≠ "") (hfresh : w.entry env.timestamp = none)
    (hnow : ∀ d ∈ w.releases, d.isDir = true → d.modTime < env.now)
    (hrun : (New env).Execute (newContext cfg force) w fuel = some r)
    (hverify : StateVerify ∈ r.invoked) (hnoerr : StateError ∉ r.invoked)
    (hcalm2 : env2.calm) (hrev : env2.revision = env.revision) (hfuel2 : 4 ≤ fuel2) :
    (release.CurrentRevision env2 r.world).1 = Except.ok env.revision ∧
    ∃ r2, (New env2).Execute (newContext cfg false) r.world fuel2 = some r2 ∧
      r2.outcome = Outcome.nil ∧ r2.currentState = StateEnd ∧
      r2.invoked = [StateInit, StateDetectChanges, StateFinalize] ∧
      r2.world.releases.Sublist r.world.releases := by
  have hinv := Execute_invariant env
    (fun pre S ctx v => deployedInv env cfg w.releases pre S ctx v)
    (fun pre _ v => StateError ∈ pre ∨ StateVerify ∉ pre ∨
      (v.lockFile = false ∧ v.current = some env.timestamp ∧
        v.entry env.timestamp = some
          { name := env.timestamp, isDir := true, modTime := env.now,
            revision := some env.revision }))
    (fun pre S ctx v h next ctx1 v1 hh hstep hI =>
      deployedInv_step env hcalm cfg hkeep w.releases hwf.1 hwf.2 hts hfresh hnow
        pre S ctx v h next ctx1 v1 hh hstep hI)
    (by
      intro pre S ctx v h text ctx1 v1 hh hstep hI
      have hS := panic_only_in_Finalize env S ctx ctx1 v v1 text h hh hstep
      subst hS
      simp only [stateHandlers, Option.some.injEq] at hh; subst hh
      rcases handleFinalize_returns env ctx v with ⟨v2, hv⟩ | ⟨text2, v2, _, hneg⟩
      · rw [hv] at hstep; cases hstep
      · rw [hI.1] at hneg; omega)
    (fun _ _ _ hI => hI.2)
    fuel [] StateInit (newContext cfg force) w r
    ⟨rfl, rfl, by simp⟩ hrun
  simp only [List.nil_append] at hinv
  rcases hinv with herr | hnv | ⟨hl, hc, hentry⟩
  · exact absurd herr hnoerr
  · exact absurd hverify hnv
  · have hfs2 : env2.fsCalm := fun t op _ => hcalm2 t op
    have hread := CurrentRevision_calm env2 hfs2 r.world env.timestamp env.revision _
      hc hentry rfl rfl
    refine ⟨by rw [hread], ?_⟩
    obtain ⟨t, ha⟩ := Acquire_calm_absent env2 hfs2 r.world hl
    have hi := Provider_Init_calm env2 hcalm2 (lock.Acquire env2 r.world).2
    have hread2 := CurrentRevision_calm env2 hfs2
      (Provider.Init env2 (lock.Acquire env2 r.world).2).2 env.timestamp env.revision _
      (by rw [hi, ha]; exact hc) (by rw [hi, ha]; exact hentry) rfl rfl
    obtain ⟨r2, hr2, hinv2, hsub, _, _, _, _, hout⟩ := noop_run_frame env2 cfg r.world fuel2
      env.revision hfuel2 (by rw [ha]) (by rw [hi])
      (by rw [hread2])
      (by rw [GetRevision_calm env2 hcalm2, hrev])
    obtain ⟨ho, hs⟩ := hout (by omega)
    exact ⟨r2, hr2, ho, hs, hinv2, hsub⟩

/-- C13 (counterexample): with the retention count 0 the first deployment succeeds and
its pruning deletes the release it has just made live: `CurrentRevision` then fails
instead of returning the revision, and the following run goes through `StateError`. -/
theorem keep_zero_loses_revision_marker :
    ((New calmEnv).Execute (newContext (configKeeping 0) false) freshWorld 10).map
        (fun r => (r.outcome, r.currentState, r.invoked, r.world.current, r.world.releases,
          (release.CurrentRevision calmEnv r.world).1,
          ((New calmEnv).Execute (newContext (configKeeping 0) false) r.world 10).map
            (fun r2 => r2.invoked)))
      = some (Outcome.nil, StateEnd,
          [StateInit, StateDetectChanges, StateClone, StateBuild, StateDeploy,
           StatePostDeploy, StateVerify, StateFinalize],
          some "20240102_150405", [],
          Except.error (Error.msg "failed to read revision file"),
          some [StateInit, StateDetectChanges, StateError, StateFinalize]) := by
  rfl

theorem revision_marker_round_trip_witness :
    paddedEnv.fsCalm ∧ paddedEnv.calm ∧ freshWorld.WellFormed ∧
    paddedEnv.revision = " abc123\n" ∧
    ∃ r, (New paddedEnv).Execute (newContext Config.Default false) freshWorld 10 = some r ∧
      StateVerify ∈ r.invoked ∧ StateError ∉ r.invoked ∧
      (release.CurrentRevision paddedEnv r.world).1 = Except.ok " abc123\n" ∧
      ∃ r2, (New paddedEnv).Execute (newContext Config.Default false) r.world 4 = some r2 ∧
        r2.outcome = Outcome.nil ∧ r2.currentState = StateEnd ∧
        r2.invoked = [StateInit, StateDetectChanges, StateFinalize] ∧
        r2.world.releases.Sublist r.world.releases := by
  obtain ⟨r, hr⟩ := Execute_returns paddedEnv 10 StateInit
    (newContext Config.Default false) freshWorld (by decide)
  have hinv : r.invoked = [StateInit, StateDetectChanges, StateClone, StateBuild, StateDeploy,
      StatePostDeploy, StateVerify, StateFinalize] := by
    have : ((New paddedEnv).Execute (newContext Config.Default false) freshWorld 10).map
        (fun r => r.invoked) = some [StateInit, StateDetectChanges, StateClone, StateBuild,
          StateDeploy, StatePostDeploy, StateVerify, StateFinalize] := by decide
    rw [show (New paddedEnv) = deployerAt paddedEnv StateInit from rfl, hr] at this
    simpa using this
  have hv : StateVerify ∈ r.invoked := by rw [hinv]; decide
  have he : StateError ∉ r.invoked := by rw [hinv]; decide
  exact ⟨fun _ _ _ => rfl, fun _ _ => rfl, ⟨by decide, by decide⟩, rfl, r, hr, hv, he,
    revision_marker_round_trip paddedEnv paddedEnv Config.Default false freshWorld 10 4 r
      (fun _ _ _ => rfl) (by decide) ⟨by decide, by decide⟩ (by decide) (by decide)
      (by decide) hr hv he (fun _ _ => rfl) rfl (by decide)⟩

end Deploy
